import Mathlib

/-!
# Handle lifecycle and readiness of the Telepathy connection proxy

A shallow embedding of `TelepathyQt4/Client/connection.cpp`.

* C++ `uint` is a natural number below `2 ^ 32`; `++` and `--` wrap around.
* C++ `int` (the `refcount` of a handle context) is an integer; `++` and `--`
  wrap around in two's complement.
* `QMap<uint, T>` is an association list kept in ascending key order,
  `QSet<uint>` a list without repetitions.
* `Q_ASSERT(c)` compiles to nothing when `QT_NO_DEBUG` is set.  The functions
  below give the behaviour of the statements that follow the assertion; the
  asserted conditions are separate Boolean definitions.
-/

namespace TelepathyQt

/-- Number of values of the C++ type `uint` (32 bits). -/
def UINT_RANGE : Nat := 4294967296

/-- The C++ expression `x + 1` on `uint`. -/
def uintInc (x : Nat) : Nat := (x + 1) % UINT_RANGE

/-- The C++ expression `x - 1` on `uint`. -/
def uintDec (x : Nat) : Nat := (x + (UINT_RANGE - 1)) % UINT_RANGE

/-! ## QMap and QSet -/

/-- `QMap<uint, α>`: key/value pairs. -/
abbrev QMap (α : Type) := List (Nat × α)

/-- `QSet<uint>`. -/
abbrev QSet := List Nat

namespace QMap

variable {α : Type}

/-- Lookup of a key (`QMap::find`), `none` when the key is absent. -/
def find (k : Nat) : QMap α → Option α
  | [] => none
  | (k', v) :: r => if k' = k then some v else find k r

/-- `QMap::contains`. -/
def contains (k : Nat) (m : QMap α) : Bool := (find k m).isSome

/-- `QMap::value(key, defaultValue)`; also the value read by `operator[]`,
which default-constructs a missing entry. -/
def value (k : Nat) (m : QMap α) (d : α) : α := (find k m).getD d

/-- `QMap::insert`: replaces the value of an existing key, otherwise adds the
pair at its place in ascending key order. -/
def insert (k : Nat) (v : α) : QMap α → QMap α
  | [] => [(k, v)]
  | (k', v') :: r =>
    if k < k' then (k, v) :: (k', v') :: r
    else if k = k' then (k, v) :: r
    else (k', v') :: insert k v r

/-- `QMap::remove`: drops every pair stored under the key. -/
def remove (k : Nat) (m : QMap α) : QMap α := m.filter (fun e => decide (e.1 ≠ k))

/-- `QMap::keys`: the keys, in the order of the map. -/
def keys (m : QMap α) : List Nat := m.map Prod.fst

end QMap

namespace QSet

/-- `QSet::contains`. -/
def contains (h : Nat) (s : QSet) : Bool := decide (h ∈ s)

/-- `QSet::insert`: no effect when the value is already a member. -/
def insert (h : Nat) (s : QSet) : QSet := if h ∈ s then s else s ++ [h]

/-- `QSet::remove`. -/
def remove (h : Nat) (s : QSet) : QSet := s.filter (fun x => decide (x ≠ h))

/-- `QSet::toList`. -/
def toList (s : QSet) : List Nat := s

end QSet

/-! ## Handle tracking: `Connection::Private::HandleContext` -/

/-- `HandleContext::Type`: the per-handle-type tables.  The default value is
the one built by the constructor `Type()`. -/
structure TypeEntry where
  refcounts : QMap Nat := []
  toRelease : QSet := []
  requestsInFlight : Nat := 0
  releaseScheduled : Bool := false
  deriving DecidableEq, Repr

/-- `Connection::Private::HandleContext`; `refcount` counts the proxies that
share the context.  The default value is the one built by `HandleContext()`. -/
structure HandleContext where
  refcount : Int := 0
  types : QMap TypeEntry := []
  deriving DecidableEq, Repr

/-- The entry read by `handleContext->types[type]`; a missing entry is
default-constructed. -/
def HandleContext.typeAt (c : HandleContext) (type : Nat) : TypeEntry :=
  QMap.value type c.types {}

/-- Assignment through the reference `handleContext->types[type]`. -/
def HandleContext.setType (c : HandleContext) (type : Nat) (e : TypeEntry) : HandleContext :=
  { c with types := QMap.insert type e c.types }

/-- What the handle-manager methods of one `Connection` act on: the handle
context behind `mPriv->handleContext`, the `doReleaseSweep` invocations posted
with `Qt::QueuedConnection` and not yet delivered, and the `ReleaseHandles`
calls made on `baseInterface` so far (oldest first). -/
structure HandleManager where
  ctx : HandleContext := {}
  sweepQueue : List Nat := []
  released : List (Nat × List Nat) := []
  deriving DecidableEq, Repr

/-- `Connection::refHandle`. -/
def refHandle (type handle : Nat) (s : HandleManager) : HandleManager :=
  let e := s.ctx.typeAt type
  let e1 : TypeEntry :=
    if QSet.contains handle e.toRelease then
      { e with toRelease := QSet.remove handle e.toRelease }
    else e
  let n := uintInc (QMap.value handle e1.refcounts 0)
  { s with ctx := s.ctx.setType type { e1 with refcounts := QMap.insert handle n e1.refcounts } }

/-- The two `Q_ASSERT`s at the head of `Connection::unrefHandle`. -/
def unrefHandleAsserts (type handle : Nat) (s : HandleManager) : Bool :=
  QMap.contains type s.ctx.types && QMap.contains handle (s.ctx.typeAt type).refcounts

/-- `Connection::unrefHandle`. -/
def unrefHandle (type handle : Nat) (s : HandleManager) : HandleManager :=
  let e := s.ctx.typeAt type
  let n := uintDec (QMap.value handle e.refcounts 0)
  let e1 : TypeEntry := { e with refcounts := QMap.insert handle n e.refcounts }
  if n = 0 then
    let e2 : TypeEntry :=
      { e1 with refcounts := QMap.remove handle e1.refcounts,
                toRelease := QSet.insert handle e1.toRelease }
    if !e2.releaseScheduled then
      if e2.requestsInFlight = 0 then
        { s with ctx := s.ctx.setType type { e2 with releaseScheduled := true },
                 sweepQueue := s.sweepQueue ++ [type] }
      else { s with ctx := s.ctx.setType type e2 }
    else { s with ctx := s.ctx.setType type e2 }
  else { s with ctx := s.ctx.setType type e1 }

/-- The two `Q_ASSERT`s at the head of `Connection::doReleaseSweep`. -/
def doReleaseSweepAsserts (type : Nat) (s : HandleManager) : Bool :=
  QMap.contains type s.ctx.types && (s.ctx.typeAt type).releaseScheduled

/-- `Connection::doReleaseSweep`. -/
def doReleaseSweep (type : Nat) (s : HandleManager) : HandleManager :=
  let e := s.ctx.typeAt type
  let e1 : TypeEntry := { e with releaseScheduled := false }
  if e1.requestsInFlight > 0 then
    { s with ctx := s.ctx.setType type e1 }
  else if e1.toRelease.isEmpty then
    { s with ctx := s.ctx.setType type e1 }
  else
    { s with ctx := s.ctx.setType type { e1 with toRelease := [] },
             released := s.released ++ [(type, QSet.toList e1.toRelease)] }

/-- The two `Q_ASSERT`s at the head of `Connection::handleRequestLanded`. -/
def handleRequestLandedAsserts (type : Nat) (s : HandleManager) : Bool :=
  QMap.contains type s.ctx.types && decide ((s.ctx.typeAt type).requestsInFlight > 0)

/-- `Connection::handleRequestLanded`. -/
def handleRequestLanded (type : Nat) (s : HandleManager) : HandleManager :=
  let e := s.ctx.typeAt type
  let e1 : TypeEntry := { e with requestsInFlight := uintDec e.requestsInFlight }
  if e1.requestsInFlight = 0 ∧ ¬ e1.toRelease.isEmpty ∧ ¬ e1.releaseScheduled then
    { s with ctx := s.ctx.setType type { e1 with releaseScheduled := true },
             sweepQueue := s.sweepQueue ++ [type] }
  else { s with ctx := s.ctx.setType type e1 }

/-- The handle-manager part of `Connection::requestHandles` (and of
`Connection::getContactAttributes`): `types[handleType].requestsInFlight++`. -/
def requestHandles (type : Nat) (s : HandleManager) : HandleManager :=
  let e := s.ctx.typeAt type
  { s with ctx := s.ctx.setType type { e with requestsInFlight := uintInc e.requestsInFlight } }

/-- Delivery of the oldest queued `doReleaseSweep` invocation by the event
loop. -/
def dispatchSweep (s : HandleManager) : HandleManager :=
  match s.sweepQueue with
  | [] => s
  | type :: rest => doReleaseSweep type { s with sweepQueue := rest }

/-- States of the handle manager that can be reached from a freshly
constructed `HandleContext`.  `unrefHandle` is called on handles that are keys
of the refcount map only; the other methods are called in any state. -/
inductive HReachable : HandleManager → Prop
  | init : HReachable {}
  | ref (type handle : Nat) {s : HandleManager} :
      HReachable s → HReachable (refHandle type handle s)
  | unref (type handle : Nat) {s : HandleManager} :
      HReachable s → QMap.contains handle (s.ctx.typeAt type).refcounts = true →
      HReachable (unrefHandle type handle s)
  | request (type : Nat) {s : HandleManager} :
      HReachable s → HReachable (requestHandles type s)
  | landed (type : Nat) {s : HandleManager} :
      HReachable s → HReachable (handleRequestLanded type s)
  | sweep (type : Nat) {s : HandleManager} :
      HReachable s → HReachable (doReleaseSweep type s)
  | dispatch {s : HandleManager} :
      HReachable s → HReachable (dispatchSweep s)

/-- Shorthand: the stored reference count of a handle, if it is a key. -/
def refcountOf (type handle : Nat) (s : HandleManager) : Option Nat :=
  QMap.find handle (s.ctx.typeAt type).refcounts

/-- Shorthand: membership in the to-release set of a type. -/
def inToRelease (type handle : Nat) (s : HandleManager) : Bool :=
  QSet.contains handle (s.ctx.typeAt type).toRelease

/-- The `ReleaseHandles` calls made between two states of one run: what was
appended to the call record. -/
def issued (before after : HandleManager) : List (Nat × List Nat) :=
  after.released.drop before.released.length

/-- Handle exclusivity for one handle of one type. -/
def Exclusive (s : HandleManager) (t h : Nat) : Prop :=
  ¬ (QMap.contains h (s.ctx.typeAt t).refcounts = true ∧ inToRelease t h s = true)

/-- Every stored reference count is a `uint`. -/
def CountsBounded (s : HandleManager) : Prop :=
  ∀ t h n, refcountOf t h s = some n → n < UINT_RANGE

/-- The round-trip property of `refHandle(t, h); unrefHandle(t, h)` followed by
the release sweep for `t`, relative to the state `s` before the calls: the same
refcount map (same keys, same counts, for every type), the same in-flight
counters, and no `releaseScheduled` flag set that was not set before. -/
def RoundTrip (s : HandleManager) (t h : Nat) : Prop :=
  (∀ t' h', refcountOf t' h' (doReleaseSweep t (unrefHandle t h (refHandle t h s)))
      = refcountOf t' h' s) ∧
  (∀ t', ((doReleaseSweep t (unrefHandle t h (refHandle t h s))).ctx.typeAt t').requestsInFlight
      = (s.ctx.typeAt t').requestsInFlight) ∧
  (∀ t', ((doReleaseSweep t (unrefHandle t h (refHandle t h s))).ctx.typeAt t').releaseScheduled
      = true → (s.ctx.typeAt t').releaseScheduled = true)

/-- The state after `n` calls of `refHandle(t, h)` on a fresh handle manager. -/
def refMany (t h : Nat) : Nat → HandleManager
  | 0 => {}
  | n + 1 => refHandle t h (refMany t h n)

/-- The state in which handle 7 of type 1 is stored with the count 0: the
32-bit counter has wrapped around. -/
def wrappedState : HandleManager :=
  { ctx := { refcount := 0, types := [(1, { refcounts := [(7, 0)] })] } }

/-- What `Connection::referenceHandles` produces: the lists `alreadyHeld`
(handed to the `PendingHandles` constructor) and `notYetHeld`, the `HoldHandles`
calls made on `baseInterface`, and the handle manager afterwards. -/
structure ReferenceHandlesResult where
  alreadyHeld : List Nat
  notYetHeld : List Nat
  holdCalls : List (Nat × List Nat)
  state : HandleManager
  deriving DecidableEq, Repr

/-- The test of the `foreach` loop of `Connection::referenceHandles`:
`refcounts.contains(handle) || toRelease.contains(handle)`. -/
def TypeEntry.tracks (e : TypeEntry) (handle : Nat) : Bool :=
  QMap.contains handle e.refcounts || QSet.contains handle e.toRelease

/-- One pass of the `foreach` loop of `Connection::referenceHandles`.  The
accesses `handleContext->types[handleType]` default-construct a missing entry
for the type. -/
def referenceHandlesStep (handleType : Nat)
    (acc : HandleContext × List Nat × List Nat) (handle : Nat) :
    HandleContext × List Nat × List Nat :=
  let e := acc.1.typeAt handleType
  let c := acc.1.setType handleType e
  if e.tracks handle then
    (c, acc.2.1 ++ [handle], acc.2.2)
  else
    (c, acc.2.1, acc.2.2 ++ [handle])

/-- `Connection::referenceHandles`. -/
def referenceHandles (handleType : Nat) (handles : List Nat) (s : HandleManager) :
    ReferenceHandlesResult :=
  let r := handles.foldl (referenceHandlesStep handleType) (s.ctx, [], [])
  { alreadyHeld := r.2.1,
    notYetHeld := r.2.2,
    holdCalls := if r.2.2.isEmpty then [] else [(handleType, r.2.2)],
    state := { s with ctx := r.1 } }

/-- A handle is tracked for a type when it is a key of the refcount map or a
member of the to-release set of that type. -/
def tracked (s : HandleManager) (handleType handle : Nat) : Bool :=
  (s.ctx.typeAt handleType).tracks handle

/-! ## Sharing of the handle context between proxies -/

/-- Key of the process-wide map `handleContexts`:
(bus connection name, service name). -/
abbrev ContextKey := String × String

/-- Modelled from the spec: the enumerator `HandleTypeContact` of the generated
constants header, which is not among the sources; the value is the one the
Telepathy D-Bus interface assigns to contact handles. -/
def HandleTypeContact : Nat := 1

/-- Largest value of the C++ type `int`. -/
def INT_MAX : Int := 2147483647

/-- Smallest value of the C++ type `int`. -/
def INT_MIN : Int := -2147483648

/-- The C++ expression `++x` on an `int` member: the two's-complement result.
At `INT_MAX` the language leaves the overflow undefined; the value given here is
the wrap-around to `INT_MIN` that the increment instruction produces. -/
def intInc (x : Int) : Int := (x + 1 + 2147483648) % 4294967296 - 2147483648

/-- The C++ expression `--x` on an `int` member, likewise. -/
def intDec (x : Int) : Int := (x - 1 + 2147483648) % 4294967296 - 2147483648

/-- The members of `Connection::Private` that take part in the sharing of
handle contexts: the bus connection name and service name of `baseInterface`,
the pointer `handleContext` (`none` is the null pointer, an address otherwise),
and `selfContact`: `some handle` when the pointer holds the last reference to
the self contact, whose handle of type `HandleTypeContact` is `handle`; `none`
when the pointer is null or the contact is referenced elsewhere too. -/
structure Private where
  busConnectionName : String
  serviceName : String
  handleContext : Option Nat := none
  selfContact : Option Nat := none
  deriving DecidableEq, Repr

/-- The key `qMakePair(baseInterface->connection().name(),
baseInterface->service())` of a proxy. -/
def Private.key (p : Private) : ContextKey := (p.busConnectionName, p.serviceName)

/-- Process-wide state: the static map `handleContexts`, the `HandleContext`
objects alive on the heap by address, and the `ReleaseHandles` calls made by
destructors so far, each with the key of the proxy that made it. -/
structure Process where
  handleContexts : ContextKey → Option Nat := fun _ => none
  heap : Nat → Option HandleContext := fun _ => none
  released : List (ContextKey × Nat × List Nat) := []

/-- Update of a finite map at one key. -/
def setAt {κ β : Type} [DecidableEq κ] (f : κ → Option β) (k : κ) (v : Option β) :
    κ → Option β :=
  fun k' => if k' = k then v else f k'

/-- The `if`/`else` of `Connection::Private::startIntrospection` that reuses
the context stored for the key of the proxy or creates one: the pointer
assigned to `handleContext`, and the process state.  `fresh` is the address
that `new HandleContext` returns. -/
def acquireContext (fresh : Nat) (p : Private) (g : Process) : Nat × Process :=
  match g.handleContexts p.key with
  | some a => (a, g)
  | none =>
    (fresh, { g with heap := setAt g.heap fresh (some {}),
                     handleContexts := setAt g.handleContexts p.key (some fresh) })

/-- The statement `++handleContext->refcount` for the context at address
`ptr`. -/
def incRefcount (ptr : Nat) (heap : Nat → Option HandleContext) : Nat → Option HandleContext :=
  setAt heap ptr ((heap ptr).map (fun c => { c with refcount := intInc c.refcount }))

/-- `Connection::Private::startIntrospection`, the part under
`handleContextsLock`: the context is acquired, then its `refcount` incremented. -/
def startIntrospection (fresh : Nat) (p : Private) (g : Process) : Private × Process :=
  let ptr := (acquireContext fresh p g).1
  let g1 := (acquireContext fresh p g).2
  ({ p with handleContext := some ptr }, { g1 with heap := incRefcount ptr g1.heap })

/-- The `ReleaseHandles` calls of the `foreach` loop in
`Connection::Private::~Private`, in order. -/
def disposeCalls (c : HandleContext) : List (Nat × List Nat) :=
  (QMap.keys c.types).flatMap (fun handleType =>
    let e := c.typeAt handleType
    (if e.refcounts.isEmpty then [] else [(handleType, QMap.keys e.refcounts)]) ++
    (if e.toRelease.isEmpty then [] else [(handleType, QSet.toList e.toRelease)]))

/-- Modelled from the spec: the effect of the first statement of `~Private`,
`selfContact.clear()`, on the handle manager of a proxy whose handle context is
`c`.  The destructor of `Contact` is not among the sources; the comment at the
call says what it does ("Clear selfContact so its handle will be released
cleanly before the handleContext"), and a handle is given back with
`Connection::unrefHandle`.  When the pointer held the last reference to the self
contact, `unrefHandle(HandleTypeContact, handle)` runs; otherwise nothing
happens.  The sweep that `unrefHandle` may post is a queued call on the
`Connection` under destruction: it stays in the queue of the result and is never
delivered. -/
def clearSelfContact (p : Private) (c : HandleContext) : HandleManager :=
  match p.selfContact with
  | some handle => unrefHandle HandleTypeContact handle { ctx := c }
  | none => { ctx := c }

/-- `Connection::Private::~Private`: `selfContact.clear()`, then the release of
the handle context.  With a null `handleContext` introspection never ran, there
is no self contact and the destructor returns at `if (!handleContext)`. -/
def dtorPrivate (p : Private) (g : Process) : Process :=
  match p.handleContext with
  | none => g
  | some a =>
    match g.heap a with
    | none => g
    | some c =>
      if intDec (clearSelfContact p c).ctx.refcount = 0 then
        { g with released := g.released ++
                   (disposeCalls (clearSelfContact p c).ctx).map (fun call => (p.key, call)),
                 handleContexts := setAt g.handleContexts p.key none,
                 heap := setAt g.heap a none }
      else
        { g with heap := setAt g.heap a
                   (some { (clearSelfContact p c).ctx with
                           refcount := intDec (clearSelfContact p c).ctx.refcount }) }

/-- The handles passed to `ReleaseHandles` for one handle type in a list of
calls, in call order. -/
def handlesReleased (handleType : Nat) (calls : List (Nat × List Nat)) : List Nat :=
  (calls.filter (fun call => decide (call.1 = handleType))).flatMap (fun call => call.2)

/-- A live proxy object together with the record of what was done to it:
`started` is set when `startIntrospection` was run on it. -/
structure Proxy where
  priv : Private
  started : Bool := false
  deriving DecidableEq, Repr

/-- Number of started and not yet destroyed proxies for a key: the proxies of
the list with that key on which `startIntrospection` was run. -/
def holders (k : ContextKey) (l : List Proxy) : Nat :=
  l.countP (fun x => decide (x.priv.key = k) && x.started)

/-- Process states, with the list of live proxies, reached by constructing
proxies, running `startIntrospection` (once per proxy: the constructor enqueues
it once), assigning `selfContact` of a started proxy, destroying proxies, and
any change of the per-type tables of a live context (what the handle-manager
methods do), with no overflow of a context's `int` refcount: `startIntrospection`
is run while the refcount is below `INT_MAX`. -/
inductive PReachable : Process → List Proxy → Prop
  | init : PReachable {} []
  | create (bus service : String) {g : Process} {l : List Proxy} :
      PReachable g l →
      PReachable g (l ++ [{ priv := { busConnectionName := bus, serviceName := service } }])
  | start (fresh : Nat) {g : Process} {l₁ l₂ : List Proxy} {x : Proxy} :
      PReachable g (l₁ ++ x :: l₂) → x.started = false → g.heap fresh = none →
      (∀ a c, g.handleContexts x.priv.key = some a → g.heap a = some c →
        c.refcount < INT_MAX) →
      PReachable (startIntrospection fresh x.priv g).2
        (l₁ ++ { priv := (startIntrospection fresh x.priv g).1, started := true } :: l₂)
  | contact (contact : Option Nat) {g : Process} {l₁ l₂ : List Proxy} {x : Proxy} :
      PReachable g (l₁ ++ x :: l₂) → x.started = true →
      PReachable g (l₁ ++ { x with priv := { x.priv with selfContact := contact } } :: l₂)
  | destroy {g : Process} {l₁ l₂ : List Proxy} {x : Proxy} :
      PReachable g (l₁ ++ x :: l₂) → PReachable (dtorPrivate x.priv g) (l₁ ++ l₂)
  | tables (a : Nat) (c : HandleContext) (types : QMap TypeEntry)
      {g : Process} {l : List Proxy} :
      PReachable g l → g.heap a = some c →
      PReachable { g with heap := setAt g.heap a (some { c with types := types }) } l

/-- The process and its proxies after `n` proxies for the peer
("bus", "cm") were constructed and started, one after the other. -/
def startMany : Nat → Process × List Proxy
  | 0 => ({}, [])
  | n + 1 =>
    ((startIntrospection n { busConnectionName := "bus", serviceName := "cm" }
        (startMany n).1).2,
     (startMany n).2 ++
       [{ priv := (startIntrospection n { busConnectionName := "bus", serviceName := "cm" }
            (startMany n).1).1,
          started := true }])

/-! ## The connection proxy: status, readiness and introspection -/

/-- The enumeration `Connection::Private::Readiness`. -/
inductive Readiness
  | ReadinessJustCreated
  | ReadinessNotYetConnected
  | ReadinessConnecting
  | ReadinessFull
  | ReadinessDead
  deriving DecidableEq, Repr

open Readiness

/-- The integer values of the enumerators of `Readiness`, which the `<`
comparisons of the source use. -/
def Readiness.toNat : Readiness → Nat
  | ReadinessJustCreated => 0
  | ReadinessNotYetConnected => 5
  | ReadinessConnecting => 10
  | ReadinessFull => 15
  | ReadinessDead => 20

/-- Modelled from the spec: the enumerator `ConnectionStatusConnected` of the
generated constants header, which is not among the sources; the value is the
one the Telepathy D-Bus interface assigns to the status. -/
def ConnectionStatusConnected : Nat := 0

/-- Modelled from the spec: the enumerator `ConnectionStatusConnecting`. -/
def ConnectionStatusConnecting : Nat := 1

/-- Modelled from the spec: the enumerator `ConnectionStatusDisconnected`. -/
def ConnectionStatusDisconnected : Nat := 2

/-- Modelled from the spec: `Connection::StatusUnknown`, declared in the class
header, which is not among the sources (`0xFFFFFFFF`). -/
def StatusUnknown : Nat := 4294967295

/-- Modelled from the spec: the enumerators of `ConnectionStatusReason`, in the
order of the generated constants header. -/
def ConnectionStatusReasonNoneSpecified : Nat := 0

/-- Modelled from the spec: see `ConnectionStatusReasonNoneSpecified`. -/
def ConnectionStatusReasonRequested : Nat := 1

/-- Modelled from the spec: see `ConnectionStatusReasonNoneSpecified`. -/
def ConnectionStatusReasonNetworkError : Nat := 2

/-- Modelled from the spec: see `ConnectionStatusReasonNoneSpecified`. -/
def ConnectionStatusReasonAuthenticationFailed : Nat := 3

/-- Modelled from the spec: see `ConnectionStatusReasonNoneSpecified`. -/
def ConnectionStatusReasonEncryptionError : Nat := 4

/-- Modelled from the spec: see `ConnectionStatusReasonNoneSpecified`. -/
def ConnectionStatusReasonNameInUse : Nat := 5

/-- Modelled from the spec: see `ConnectionStatusReasonNoneSpecified`. -/
def ConnectionStatusReasonCertNotProvided : Nat := 6

/-- Modelled from the spec: see `ConnectionStatusReasonNoneSpecified`. -/
def ConnectionStatusReasonCertUntrusted : Nat := 7

/-- Modelled from the spec: see `ConnectionStatusReasonNoneSpecified`. -/
def ConnectionStatusReasonCertExpired : Nat := 8

/-- Modelled from the spec: see `ConnectionStatusReasonNoneSpecified`. -/
def ConnectionStatusReasonCertNotActivated : Nat := 9

/-- Modelled from the spec: see `ConnectionStatusReasonNoneSpecified`. -/
def ConnectionStatusReasonCertHostnameMismatch : Nat := 10

/-- Modelled from the spec: see `ConnectionStatusReasonNoneSpecified`. -/
def ConnectionStatusReasonCertFingerprintMismatch : Nat := 11

/-- Modelled from the spec: see `ConnectionStatusReasonNoneSpecified`. -/
def ConnectionStatusReasonCertSelfSigned : Nat := 12

/-- Modelled from the spec: see `ConnectionStatusReasonNoneSpecified`. -/
def ConnectionStatusReasonCertOtherError : Nat := 13

/-- The D-Bus error names used by `connection.cpp` (the `TELEPATHY_ERROR_*`
macros), as an enumeration of the kinds of section 7 of the specification. -/
inductive TpError
  | TELEPATHY_ERROR_DISCONNECTED
  | TELEPATHY_ERROR_NETWORK_ERROR
  | TELEPATHY_ERROR_NOT_YOURS
  | TELEPATHY_ERROR_NOT_AVAILABLE
  | TELEPATHY_ERROR_NOT_IMPLEMENTED
  | TELEPATHY_ERROR_INVALID_ARGUMENT
  deriving DecidableEq, Repr

open TpError

/-- Modelled from the spec: the interface-name macro
`TELEPATHY_INTERFACE_CONNECTION_INTERFACE_SIMPLE_PRESENCE` of the constants
header, the name of the "simple presence" sub-interface. -/
def TELEPATHY_INTERFACE_CONNECTION_INTERFACE_SIMPLE_PRESENCE : String :=
  "org.freedesktop.Telepathy.Connection.Interface.SimplePresence"

/-- Modelled from the spec: the interface-name macro
`TELEPATHY_INTERFACE_CONNECTION_INTERFACE_CONTACTS`, the "Contacts" interface. -/
def TELEPATHY_INTERFACE_CONNECTION_INTERFACE_CONTACTS : String :=
  "org.freedesktop.Telepathy.Connection.Interface.Contacts"

/-- Modelled from the spec: the interface-name macro
`TELEPATHY_INTERFACE_CONNECTION_INTERFACE_REQUESTS`, the "Requests" interface. -/
def TELEPATHY_INTERFACE_CONNECTION_INTERFACE_REQUESTS : String :=
  "org.freedesktop.Telepathy.Connection.Interface.Requests"

/-- Modelled from the spec: the request key
`TELEPATHY_INTERFACE_CHANNEL ".ChannelType"`, the channel-type key. -/
def CHANNEL_TYPE_KEY : String := "org.freedesktop.Telepathy.Channel.ChannelType"

/-- Modelled from the spec: the flag `Connection::FeatureSimplePresence` of
the class header, which is not among the sources.  `Connection::Features` is a
`QFlags` bit mask over a 32-bit integer; the flag is its lowest bit. -/
def FeatureSimplePresence : Nat := 1

/-- The mask `~FeatureSimplePresence` within 32 bits. -/
def notFeatureSimplePresence : Nat := 4294967294

/-- The member functions that `introspectQueue` holds pointers to. -/
inductive IntrospectStep
  | startIntrospection
  | introspectMain
  | introspectContacts
  | introspectSimplePresence
  | introspectSelfContact
  | introspectSelfHandle
  deriving DecidableEq, Repr

/-- Asynchronous requests whose reply is delivered to a `got...` slot. -/
inductive PendingCall
  | GetStatus
  | GetInterfaces
  | GetContactAttributeInterfaces
  | GetSimpleStatuses
  | GetSelfHandle
  | SelfContact
  deriving DecidableEq, Repr

/-- `Connection::Private::PendingReady`: a pending operation with the features
it waits for.  `id` stands for the address of the object. -/
structure PendingReady where
  id : Nat
  features : Nat
  finished : Bool := false
  deriving DecidableEq, Repr

/-- Signals emitted by the `Connection` object. -/
inductive Signal
  | statusChanged (status reason : Nat)
  | selfHandleChanged (handle : Nat)
  | selfContactChanged
  deriving DecidableEq, Repr

/-- The state of one `Connection` proxy: the members of `Connection::Private`
(from `ready` to `selfHandle`), followed by what the object interacts with: the
requests waiting for a reply, the armed zero-delay timers for
`continueIntrospection`, the signal connections made so far, and records of
what the object did (the signals emitted, the `invalidate` calls, every call of
`changeReadiness` as the pair of old and new readiness, the operations set
finished, the number of operation objects created). -/
structure Connection where
  ready : Bool := false
  pendingOperations : List PendingReady := []
  initialIntrospection : Bool := false
  readiness : Readiness := ReadinessJustCreated
  interfaces : List String := []
  introspectQueue : List IntrospectStep := []
  features : Nat := 0
  pendingFeatures : Nat := 0
  missingFeatures : Nat := 0
  pendingStatus : Nat := StatusUnknown
  pendingStatusReason : Nat := ConnectionStatusReasonNoneSpecified
  status : Nat := StatusUnknown
  statusReason : Nat := ConnectionStatusReasonNoneSpecified
  haveInitialStatus : Bool := false
  simplePresenceStatuses : List String := []
  selfContact : Option Nat := none
  contactAttributeInterfaces : List String := []
  selfHandle : Nat := 0
  calls : List PendingCall := []
  timers : Nat := 0
  statusChangedConnected : Bool := false
  selfHandleChangedConnected : Bool := false
  emitted : List Signal := []
  invalidations : List (TpError × Nat) := []
  readinessChanges : List (Readiness × Readiness) := []
  completed : List Nat := []
  operationsCreated : Nat := 0
  deriving DecidableEq, Repr

/-- The constructor `Connection::Connection`: `Private::Private`, then
`startIntrospection` is enqueued and a zero-delay timer armed for
`continueIntrospection`. -/
def Connection.new : Connection :=
  { introspectQueue := [IntrospectStep.startIntrospection], timers := 1 }

/-- The readiness edges that the `Q_ASSERT`s of `changeReadiness` accept. -/
def changeReadinessAsserts (old new : Readiness) : Bool :=
  decide (new ≠ old) &&
  match old with
  | ReadinessJustCreated => true
  | ReadinessNotYetConnected => decide (new = ReadinessConnecting ∨ new = ReadinessDead)
  | ReadinessConnecting => decide (new = ReadinessFull ∨ new = ReadinessDead)
  | ReadinessFull => decide (new = ReadinessDead)
  | ReadinessDead => false

/-- `Connection::Private::changeReadiness`.  The `switch` is on the readiness
before the change; its `ReadinessDead` case clears the queue. -/
def changeReadiness (newReadiness : Readiness) (c : Connection) : Connection :=
  let c1 : Connection :=
    match c.readiness with
    | ReadinessDead => { c with introspectQueue := [] }
    | _ => c
  let c2 : Connection :=
    { c1 with readiness := newReadiness,
              readinessChanges := c1.readinessChanges ++ [(c.readiness, newReadiness)] }
  if c2.status ≠ c2.pendingStatus ∨ c2.statusReason ≠ c2.pendingStatusReason then
    { c2 with status := c2.pendingStatus,
              statusReason := c2.pendingStatusReason,
              emitted := c2.emitted ++ [Signal.statusChanged c2.pendingStatus c2.pendingStatusReason] }
  else c2

/-- The test of `Connection::Private::updatePendingOperations` under which an
operation is set finished. -/
def satisfied (c : Connection) (operation : PendingReady) : Bool :=
  c.ready && decide (operation.features &&& (c.features ||| c.missingFeatures) = operation.features)

/-- One pass of the `foreach` loop of `updatePendingOperations` (the loop runs
over a copy of the list): the operation is set finished when satisfied, and a
finished operation is taken out of `pendingOperations` with `removeOne`. -/
def updatePendingStep (c : Connection) (operation : PendingReady) : Connection :=
  let nowFinished : Bool := operation.finished || satisfied c operation
  let c1 : Connection :=
    if satisfied c operation then
      { c with completed := c.completed ++ [operation.id],
               pendingOperations := c.pendingOperations.map
                 (fun o => if o.id = operation.id then { o with finished := true } else o) }
    else c
  if nowFinished then
    { c1 with pendingOperations :=
        c1.pendingOperations.eraseP (fun o => decide (o.id = operation.id)) }
  else c1

/-- `Connection::Private::updatePendingOperations`. -/
def updatePendingOperations (c : Connection) : Connection :=
  c.pendingOperations.foldl updatePendingStep c

/-- The member function behind a queue entry: each issues its request and
returns; `startIntrospection` and `introspectSelfHandle` first connect a signal
of the remote object. -/
def runStep (step : IntrospectStep) (c : Connection) : Connection :=
  match step with
  | IntrospectStep.startIntrospection =>
    { c with statusChangedConnected := true, calls := c.calls ++ [PendingCall.GetStatus] }
  | IntrospectStep.introspectMain =>
    { c with calls := c.calls ++ [PendingCall.GetInterfaces] }
  | IntrospectStep.introspectContacts =>
    { c with calls := c.calls ++ [PendingCall.GetContactAttributeInterfaces] }
  | IntrospectStep.introspectSimplePresence =>
    { c with calls := c.calls ++ [PendingCall.GetSimpleStatuses] }
  | IntrospectStep.introspectSelfContact =>
    { c with calls := c.calls ++ [PendingCall.SelfContact] }
  | IntrospectStep.introspectSelfHandle =>
    { c with selfHandleChangedConnected := true, calls := c.calls ++ [PendingCall.GetSelfHandle] }

/-- The block of `Connection::continueIntrospection` that runs when the queue
is empty. -/
def queueDrained (c : Connection) : Connection :=
  if c.initialIntrospection then
    let c1 : Connection := { c with initialIntrospection := false }
    if c1.readiness.toNat < ReadinessNotYetConnected.toNat then
      changeReadiness ReadinessNotYetConnected c1
    else c1
  else if c.readiness ≠ ReadinessDead ∧ c.readiness ≠ ReadinessFull then
    let c1 := changeReadiness ReadinessFull c
    if ¬ c1.interfaces.contains TELEPATHY_INTERFACE_CONNECTION_INTERFACE_SIMPLE_PRESENCE then
      { c1 with pendingFeatures := c1.pendingFeatures &&& notFeatureSimplePresence,
                missingFeatures := c1.missingFeatures ||| FeatureSimplePresence }
    else if c1.pendingFeatures = FeatureSimplePresence then
      { c1 with introspectQueue :=
          c1.introspectQueue ++ [IntrospectStep.introspectSimplePresence] }
    else c1
  else c

/-- The `if`/`else` of `Connection::continueIntrospection`: the block for an
empty queue, or the dispatch of the step at the head of the queue. -/
def dispatchQueue (c : Connection) : Connection :=
  match c.introspectQueue with
  | [] => queueDrained c
  | step :: rest => runStep step { c with introspectQueue := rest }

/-- `Connection::continueIntrospection`. -/
def continueIntrospection (c : Connection) : Connection :=
  updatePendingOperations (dispatchQueue c)

/-- The statements of the `default:` label of the inner `switch` of
`onStatusChanged`; they overwrite the error name chosen before. -/
def reasonSwitchDefault (_errorName : TpError) : TpError :=
  TELEPATHY_ERROR_DISCONNECTED

/-- The inner `switch (reason)` of `Connection::onStatusChanged`: the error name
passed to `invalidate`.  The group of `Cert...` labels assigns
`TELEPATHY_ERROR_NETWORK_ERROR` and has no `break`, so control continues into
the `default:` label. -/
def errorNameForReason (reason : Nat) : TpError :=
  if reason = ConnectionStatusReasonNoneSpecified ∨
      reason = ConnectionStatusReasonRequested then
    TELEPATHY_ERROR_DISCONNECTED
  else if reason = ConnectionStatusReasonNetworkError ∨
      reason = ConnectionStatusReasonAuthenticationFailed ∨
      reason = ConnectionStatusReasonEncryptionError then
    TELEPATHY_ERROR_NETWORK_ERROR
  else if reason = ConnectionStatusReasonNameInUse then
    TELEPATHY_ERROR_NOT_YOURS
  else if reason = ConnectionStatusReasonCertNotProvided ∨
      reason = ConnectionStatusReasonCertUntrusted ∨
      reason = ConnectionStatusReasonCertExpired ∨
      reason = ConnectionStatusReasonCertNotActivated ∨
      reason = ConnectionStatusReasonCertHostnameMismatch ∨
      reason = ConnectionStatusReasonCertFingerprintMismatch ∨
      reason = ConnectionStatusReasonCertSelfSigned ∨
      reason = ConnectionStatusReasonCertOtherError then
    reasonSwitchDefault TELEPATHY_ERROR_NETWORK_ERROR
  else
    TELEPATHY_ERROR_DISCONNECTED

/-- `DBusProxy::invalidate(errorName, message)` as called by the connection:
the call is recorded with the error name and the reason printed in the
message. -/
def invalidate (errorName : TpError) (reason : Nat) (c : Connection) : Connection :=
  { c with invalidations := c.invalidations ++ [(errorName, reason)] }

/-- `Connection::onStatusChanged` from the assignment of `pendingStatus` on:
the part after the three tests at the head of the function. -/
def statusChangedTail (status reason : Nat) (c : Connection) : Connection :=
  let c1 : Connection := { c with pendingStatus := status, pendingStatusReason := reason }
  if status = ConnectionStatusConnected then
    continueIntrospection
      { c1 with introspectQueue := c1.introspectQueue ++ [IntrospectStep.introspectMain] }
  else if status = ConnectionStatusConnecting then
    if c1.readiness.toNat < ReadinessConnecting.toNat then
      changeReadiness ReadinessConnecting c1
    else c1
  else if status = ConnectionStatusDisconnected then
    if c1.readiness ≠ ReadinessDead then
      changeReadiness ReadinessDead (invalidate (errorNameForReason reason) reason c1)
    else c1
  else c1

/-- The nested call `onStatusChanged(ConnectionStatusConnecting, reason)` made
by `onStatusChanged`: the whole function for a status other than
`ConnectionStatusConnected`, for which the test before the nested call fails. -/
def onStatusChangedNested (status reason : Nat) (c : Connection) : Connection :=
  if ¬ c.haveInitialStatus then
    { c with pendingStatusReason := reason }
  else if c.pendingStatus = status then c
  else statusChangedTail status reason c

/-- `Connection::onStatusChanged`. -/
def onStatusChanged (status reason : Nat) (c : Connection) : Connection :=
  if ¬ c.haveInitialStatus then
    { c with pendingStatusReason := reason }
  else if c.pendingStatus = status then c
  else
    let c1 : Connection :=
      if status = ConnectionStatusConnected ∧
          c.pendingStatus ≠ ConnectionStatusConnecting then
        onStatusChangedNested ConnectionStatusConnecting reason c
      else c
    statusChangedTail status reason c1

/-- `Connection::gotStatus`; the reply is `none` for an error reply. -/
def gotStatus (reply : Option Nat) (c : Connection) : Connection :=
  match reply with
  | none =>
    changeReadiness ReadinessDead
      (invalidate TELEPATHY_ERROR_DISCONNECTED c.pendingStatusReason c)
  | some status =>
    let c1 : Connection := { c with pendingStatus := status, haveInitialStatus := true }
    if status = ConnectionStatusConnecting then
      changeReadiness ReadinessConnecting c1
    else if status ≠ ConnectionStatusDisconnected ∧ status ≠ ConnectionStatusConnected then
      c1
    else
      let c2 : Connection :=
        if status = ConnectionStatusDisconnected then
          { c1 with initialIntrospection := true }
        else c1
      continueIntrospection
        { c2 with introspectQueue := c2.introspectQueue ++ [IntrospectStep.introspectMain] }

/-- `Connection::gotInterfaces`. -/
def gotInterfaces (reply : Option (List String)) (c : Connection) : Connection :=
  let c' : Connection :=
    match reply with
    | some value =>
      let c1 : Connection := { c with interfaces := value }
      let c2 : Connection :=
        if c1.pendingStatus = ConnectionStatusConnected then
          { c1 with introspectQueue :=
              c1.introspectQueue ++ [IntrospectStep.introspectSelfHandle] }
        else { c1 with ready := true }
      if c2.pendingFeatures &&& FeatureSimplePresence ≠ 0 ∧
          c2.interfaces.contains TELEPATHY_INTERFACE_CONNECTION_INTERFACE_SIMPLE_PRESENCE ∧
          ¬ c2.introspectQueue.contains IntrospectStep.introspectSimplePresence then
        { c2 with introspectQueue :=
            c2.introspectQueue ++ [IntrospectStep.introspectSimplePresence] }
      else c2
    | none => c
  continueIntrospection c'

/-- `Connection::gotContactAttributeInterfaces`. -/
def gotContactAttributeInterfaces (reply : Option (List String)) (c : Connection) :
    Connection :=
  let c1 : Connection := { c with ready := true }
  let c2 : Connection :=
    match reply with
    | some value =>
      { c1 with contactAttributeInterfaces := value,
                introspectQueue := c1.introspectQueue ++ [IntrospectStep.introspectSelfContact] }
    | none => c1
  continueIntrospection c2

/-- `Connection::gotSelfContact`; the argument is the contact built when the
operation is valid. -/
def gotSelfContact (contact : Option Nat) (c : Connection) : Connection :=
  let c1 : Connection := { c with ready := true }
  let c2 : Connection :=
    match contact with
    | some k =>
      if c1.selfContact ≠ some k then
        { c1 with selfContact := some k, emitted := c1.emitted ++ [Signal.selfContactChanged] }
      else c1
    | none => c1
  continueIntrospection c2

/-- `Connection::gotSimpleStatuses`. -/
def gotSimpleStatuses (reply : Option (List String)) (c : Connection) : Connection :=
  let c1 : Connection :=
    { c with pendingFeatures := c.pendingFeatures &&& notFeatureSimplePresence }
  let c2 : Connection :=
    match reply with
    | some value =>
      { c1 with features := c1.features ||| FeatureSimplePresence,
                simplePresenceStatuses := value }
    | none => { c1 with missingFeatures := c1.missingFeatures ||| FeatureSimplePresence }
  continueIntrospection c2

/-- `Connection::gotSelfHandle`. -/
def gotSelfHandle (reply : Option Nat) (c : Connection) : Connection :=
  let c1 : Connection :=
    match reply with
    | some value => { c with selfHandle := value }
    | none => c
  let c2 : Connection :=
    if c1.interfaces.contains TELEPATHY_INTERFACE_CONNECTION_INTERFACE_CONTACTS then
      { c1 with introspectQueue := c1.introspectQueue ++ [IntrospectStep.introspectContacts] }
    else { c1 with ready := true }
  continueIntrospection c2

/-- `Connection::onSelfHandleChanged`. -/
def onSelfHandleChanged (handle : Nat) (c : Connection) : Connection :=
  let c1 : Connection :=
    { c with selfHandle := handle, emitted := c.emitted ++ [Signal.selfHandleChanged handle] }
  if c1.interfaces.contains TELEPATHY_INTERFACE_CONNECTION_INTERFACE_CONTACTS then
    runStep IntrospectStep.introspectSelfContact c1
  else c1

/-- `Connection::isReady`. -/
def isReady (features : Nat) (c : Connection) : Bool :=
  c.ready && decide (c.features &&& features = features)

/-- What `Connection::becomeReady` returns: a newly created `PendingSuccess`, or
a `PendingReady` (new or cached); `id` stands for the address of the object. -/
inductive Operation
  | pendingSuccess (id : Nat)
  | pendingReady (id : Nat)
  deriving DecidableEq, Repr

/-- The block of `Connection::becomeReady` guarded by
`requestedFeatures & FeatureSimplePresence`, after its early `return`. -/
def becomeReadySimplePresence (c : Connection) : Connection :=
  if c.features &&& FeatureSimplePresence = 0 ∧
      c.pendingFeatures &&& FeatureSimplePresence = 0 ∧
      c.missingFeatures &&& FeatureSimplePresence = 0 ∧
      c.interfaces.contains TELEPATHY_INTERFACE_CONNECTION_INTERFACE_SIMPLE_PRESENCE then
    { c with introspectQueue := c.introspectQueue ++ [IntrospectStep.introspectSimplePresence],
             timers := c.timers + 1 }
  else if c.readiness = ReadinessFull then
    { c with missingFeatures := c.missingFeatures ||| FeatureSimplePresence }
  else c

/-- `Connection::becomeReady`: the state afterwards and the operation returned. -/
def becomeReady (requestedFeatures : Nat) (c : Connection) : Connection × Operation :=
  if isReady requestedFeatures c then
    ({ c with operationsCreated := c.operationsCreated + 1 },
     Operation.pendingSuccess c.operationsCreated)
  else
    match c.pendingOperations.find? (fun o => decide (o.features = requestedFeatures)) with
    | some operation => (c, Operation.pendingReady operation.id)
    | none =>
      if requestedFeatures &&& FeatureSimplePresence ≠ 0 ∧
          requestedFeatures = FeatureSimplePresence ∧
          c.missingFeatures &&& FeatureSimplePresence ≠ 0 then
        ({ c with operationsCreated := c.operationsCreated + 1 },
         Operation.pendingSuccess c.operationsCreated)
      else
        let c1 : Connection :=
          if requestedFeatures &&& FeatureSimplePresence ≠ 0 then becomeReadySimplePresence c
          else c
        let c2 : Connection :=
          { c1 with pendingFeatures := c1.pendingFeatures ||| requestedFeatures }
        let c3 : Connection :=
          { c2 with pendingOperations :=
                      c2.pendingOperations ++
                        [{ id := c2.operationsCreated, features := requestedFeatures }],
                    operationsCreated := c2.operationsCreated + 1 }
        (updatePendingOperations c3, Operation.pendingReady c2.operationsCreated)

/-- What `createChannel` and `ensureChannel` return: a `PendingChannel` that
failed at once with an error name, or one bound to the request (`create` is
the third argument of the constructor). -/
inductive PendingChannel
  | failed (errorName : TpError)
  | requested (request : List (String × String)) (create : Bool)
  deriving DecidableEq, Repr

/-- `QVariantMap::contains` on a request. -/
def requestContains (request : List (String × String)) (key : String) : Bool :=
  request.any (fun e => decide (e.1 = key))

/-- `Connection::createChannel`: the state afterwards (no member is assigned)
and the object returned. -/
def createChannel (request : List (String × String)) (c : Connection) :
    Connection × PendingChannel :=
  if c.readiness ≠ ReadinessFull then
    (c, PendingChannel.failed TELEPATHY_ERROR_NOT_AVAILABLE)
  else if ¬ c.interfaces.contains TELEPATHY_INTERFACE_CONNECTION_INTERFACE_REQUESTS then
    (c, PendingChannel.failed TELEPATHY_ERROR_NOT_IMPLEMENTED)
  else if ¬ requestContains request CHANNEL_TYPE_KEY then
    (c, PendingChannel.failed TELEPATHY_ERROR_INVALID_ARGUMENT)
  else (c, PendingChannel.requested request true)

/-- `Connection::ensureChannel`. -/
def ensureChannel (request : List (String × String)) (c : Connection) :
    Connection × PendingChannel :=
  if c.readiness ≠ ReadinessFull then
    (c, PendingChannel.failed TELEPATHY_ERROR_NOT_AVAILABLE)
  else if ¬ c.interfaces.contains TELEPATHY_INTERFACE_CONNECTION_INTERFACE_REQUESTS then
    (c, PendingChannel.failed TELEPATHY_ERROR_NOT_IMPLEMENTED)
  else if ¬ requestContains request CHANNEL_TYPE_KEY then
    (c, PendingChannel.failed TELEPATHY_ERROR_INVALID_ARGUMENT)
  else (c, PendingChannel.requested request false)

/-- What can happen to a connection proxy: an armed timer fires, a signal of
the remote object arrives, a reply arrives, the client calls `becomeReady`. -/
inductive Event
  | timer
  | statusChanged (status reason : Nat)
  | selfHandleChanged (handle : Nat)
  | gotStatus (reply : Option Nat)
  | gotInterfaces (reply : Option (List String))
  | gotContactAttributeInterfaces (reply : Option (List String))
  | gotSelfContact (contact : Option Nat)
  | gotSimpleStatuses (reply : Option (List String))
  | gotSelfHandle (reply : Option Nat)
  | becomeReady (requestedFeatures : Nat)
  deriving DecidableEq, Repr

/-- Delivery of the reply to a request: `none` when no such request is waiting,
otherwise the request is taken off the waiting list and the slot runs. -/
def deliver (call : PendingCall) (slot : Connection → Connection) (c : Connection) :
    Option Connection :=
  if call ∈ c.calls then some (slot { c with calls := c.calls.erase call }) else none

/-- One event on a connection proxy; `none` when the event cannot happen in the
state (no timer armed, signal not connected, no request waiting). -/
def step (e : Event) (c : Connection) : Option Connection :=
  match e with
  | Event.timer =>
    if c.timers > 0 then some (continueIntrospection { c with timers := c.timers - 1 })
    else none
  | Event.statusChanged status reason =>
    if c.statusChangedConnected then some (onStatusChanged status reason c) else none
  | Event.selfHandleChanged handle =>
    if c.selfHandleChangedConnected then some (onSelfHandleChanged handle c) else none
  | Event.gotStatus reply => deliver PendingCall.GetStatus (gotStatus reply) c
  | Event.gotInterfaces reply => deliver PendingCall.GetInterfaces (gotInterfaces reply) c
  | Event.gotContactAttributeInterfaces reply =>
    deliver PendingCall.GetContactAttributeInterfaces (gotContactAttributeInterfaces reply) c
  | Event.gotSelfContact contact => deliver PendingCall.SelfContact (gotSelfContact contact) c
  | Event.gotSimpleStatuses reply =>
    deliver PendingCall.GetSimpleStatuses (gotSimpleStatuses reply) c
  | Event.gotSelfHandle reply => deliver PendingCall.GetSelfHandle (gotSelfHandle reply) c
  | Event.becomeReady requestedFeatures => some (becomeReady requestedFeatures c).1

/-- A run: the events are applied in order, from the left. -/
def run : List Event → Connection → Option Connection
  | [], c => some c
  | e :: rest, c => (step e c).bind (run rest)

/-- The states of a connection proxy reachable from its construction. -/
def CReachable (c : Connection) : Prop :=
  ∃ events, run events Connection.new = some c

/-- A connection state without the two members that `updatePendingOperations`
writes: used to say that it leaves everything else alone. -/
def Connection.withoutOperations (c : Connection) : Connection :=
  { c with pendingOperations := [], completed := [] }

/-- Every feature of the set `F` is in the ready set or in the missing set. -/
def coveredByReadyOrMissing (F : Nat) (c : Connection) : Prop :=
  ∀ i, F.testBit i = true → (c.features.testBit i = true ∨ c.missingFeatures.testBit i = true)

/-- Every feature of the set `F` is in the ready set. -/
def coveredByReady (F : Nat) (c : Connection) : Prop :=
  ∀ i, F.testBit i = true → c.features.testBit i = true

/-- The `statusChanged` signals in a list of emitted signals. -/
def statusEmissions (l : List Signal) : List Signal :=
  l.filter (fun s => match s with
    | Signal.statusChanged _ _ => true
    | _ => false)

/-- An event that carries status information from the peer: the
`StatusChanged` signal or the reply to `GetStatus`. -/
def Event.isStatusEvent : Event → Bool
  | Event.statusChanged _ _ => true
  | Event.gotStatus _ => true
  | _ => false

/-- The pending operations and the number of operation objects created. -/
def opsView (c : Connection) : List PendingReady × Nat :=
  (c.pendingOperations, c.operationsCreated)

/-- The members read by the test of `updatePendingOperations` and by `isReady`. -/
def satView (c : Connection) : Bool × Nat × Nat :=
  (c.ready, c.features, c.missingFeatures)

/-- The pending operations are distinct objects created by this proxy, no two
of them wait for the same feature set, and none of them is finished. -/
def OpsWellFormed (c : Connection) : Prop :=
  (c.pendingOperations.map (fun o => o.id)).Nodup ∧
  (∀ o ∈ c.pendingOperations, o.id < c.operationsCreated) ∧
  (c.pendingOperations.map (fun o => o.features)).Nodup ∧
  (∀ o ∈ c.pendingOperations, o.finished = false)

/-- The pending operations are well formed and none of them could be set
finished by `updatePendingOperations`. -/
def OpsInv (c : Connection) : Prop :=
  OpsWellFormed c ∧ ∀ o ∈ c.pendingOperations, satisfied c o = false

/-- The operation object `id` was created for the feature set `F`: the object
exists, and wherever it is in the pending list its features are `F`. -/
def CreatedFor (id F : Nat) (c : Connection) : Prop :=
  id < c.operationsCreated ∧ ∀ o ∈ c.pendingOperations, o.id = id → o.features = F

/-- While the readiness is below Connecting, neither the status nor the pending
status is Connecting. -/
def StatusInv (c : Connection) : Prop :=
  c.readiness.toNat < ReadinessConnecting.toNat →
    c.status ≠ ConnectionStatusConnecting ∧ c.pendingStatus ≠ ConnectionStatusConnecting

/-- The part of the state that only status information from the peer and the
promotion at the end of introspection change: readiness, status and pending
status with their reasons, the flags about the initial status, the
invalidations, the record of readiness changes and the `statusChanged`
signals emitted. -/
def statusView (c : Connection) :
    Readiness × Nat × Nat × Nat × Nat × Bool × List (TpError × Nat) ×
      List (Readiness × Readiness) × List Signal :=
  (c.readiness, c.status, c.statusReason, c.pendingStatus, c.pendingStatusReason,
   c.haveInitialStatus, c.invalidations, c.readinessChanges, statusEmissions c.emitted)

/-- What holds after a jump to Connected was handled, until more status
information arrives: the pending status stays (Connected, `r`); either the
readiness is still Connecting and the `statusChanged` signals emitted are
`base` followed by (Connecting, `r`), or the readiness is Full and they are
`base` followed by (Connecting, `r`) and (Connected, `r`). -/
def AfterJump (base : List Signal) (r : Nat) (c : Connection) : Prop :=
  c.pendingStatus = ConnectionStatusConnected ∧ c.pendingStatusReason = r ∧
  ((c.readiness = ReadinessConnecting ∧ c.status = ConnectionStatusConnecting ∧
      c.statusReason = r ∧
      statusEmissions c.emitted = base ++ [Signal.statusChanged ConnectionStatusConnecting r]) ∨
   (c.readiness = ReadinessFull ∧ c.status = ConnectionStatusConnected ∧
      c.statusReason = r ∧
      statusEmissions c.emitted =
        base ++ [Signal.statusChanged ConnectionStatusConnecting r,
                 Signal.statusChanged ConnectionStatusConnected r]))

/-- The sharing invariant of the process-wide map: a started proxy points to
the context stored for its key and a proxy not yet started has a null pointer;
a stored context is alive, its `refcount` is the number of started proxies of
the key, and that number is positive and an `int`; no context is stored under
two keys. -/
def SharingInv (g : Process) (l : List Proxy) : Prop :=
  (∀ x ∈ l, x.started = true →
    ∃ a, x.priv.handleContext = some a ∧ g.handleContexts x.priv.key = some a) ∧
  (∀ x ∈ l, x.started = false → x.priv.handleContext = none) ∧
  (∀ k a, g.handleContexts k = some a →
    ∃ c, g.heap a = some c ∧ c.refcount = (holders k l : Int) ∧ 0 < holders k l ∧
      c.refcount ≤ INT_MAX) ∧
  (∀ k k' a, g.handleContexts k = some a → g.handleContexts k' = some a → k = k')

/-- The tables of one handle type as Qt keeps them: the keys of the refcount
map in ascending order without repetition, the to-release set without
repetition. -/
def TypeEntry.WellFormed (e : TypeEntry) : Prop :=
  (QMap.keys e.refcounts).Pairwise (fun a b => a < b) ∧ e.toRelease.Nodup

/-- A handle context as Qt keeps it: the keys of `types` in ascending order
without repetition, and every entry well formed. -/
def HandleContext.WellFormed (c : HandleContext) : Prop :=
  (QMap.keys c.types).Pairwise (fun a b => a < b) ∧ ∀ t, (c.typeAt t).WellFormed

/-- What a `const` accessor of `Connection` yields: the value returned, whether
a line was written to `warning()`, and the proxy state afterwards. -/
structure Accessed (α : Type) where
  value : α
  warned : Bool
  state : Connection

/-- `Connection::status`. -/
def Connection.statusAccessor (c : Connection) : Accessed Nat :=
  { value := c.status, warned := decide (c.readiness = ReadinessJustCreated), state := c }

/-- `Connection::statusReason`. -/
def Connection.statusReasonAccessor (c : Connection) : Accessed Nat :=
  { value := c.statusReason, warned := decide (c.readiness = ReadinessJustCreated),
    state := c }

/-- `Connection::interfaces`. -/
def Connection.interfacesAccessor (c : Connection) : Accessed (List String) :=
  { value := c.interfaces,
    warned :=
      if c.readiness ≠ ReadinessNotYetConnected ∧ c.readiness ≠ ReadinessFull ∧
          c.interfaces.isEmpty then true
      else if c.readiness = ReadinessDead then true
      else false,
    state := c }

/-- `Connection::selfHandle`. -/
def Connection.selfHandleAccessor (c : Connection) : Accessed Nat :=
  { value := c.selfHandle, warned := false, state := c }

/-- While the readiness is `ReadinessJustCreated`, the status members hold the
values the constructor gave them. -/
def FreshInv (c : Connection) : Prop :=
  c.readiness = ReadinessJustCreated →
    c.status = StatusUnknown ∧ c.statusReason = ConnectionStatusReasonNoneSpecified

/-- What `Connection::getContactAttributes` hands back: a
`PendingContactAttributes` that was failed immediately with an error, or one
that tracks the `GetContactAttributes` call just issued. -/
inductive PendingContactAttributes
  | failed (error : TpError)
  | requested
  deriving DecidableEq, Repr

/-- `Connection::getContactAttributes`: the operation returned and the handle
context afterwards.  `isReady()` is called without argument, which tests the
empty feature set.  The test of `status()` stands inside a comment in the source
(`FIXME: readd this check ...`) and is not compiled. -/
def getContactAttributes (c : Connection) (s : HandleManager) :
    PendingContactAttributes × HandleManager :=
  if ¬ isReady 0 c then
    (PendingContactAttributes.failed TELEPATHY_ERROR_NOT_AVAILABLE, s)
  else if ¬ c.interfacesAccessor.value.contains
      TELEPATHY_INTERFACE_CONNECTION_INTERFACE_CONTACTS then
    (PendingContactAttributes.failed TELEPATHY_ERROR_NOT_IMPLEMENTED, s)
  else
    (PendingContactAttributes.requested, requestHandles HandleTypeContact s)

/-- The state after `n` further calls of `requestHandles(t, ...)`. -/
def requestMany (t : Nat) : Nat → HandleManager → HandleManager
  | 0, s => s
  | n + 1, s => requestHandles t (requestMany t n s)

/-- The state in which handle 7 of type 1 waits in the to-release set, no sweep
is scheduled and the in-flight counter reads 0: the 32-bit counter has wrapped
around. -/
def strandedState : HandleManager :=
  { ctx := { refcount := 0, types := [(1, { toRelease := [7], requestsInFlight := 0 })] } }

/-- States of the handle manager reached without overflow of an in-flight
counter: as `HReachable`, with `requestsInFlight++` run below the largest
`uint`. -/
inductive HReachableNoOverflow : HandleManager → Prop
  | init : HReachableNoOverflow {}
  | ref (type handle : Nat) {s : HandleManager} :
      HReachableNoOverflow s → HReachableNoOverflow (refHandle type handle s)
  | unref (type handle : Nat) {s : HandleManager} :
      HReachableNoOverflow s → QMap.contains handle (s.ctx.typeAt type).refcounts = true →
      HReachableNoOverflow (unrefHandle type handle s)
  | request (type : Nat) {s : HandleManager} :
      HReachableNoOverflow s → (s.ctx.typeAt type).requestsInFlight + 1 < UINT_RANGE →
      HReachableNoOverflow (requestHandles type s)
  | landed (type : Nat) {s : HandleManager} :
      HReachableNoOverflow s → HReachableNoOverflow (handleRequestLanded type s)
  | sweep (type : Nat) {s : HandleManager} :
      HReachableNoOverflow s → HReachableNoOverflow (doReleaseSweep type s)
  | dispatch {s : HandleManager} :
      HReachableNoOverflow s → HReachableNoOverflow (dispatchSweep s)

/-- The handles of type `t` that await release are covered: a sweep is
scheduled for the type, or a request for the type is in flight. -/
def Covered (s : HandleManager) (t : Nat) : Prop :=
  (s.ctx.typeAt t).toRelease ≠ [] →
    (s.ctx.typeAt t).releaseScheduled = true ∨ 0 < (s.ctx.typeAt t).requestsInFlight

/-- Runs of the handle manager in which a request lands only after it was made
and no 32-bit counter overflows; the second component is, per handle type, the
number of requests made and not yet landed.  `refHandle` runs on a count below
the largest `uint`, `unrefHandle` on a key of the refcount map, and
`doReleaseSweep` runs when the event loop delivers a queued invocation. -/
inductive HPaired : HandleManager → (Nat → Nat) → Prop
  | init : HPaired {} (fun _ => 0)
  | ref (type handle : Nat) {s : HandleManager} {p : Nat → Nat} :
      HPaired s p → QMap.value handle (s.ctx.typeAt type).refcounts 0 + 1 < UINT_RANGE →
      HPaired (refHandle type handle s) p
  | unref (type handle : Nat) {s : HandleManager} {p : Nat → Nat} :
      HPaired s p → QMap.contains handle (s.ctx.typeAt type).refcounts = true →
      HPaired (unrefHandle type handle s) p
  | request (type : Nat) {s : HandleManager} {p : Nat → Nat} :
      HPaired s p → p type + 1 < UINT_RANGE →
      HPaired (requestHandles type s) (fun t => if t = type then p t + 1 else p t)
  | landed (type : Nat) {s : HandleManager} {p : Nat → Nat} :
      HPaired s p → 0 < p type →
      HPaired (handleRequestLanded type s) (fun t => if t = type then p t - 1 else p t)
  | dispatch {s : HandleManager} {p : Nat → Nat} :
      HPaired s p → HPaired (dispatchSweep s) p

/-- The bookkeeping invariant of the release sweeps: per type, one queued sweep
when `releaseScheduled` is set and none otherwise; stored reference counts
between 1 and the largest `uint`; the in-flight counter equal to the number of
requests not yet landed. -/
def SweepInv (s : HandleManager) (p : Nat → Nat) : Prop :=
  (∀ t, s.sweepQueue.count t = if (s.ctx.typeAt t).releaseScheduled then 1 else 0) ∧
  (∀ t h n, refcountOf t h s = some n → 1 ≤ n ∧ n < UINT_RANGE) ∧
  (∀ t, (s.ctx.typeAt t).requestsInFlight = p t ∧ p t < UINT_RANGE)

/-! ## The filtered account set: `TelepathyQt4/account-set.cpp` -/

namespace AccountSet

/-- An account as the set sees it through an `AccountPtr`: the object path,
which identifies the account, and the properties that the filters read. -/
structure Account where
  objectPath : String
  properties : List (String × String) := []
  deriving DecidableEq, Repr

/-- An `AccountFilter`: whether it is valid, and the accounts it matches. -/
structure AccountFilter where
  isValid : Bool
  isMatch : Account → Bool

/-- The signals of `AccountSet`. -/
inductive AccountSignal
  | accountAdded (account : Account)
  | accountRemoved (account : Account)
  deriving DecidableEq, Repr

/-- `AccountSet::Private`: the filters, the `ready` flag, the object paths that
have a wrapper (`wrappers`), the accounts of the set by object path
(`accounts`), whether `newAccount` of the account manager is connected, and the
signals emitted so far. -/
structure Private where
  filters : List AccountFilter
  ready : Bool := false
  wrappers : List String := []
  accounts : List (String × Account) := []
  connected : Bool := false
  emitted : List AccountSignal := []

/-- `QHash::contains` on `accounts`. -/
def Private.accountsContains (p : Private) (path : String) : Bool :=
  p.accounts.any (fun e => e.1 == path)

/-- `AccountSet::accounts`: the values of the hash. -/
def Private.accountList (p : Private) : List Account := p.accounts.map Prod.snd

/-- `AccountSet::Private::checkFilters`. -/
def checkFilters (p : Private) : Bool := p.filters.all (fun f => f.isValid)

/-- `AccountSet::Private::accountMatchFilters`, on the account of the wrapper. -/
def accountMatchFilters (p : Private) (account : Account) : Bool :=
  if p.filters.isEmpty then true else p.filters.all (fun f => f.isMatch account)

/-- `AccountSet::Private::wrapAccount`. -/
def wrapAccount (account : Account) (p : Private) : Private :=
  { p with wrappers := p.wrappers.filter (fun w => w != account.objectPath)
             ++ [account.objectPath] }

/-- `AccountSet::Private::filterAccount`. -/
def filterAccount (account : Account) (p : Private) : Private :=
  if accountMatchFilters p account then
    if ¬ p.accountsContains account.objectPath then
      let p1 : Private := { p with accounts := p.accounts ++ [(account.objectPath, account)] }
      if p1.ready then
        { p1 with emitted := p1.emitted ++ [AccountSignal.accountAdded account] }
      else p1
    else p
  else
    if p.accountsContains account.objectPath then
      let p1 : Private :=
        { p with accounts := p.accounts.filter (fun e => e.1 != account.objectPath) }
      if p1.ready then
        { p1 with emitted := p1.emitted ++ [AccountSignal.accountRemoved account] }
      else p1
    else p

/-- `AccountSet::Private::insertAccount`. -/
def insertAccount (account : Account) (p : Private) : Private :=
  filterAccount account (wrapAccount account p)

/-- `AccountSet::Private::removeAccount`: the account leaves `accounts`, its
wrapper leaves `wrappers`, and `accountRemoved` is emitted. -/
def removeAccount (account : Account) (p : Private) : Private :=
  { p with accounts := p.accounts.filter (fun e => e.1 != account.objectPath),
           wrappers := p.wrappers.filter (fun w => w != account.objectPath),
           emitted := p.emitted ++ [AccountSignal.accountRemoved account] }

/-- `AccountSet::Private::insertAccounts`, over `accountManager->allAccounts()`. -/
def insertAccounts (allAccounts : List Account) (p : Private) : Private :=
  allAccounts.foldl (fun q account => insertAccount account q) p

/-- `AccountSet::Private::init`. -/
def init (allAccounts : List Account) (p : Private) : Private :=
  if checkFilters p then
    { insertAccounts allAccounts { p with connected := true } with ready := true }
  else p

/-- The constructor `AccountSet::Private::Private(parent, accountManager,
filters)`, for an account manager that holds `allAccounts`. -/
def create (filters : List AccountFilter) (allAccounts : List Account) : Private :=
  init allAccounts { filters := filters }

/-- What the account manager and the wrapped accounts signal to the set. -/
inductive SetEvent
  | newAccount (account : Account)
  | accountChanged (account : Account)
  | accountRemoved (account : Account)

/-- The slots `onNewAccount`, `onAccountChanged` and `onAccountRemoved`; `none`
when the signal is not connected (the set was not initialised, or the account
has no wrapper). -/
def setStep (e : SetEvent) (p : Private) : Option Private :=
  match e with
  | SetEvent.newAccount account =>
    if p.connected ∧ account.objectPath ∉ p.wrappers then some (insertAccount account p)
    else none
  | SetEvent.accountChanged account =>
    if account.objectPath ∈ p.wrappers then some (filterAccount account p) else none
  | SetEvent.accountRemoved account =>
    if account.objectPath ∈ p.wrappers then some (removeAccount account p) else none

end AccountSet

/-! ## The key file reader: `TelepathyQt4/key-file.cpp`

A `QByteArray` is a list of byte values, a `QString` a list of UTF-16 code
units.  Indices are C++ `int`.  A read through `QByteArray::at` outside
`0 <= i < size()` (its `Q_ASSERT`) ends the run with `outOfBounds`. -/

namespace KeyFile

/-- The enumeration `KeyFile::Status`, with the enumerators that `key-file.cpp`
uses. -/
inductive Status
  | None
  | NoError
  | NotFoundError
  | AccessError
  | FormatError
  deriving DecidableEq, Repr

/-- How a run of one of the reading functions ends: with a value, with a read
of `QByteArray::at` outside the array, or with the loop budget of the model
used up. -/
inductive Access (α : Type)
  | done (value : α)
  | outOfBounds (index : Int)
  | outOfFuel
  deriving DecidableEq, Repr

/-- The bytes of an ASCII string literal. -/
def bytes (s : String) : List Nat := s.toList.map Char.toNat

/-- `QByteArray::at(i)`; `none` outside the bounds. -/
def byteAt (data : List Nat) (i : Int) : Option Nat :=
  if 0 ≤ i ∧ i < data.length then data.get? i.toNat else none

/-- Conversion of the `char` returned by `at` to `uint` (`uint ch = data.at(i)`),
for a signed `char`: bytes from 128 on are sign-extended. -/
def toUInt (byte : Nat) : Nat := if byte < 128 then byte else byte + (UINT_RANGE - 256)

/-- The `QChar` that `result += ch` appends for a `uint`: the call resolves to
`QString::operator+=(char)`, so the value is narrowed to `char` and the
character of that byte is appended. -/
def toQChar (ch : Nat) : Nat := ch % 256

/-- The `QString` built from a `QByteArray` by the implicit conversion
(`QString::fromAscii`): one code unit per byte. -/
def fromAscii (data : List Nat) : List Nat := data

/-- The test `isspace` that `QByteArray::trimmed` applies. -/
def isSpace (byte : Nat) : Bool :=
  byte = 32 || (9 ≤ byte && byte ≤ 13)

/-- `QByteArray::trimmed`: without the white space at both ends. -/
def trimmed (data : List Nat) : List Nat :=
  ((data.dropWhile isSpace).reverse.dropWhile isSpace).reverse

/-- `QByteArray::indexOf(ch)`: the first position of the byte, or -1. -/
def indexOf (data : List Nat) (ch : Nat) : Int :=
  match data.indexOf? ch with
  | some i => i
  | none => -1

/-- `QByteArray::mid(pos, len)` for `0 <= pos`. -/
def mid (data : List Nat) (pos len : Int) : List Nat :=
  (data.drop pos.toNat).take len.toNat

/-- `QByteArray::mid(pos)`: from `pos` to the end. -/
def midToEnd (data : List Nat) (pos : Int) : List Nat := data.drop pos.toNat

/-- `QHash::contains`. -/
def hashContains {β : Type} (key : List Nat) (h : List (List Nat × β)) : Bool :=
  h.any (fun e => e.1 == key)

/-- Assignment `h[key] = value` on a `QHash`. -/
def hashSet {β : Type} (key : List Nat) (value : β) (h : List (List Nat × β)) :
    List (List Nat × β) :=
  h.filter (fun e => e.1 != key) ++ [(key, value)]

/-- The characters that `escapedKey` accepts: letters, digits and `-`. -/
def isKeyChar (ch : Nat) : Bool :=
  (97 ≤ ch && ch ≤ 122) || (65 ≤ ch && ch ≤ 90) || (48 ≤ ch && ch ≤ 57) || ch = 45

/-- The `while (i < to)` loop of `KeyFile::Private::escapedKey`. -/
def escapedKeyLoop (data : List Nat) (toIdx : Int) :
    Nat → Int → Bool → List Nat → Access (Bool × List Nat)
  | 0, i, ret, result =>
    if i < toIdx then Access.outOfFuel else Access.done (ret, result)
  | fuel + 1, i, ret, result =>
    if i < toIdx then
      match byteAt data i with
      | none => Access.outOfBounds i
      | some byte =>
        escapedKeyLoop data toIdx fuel (i + 1) (ret && isKeyChar (toUInt byte))
          (result ++ [toQChar (toUInt byte)])
    else Access.done (ret, result)

/-- `KeyFile::Private::escapedKey(data, from, to, result)`: the value returned
and `result` afterwards. -/
def escapedKey (data : List Nat) (fromIdx toIdx : Int) (result : List Nat) :
    Access (Bool × List Nat) :=
  escapedKeyLoop data toIdx (toIdx - fromIdx).toNat fromIdx true result

/-- What `escapedString` has done when it stops: the value returned, `result`,
and the indices passed to `at`, in order. -/
structure Unescaped where
  ok : Bool
  result : List Nat
  reads : List Int
  deriving DecidableEq, Repr

/-- The `switch (nextCh)` of `escapedString`: the text appended for the
character after a backslash, `none` for the `default:` label. -/
def escapeFor (nextCh : Nat) : Option (List Nat) :=
  if nextCh = 115 then some [32]
  else if nextCh = 110 then some [10]
  else if nextCh = 116 then some [9]
  else if nextCh = 114 then some [13]
  else if nextCh = 59 then some [92, 59]
  else if nextCh = 92 then some [92]
  else none

/-- The `while (i < to)` loop of `KeyFile::Private::escapedString`. -/
def escapedStringLoop (data : List Nat) (toIdx : Int) :
    Nat → Int → List Nat → List Int → Access Unescaped
  | 0, i, result, reads =>
    if i < toIdx then Access.outOfFuel
    else Access.done { ok := true, result := result, reads := reads }
  | fuel + 1, i, result, reads =>
    if i < toIdx then
      match byteAt data i with
      | none => Access.outOfBounds i
      | some byte =>
        if toUInt byte = 92 then
          match byteAt data (i + 1) with
          | none => Access.outOfBounds (i + 1)
          | some nextCh =>
            match escapeFor nextCh with
            | some text =>
              escapedStringLoop data toIdx fuel (i + 2) (result ++ text) (reads ++ [i, i + 1])
            | none =>
              Access.done { ok := false, result := result, reads := reads ++ [i, i + 1] }
        else
          escapedStringLoop data toIdx fuel (i + 1) (result ++ [toQChar (toUInt byte)])
            (reads ++ [i])
    else Access.done { ok := true, result := result, reads := reads }

/-- `KeyFile::Private::escapedString(data, from, to, result)`. -/
def escapedString (data : List Nat) (fromIdx toIdx : Int) (result : List Nat) :
    Access Unescaped :=
  escapedStringLoop data toIdx (toIdx - fromIdx).toNat fromIdx result []

/-- The file behind `QFile file(fileName)`: absent, not openable for reading,
or readable with the lines that `readLine` returns. -/
inductive FileState
  | missing
  | unreadable
  | content (lines : List (List Nat))
  deriving DecidableEq, Repr

/-- `KeyFile::Private`. -/
structure Private where
  fileName : String := ""
  status : Status := Status.None
  groups : List (List Nat × List (List Nat × List Nat)) := []
  currentGroup : List Nat := []
  deriving DecidableEq, Repr

/-- `KeyFile::Private::setError(status, reason)`.  The parameter has the name
of the member, so the statement `status = status;` assigns the parameter to
itself; the member `status` is not written.  `groups` is cleared. -/
def setError (_status : Status) (p : Private) : Private :=
  { p with groups := [] }

/-- The loop `while ((ch = data.at(idx - 1)) == ' ' || ch == '\t') --idx;` of
`read`: the value of `idx` when it ends. -/
def skipTrailingSpaces (data : List Nat) : Nat → Int → Access Int
  | 0, _ => Access.outOfFuel
  | fuel + 1, idx =>
    match byteAt data (idx - 1) with
    | none => Access.outOfBounds (idx - 1)
    | some ch =>
      if ch = 32 ∨ ch = 9 then skipTrailingSpaces data fuel (idx - 1)
      else Access.done idx

/-- The local variables `currentGroup` and `groupMap` of `read`. -/
structure ReadLocals where
  currentGroup : List Nat := bytes "general"
  groupMap : List (List Nat × List Nat) := []
  deriving DecidableEq, Repr

/-- The statements `if (groupMap.size()) { groups[currentGroup] = groupMap;
groupMap.clear(); }` of `read`. -/
def flushGroup (p : Private) (l : ReadLocals) : Private × ReadLocals :=
  if l.groupMap.length ≠ 0 then
    ({ p with groups := hashSet l.currentGroup l.groupMap p.groups }, { l with groupMap := [] })
  else (p, l)

/-- The branch of `read` for a line that starts with `[`. -/
def readGroupLine (data : List Nat) (p : Private) (l : ReadLocals) :
    Access (Option (Private × ReadLocals) × Private) :=
  let p1 := (flushGroup p l).1
  let l1 := (flushGroup p l).2
  let idx := indexOf data 93
  if idx = -1 then Access.done (none, setError Status.FormatError p1)
  else
    let group := trimmed (mid data 1 (idx - 1))
    if hashContains (fromAscii group) p1.groups then
      Access.done (none, setError Status.FormatError p1)
    else
      match escapedString group 0 group.length [] with
      | Access.done u =>
        if ¬ u.ok then Access.done (none, setError Status.FormatError p1)
        else Access.done (some (p1, { l1 with currentGroup := u.result }), p1)
      | Access.outOfBounds i => Access.outOfBounds i
      | Access.outOfFuel => Access.outOfFuel

/-- The branch of `read` for a `key=value` line. -/
def readKeyLine (data : List Nat) (p : Private) (l : ReadLocals) :
    Access (Option (Private × ReadLocals) × Private) :=
  let idx := indexOf data 61
  if idx = 0 then Access.done (none, setError Status.FormatError p)
  else
    match skipTrailingSpaces data (data.length + 1) idx with
    | Access.outOfBounds i => Access.outOfBounds i
    | Access.outOfFuel => Access.outOfFuel
    | Access.done idx1 =>
      match escapedKey data 0 idx1 [] with
      | Access.outOfBounds i => Access.outOfBounds i
      | Access.outOfFuel => Access.outOfFuel
      | Access.done (keyOk, key) =>
        if keyOk = false then Access.done (none, setError Status.FormatError p)
        else
          let data1 := trimmed (midToEnd data (idx1 + 1))
          match escapedString data1 0 data1.length [] with
          | Access.outOfBounds i => Access.outOfBounds i
          | Access.outOfFuel => Access.outOfFuel
          | Access.done u =>
            if ¬ u.ok then Access.done (none, setError Status.FormatError p)
            else if hashContains key l.groupMap then
              Access.done (none, setError Status.FormatError p)
            else
              Access.done (some (p, { l with groupMap := hashSet key u.result l.groupMap }), p)

/-- The loop `while (!file.atEnd())` of `read` and the statements after it:
the value returned and the object afterwards. -/
def readLines : List (List Nat) → Private → ReadLocals → Access (Bool × Private)
  | [], p, l => Access.done (true, (flushGroup p l).1)
  | raw :: rest, p, l =>
    if (trimmed raw).length = 0 then readLines rest p l
    else
      match byteAt (trimmed raw) 0 with
      | none => Access.outOfBounds 0
      | some ch =>
        if ch = 35 then readLines rest p l
        else
          match (if ch = 91 then readGroupLine (trimmed raw) p l
                 else readKeyLine (trimmed raw) p l) with
          | Access.outOfBounds i => Access.outOfBounds i
          | Access.outOfFuel => Access.outOfFuel
          | Access.done (none, p1) => Access.done (false, p1)
          | Access.done (some (p1, l1), _) => readLines rest p1 l1

/-- `KeyFile::Private::read`, for the file that `fileName` names. -/
def read (file : FileState) (p : Private) : Access (Bool × Private) :=
  match file with
  | FileState.missing => Access.done (false, setError Status.NotFoundError p)
  | FileState.unreadable => Access.done (false, setError Status.AccessError p)
  | FileState.content lines => readLines lines p {}

/-- `KeyFile::Private::setFileName`, followed by `KeyFile::status`: the object
after the call, when `read` comes to an end. -/
def setFileName (fName : String) (file : FileState) (p : Private) : Access Private :=
  match read file { p with fileName := fName, status := Status.NoError,
                           currentGroup := bytes "general", groups := [] } with
  | Access.done (_, p1) => Access.done p1
  | Access.outOfBounds i => Access.outOfBounds i
  | Access.outOfFuel => Access.outOfFuel

end KeyFile

/-! ## The proxy factory

The factory classes are not among the sources; only their test
`tests/dbus/dbus-proxy-factory.cpp` is.  The definitions of this section follow
section 4.5 of the specification. -/

namespace ProxyFactory

/-- Modelled from the spec: the factory sources are missing; the key of a cached
proxy entry, `(bus, service, path)`. -/
abbrev Key := String × String × String

/-- Modelled from the spec: the factory sources are missing; what the factory
contract reads of a proxy instance: its key, whether a strong reference to it
exists, whether it is valid, whether it is ready. -/
structure ProxyState where
  key : Key
  referenced : Bool := true
  valid : Bool := true
  ready : Bool := false
  deriving DecidableEq, Repr

/-- Modelled from the spec: the factory sources are missing; a pending
operation bound to a proxy instance.  `finished` is `none` until the operation
completes, then `some true` for success and `some false` for an error. -/
structure PendingProxy where
  proxy : Nat
  finished : Option Bool := none
  deriving DecidableEq, Repr

/-- Modelled from the spec: the factory sources are missing; the proxy
instances by identity, the number of instances constructed so far (the identity
of the next one), the cache of weak references by key, and the pending
operations handed out, oldest first. -/
structure Factory where
  proxies : Nat → Option ProxyState := fun _ => none
  created : Nat := 0
  cache : Key → Option Nat := fun _ => none
  operations : List PendingProxy := []

/-- Modelled from the spec: the factory sources are missing; "a proxy exists
and is valid": the instance has a strong reference and was not invalidated. -/
def live (f : Factory) (i : Nat) : Bool :=
  match f.proxies i with
  | some p => p.referenced && p.valid
  | none => false

/-- Modelled from the spec: the factory sources are missing; the cached proxy
for a key, when the weak reference is not empty and the proxy is valid. -/
def lookup (k : Key) (f : Factory) : Option Nat :=
  match f.cache k with
  | some i => if live f i then some i else none
  | none => none

/-- Modelled from the spec: the factory sources are missing; what
`factory.proxy` hands back: the factory afterwards, the index of the new
pending operation, and the proxy instance it is bound to. -/
structure ProxyResult where
  state : Factory
  operation : Nat
  proxy : Nat

/-- Modelled from the spec: the factory sources are missing; `factory.proxy(bus,
service, path)`: while a proxy for the key exists and is valid, a new pending
operation bound to it; otherwise a new proxy is constructed, a weak reference
stored in the cache, and a pending operation attached. -/
def proxy (k : Key) (f : Factory) : ProxyResult :=
  match lookup k f with
  | some i =>
    { state := { f with operations := f.operations ++ [{ proxy := i }] },
      operation := f.operations.length,
      proxy := i }
  | none =>
    { state :=
        { proxies := setAt f.proxies f.created (some { key := k }),
          created := f.created + 1,
          cache := setAt f.cache k (some f.created),
          operations := f.operations ++ [{ proxy := f.created }] },
      operation := f.operations.length,
      proxy := f.created }

/-- Modelled from the spec: the factory sources are missing; the readiness
process of a proxy that exists and is valid completes. -/
def becameReady (i : Nat) (f : Factory) : Factory :=
  match f.proxies i with
  | some p =>
    if p.referenced && p.valid then
      { f with proxies := setAt f.proxies i (some { p with ready := true }) }
    else f
  | none => f

/-- Modelled from the spec: the factory sources are missing; one turn of the
event loop: every unfinished pending operation whose proxy is ready completes
successfully. -/
def loop (f : Factory) : Factory :=
  { f with operations := f.operations.map (fun o =>
      match o.finished, f.proxies o.proxy with
      | none, some p => if p.ready then { o with finished := some true } else o
      | _, _ => o) }

/-- Modelled from the spec: the factory sources are missing; invalidation of a
proxy: it is no longer valid, its cache entry is removed, and its outstanding
pending operations complete with the invalidation error. -/
def invalidate (i : Nat) (f : Factory) : Factory :=
  match f.proxies i with
  | some p =>
    { f with
      proxies := setAt f.proxies i (some { p with valid := false }),
      cache := fun k => if f.cache k = some i then none else f.cache k,
      operations := f.operations.map (fun o =>
        if o.proxy = i ∧ o.finished = none then { o with finished := some false } else o) }
  | none => f

/-- Modelled from the spec: the factory sources are missing; the last strong
reference to a proxy goes away: the weak slot of the cache is empty from then
on. -/
def dropRefs (i : Nat) (f : Factory) : Factory :=
  match f.proxies i with
  | some p => { f with proxies := setAt f.proxies i (some { p with referenced := false }) }
  | none => f

/-- Modelled from the spec: the factory sources are missing; what happens to a
factory and its proxies. -/
inductive FactoryEvent
  | request (k : Key)
  | becameReady (i : Nat)
  | loop
  | invalidate (i : Nat)
  | dropRefs (i : Nat)
  deriving DecidableEq, Repr

/-- Modelled from the spec: the factory sources are missing; one event. -/
def factoryStep (e : FactoryEvent) (f : Factory) : Factory :=
  match e with
  | FactoryEvent.request k => (proxy k f).state
  | FactoryEvent.becameReady i => becameReady i f
  | FactoryEvent.loop => loop f
  | FactoryEvent.invalidate i => invalidate i f
  | FactoryEvent.dropRefs i => dropRefs i f

/-- Modelled from the spec: the factory sources are missing; the events are
applied in order. -/
def runEvents (events : List FactoryEvent) (f : Factory) : Factory :=
  events.foldl (fun g e => factoryStep e g) f

/-- Modelled from the spec: the factory sources are missing; the factory states
reached from a new factory. -/
def FReachable (f : Factory) : Prop := ∃ events, runEvents events {} = f

/-- The proxy `p` is the cached, existing and valid proxy for the key `k`, and
none of the pending operations handed out from number `n` on for `p` has
failed. -/
def Serving (k : Key) (p n : Nat) (f : Factory) : Prop :=
  f.cache k = some p ∧ live f p = true ∧ n ≤ f.operations.length ∧
  ∀ o ∈ f.operations.drop n, o.proxy = p → o.finished ≠ some false

/-- Identities are handed out in order: every proxy instance and every cache
entry is below `created`. -/
def Ordered (f : Factory) : Prop :=
  (∀ i, f.created ≤ i → f.proxies i = none) ∧
  (∀ k i, f.cache k = some i → i < f.created)

/-- The pending operation number `j` is bound to the proxy `q`, an instance
handed out before, and if it has finished successfully the proxy is ready. -/
def Bound (j q : Nat) (f : Factory) : Prop :=
  q < f.created ∧
  ∃ o, f.operations[j]? = some o ∧ o.proxy = q ∧
    (o.finished = some true → ∃ ps, f.proxies q = some ps ∧ ps.ready = true)

end ProxyFactory

/-! # Properties -/

/-! ## Basic facts about QMap and QSet -/

namespace QMap

variable {α : Type}

theorem find_insert_same (k : Nat) (v : α) (m : QMap α) :
    find k (insert k v m) = some v := by
  induction m with
  | nil => simp [insert, find]
  | cons e r ih =>
    obtain ⟨k', v'⟩ := e
    simp only [insert]
    split_ifs with h1 h2
    · simp [find]
    · simp [find]
    · have : k' ≠ k := fun h => h2 h.symm
      simp [find, this, ih]

theorem find_insert_ne {k k' : Nat} (h : k' ≠ k) (v : α) (m : QMap α) :
    find k' (insert k v m) = find k' m := by
  induction m with
  | nil => simp [insert, find, h.symm]
  | cons e r ih =>
    obtain ⟨k₁, v₁⟩ := e
    simp only [insert]
    split_ifs with h1 h2
    · simp [find, h.symm]
    · subst h2
      simp [find, h.symm]
    · by_cases h3 : k₁ = k' <;> simp [find, h3, ih]

theorem find_remove_same (k : Nat) (m : QMap α) : find k (remove k m) = none := by
  induction m with
  | nil => simp [remove, find]
  | cons e r ih =>
    obtain ⟨k', v'⟩ := e
    by_cases h : k' = k
    · simpa [remove, h] using ih
    · simpa [remove, h, find] using ih

theorem find_remove_ne {k k' : Nat} (h : k' ≠ k) (m : QMap α) :
    find k' (remove k m) = find k' m := by
  induction m with
  | nil => simp [remove, find]
  | cons e r ih =>
    obtain ⟨k₁, v₁⟩ := e
    by_cases h1 : k₁ = k
    · subst h1
      have : ¬ k₁ = k' := fun h2 => h h2.symm
      simpa [remove, find, this] using ih
    · by_cases h2 : k₁ = k'
      · subst h2
        simp [remove, find, h]
      · simpa [remove, find, h1, h2] using ih

theorem contains_insert_same (k : Nat) (v : α) (m : QMap α) :
    contains k (insert k v m) = true := by
  simp [contains, find_insert_same]

theorem contains_remove_same (k : Nat) (m : QMap α) :
    contains k (remove k m) = false := by
  simp [contains, find_remove_same]

end QMap

namespace QSet

theorem mem_insert_same (h : Nat) (s : QSet) : contains h (insert h s) = true := by
  unfold contains insert
  split_ifs with h1 <;> simp [h1]

theorem mem_insert_ne {h h' : Nat} (hne : h' ≠ h) (s : QSet) :
    contains h' (insert h s) = contains h' s := by
  unfold contains insert
  split_ifs with h1 <;> simp [hne]

theorem mem_remove_same (h : Nat) (s : QSet) : contains h (remove h s) = false := by
  simp [contains, remove]

theorem mem_remove_ne {h h' : Nat} (hne : h' ≠ h) (s : QSet) :
    contains h' (remove h s) = contains h' s := by
  simp [contains, remove, hne]

end QSet

theorem HandleContext.typeAt_setType_same (c : HandleContext) (t : Nat) (e : TypeEntry) :
    (c.setType t e).typeAt t = e := by
  simp [HandleContext.typeAt, HandleContext.setType, QMap.value, QMap.find_insert_same]

theorem HandleContext.typeAt_setType_ne (c : HandleContext) {t t' : Nat} (h : t' ≠ t)
    (e : TypeEntry) : (c.setType t e).typeAt t' = c.typeAt t' := by
  simp [HandleContext.typeAt, HandleContext.setType, QMap.value, QMap.find_insert_ne h]

theorem refHandle_exclusive (t h : Nat) (s : HandleManager)
    (hs : ∀ t' h', Exclusive s t' h') : ∀ t' h', Exclusive (refHandle t h s) t' h' := by
  intro t' h'
  have := hs t' h'
  unfold Exclusive inToRelease at *
  by_cases ht : t' = t
  · subst ht
    simp only [refHandle, HandleContext.typeAt_setType_same]
    by_cases hh : h' = h
    · subst hh
      split_ifs with h1
      · simp [QSet.mem_remove_same]
      · simp [h1]
    · split_ifs with h1
      · simpa [QMap.contains, QMap.find_insert_ne hh, QSet.mem_remove_ne hh] using this
      · simpa [QMap.contains, QMap.find_insert_ne hh] using this
  · simpa [refHandle, HandleContext.typeAt_setType_ne _ ht] using this

theorem unrefHandle_typeAt_ne (t h : Nat) (s : HandleManager) {t' : Nat} (ht : t' ≠ t) :
    (unrefHandle t h s).ctx.typeAt t' = s.ctx.typeAt t' := by
  simp only [unrefHandle]
  split_ifs <;> simp [HandleContext.typeAt_setType_ne _ ht]

theorem unrefHandle_exclusive (t h : Nat) (s : HandleManager)
    (hs : ∀ t' h', Exclusive s t' h')
    (hk : QMap.contains h (s.ctx.typeAt t).refcounts = true) :
    ∀ t' h', Exclusive (unrefHandle t h s) t' h' := by
  intro t' h'
  have := hs t' h'
  unfold Exclusive inToRelease at *
  by_cases ht : t' = t
  · subst ht
    by_cases hh : h' = h
    · subst hh
      have hnot : QSet.contains h' (s.ctx.typeAt t').toRelease = false := by
        cases hc : QSet.contains h' (s.ctx.typeAt t').toRelease
        · rfl
        · exact absurd ⟨hk, hc⟩ this
      simp only [unrefHandle]
      split_ifs <;>
        simp [HandleContext.typeAt_setType_same, QMap.contains_remove_same, hnot]
    · simp only [unrefHandle]
      split_ifs <;>
        simpa [HandleContext.typeAt_setType_same, QMap.contains, QMap.find_remove_ne hh,
          QMap.find_insert_ne hh, QSet.mem_insert_ne hh] using this
  · rw [unrefHandle_typeAt_ne t h s ht]
    exact this

theorem requestHandles_tables (t : Nat) (s : HandleManager) (t' : Nat) :
    ((requestHandles t s).ctx.typeAt t').refcounts = (s.ctx.typeAt t').refcounts ∧
    ((requestHandles t s).ctx.typeAt t').toRelease = (s.ctx.typeAt t').toRelease := by
  by_cases ht : t' = t
  · subst ht
    simp [requestHandles, HandleContext.typeAt_setType_same]
  · simp [requestHandles, HandleContext.typeAt_setType_ne _ ht]

theorem handleRequestLanded_tables (t : Nat) (s : HandleManager) (t' : Nat) :
    ((handleRequestLanded t s).ctx.typeAt t').refcounts = (s.ctx.typeAt t').refcounts ∧
    ((handleRequestLanded t s).ctx.typeAt t').toRelease = (s.ctx.typeAt t').toRelease := by
  simp only [handleRequestLanded]
  by_cases ht : t' = t
  · subst ht
    split_ifs <;> simp [HandleContext.typeAt_setType_same]
  · split_ifs <;> simp [HandleContext.typeAt_setType_ne _ ht]

theorem doReleaseSweep_refcounts (t : Nat) (s : HandleManager) (t' : Nat) :
    ((doReleaseSweep t s).ctx.typeAt t').refcounts = (s.ctx.typeAt t').refcounts := by
  simp only [doReleaseSweep]
  by_cases ht : t' = t
  · subst ht
    split_ifs <;> simp [HandleContext.typeAt_setType_same]
  · split_ifs <;> simp [HandleContext.typeAt_setType_ne _ ht]

theorem doReleaseSweep_toRelease (t : Nat) (s : HandleManager) (t' h : Nat)
    (hm : h ∈ ((doReleaseSweep t s).ctx.typeAt t').toRelease) :
    h ∈ (s.ctx.typeAt t').toRelease := by
  simp only [doReleaseSweep] at hm
  by_cases ht : t' = t
  · subst ht
    split_ifs at hm <;> simp_all [HandleContext.typeAt_setType_same]
  · split_ifs at hm <;> simp_all [HandleContext.typeAt_setType_ne _ ht]

theorem doReleaseSweep_exclusive (t : Nat) (s : HandleManager)
    (hs : ∀ t' h', Exclusive s t' h') : ∀ t' h', Exclusive (doReleaseSweep t s) t' h' := by
  intro t' h' hc
  apply hs t' h'
  refine ⟨?_, ?_⟩
  · rw [← doReleaseSweep_refcounts t s t']
    exact hc.1
  · have h2 := hc.2
    simp only [inToRelease, QSet.contains, decide_eq_true_eq] at h2 ⊢
    exact doReleaseSweep_toRelease t s t' h' h2

theorem dispatchSweep_exclusive (s : HandleManager)
    (hs : ∀ t' h', Exclusive s t' h') : ∀ t' h', Exclusive (dispatchSweep s) t' h' := by
  unfold dispatchSweep
  split
  · exact hs
  · exact doReleaseSweep_exclusive _ _ hs

/-- Handle exclusivity is an invariant of the handle manager. -/
theorem reachable_exclusive {s : HandleManager} (hr : HReachable s) :
    ∀ t h, Exclusive s t h := by
  induction hr with
  | init => intro t h; simp [Exclusive, HandleContext.typeAt, QMap.value, QMap.find, QMap.contains]
  | ref t h _ ih => exact refHandle_exclusive t h _ ih
  | unref t h _ hk ih => exact unrefHandle_exclusive t h _ ih hk
  | request t _ ih =>
    intro t' h'
    have := ih t' h'
    unfold Exclusive inToRelease at *
    rw [(requestHandles_tables t _ t').1, (requestHandles_tables t _ t').2]
    exact this
  | landed t _ ih =>
    intro t' h'
    have := ih t' h'
    unfold Exclusive inToRelease at *
    rw [(handleRequestLanded_tables t _ t').1, (handleRequestLanded_tables t _ t').2]
    exact this
  | sweep t _ ih => exact doReleaseSweep_exclusive t _ ih
  | dispatch _ ih => exact dispatchSweep_exclusive _ ih

/-- C1, handle exclusivity (H1): in every state of the handle manager reachable
from an empty `HandleContext` through `refHandle`, `unrefHandle` (on a key of
the refcount map), the in-flight increment of `requestHandles`,
`handleRequestLanded` and `doReleaseSweep` (called directly or delivered from
the event queue), no handle of any type is both a key of `refcounts` and a
member of `toRelease`. -/
theorem C1_handle_exclusivity (s : HandleManager) (hr : HReachable s) (t h : Nat) :
    ¬ (QMap.contains h (s.ctx.typeAt t).refcounts = true ∧
       QSet.contains h (s.ctx.typeAt t).toRelease = true) :=
  reachable_exclusive hr t h

theorem C1_handle_exclusivity_witness :
    HReachable (unrefHandle 1 7 (refHandle 1 7 {})) ∧
    QSet.contains 7 ((unrefHandle 1 7 (refHandle 1 7 {})).ctx.typeAt 1).toRelease = true ∧
    ¬ (QMap.contains 7 ((unrefHandle 1 7 (refHandle 1 7 {})).ctx.typeAt 1).refcounts = true ∧
       QSet.contains 7 ((unrefHandle 1 7 (refHandle 1 7 {})).ctx.typeAt 1).toRelease = true) :=
  ⟨HReachable.unref 1 7 (HReachable.ref 1 7 HReachable.init) (by decide), by decide,
   C1_handle_exclusivity _
     (HReachable.unref 1 7 (HReachable.ref 1 7 HReachable.init) (by decide)) 1 7⟩

theorem refHandle_released (t h : Nat) (s : HandleManager) :
    (refHandle t h s).released = s.released := by
  simp [refHandle]

theorem unrefHandle_released (t h : Nat) (s : HandleManager) :
    (unrefHandle t h s).released = s.released := by
  simp only [unrefHandle]
  split_ifs <;> rfl

theorem handleRequestLanded_released (t : Nat) (s : HandleManager) :
    (handleRequestLanded t s).released = s.released := by
  simp only [handleRequestLanded]
  split_ifs <;> rfl

theorem issued_of_eq {s s' : HandleManager} (h : s'.released = s.released) :
    issued s s' = [] := by
  simp [issued, h]

theorem issued_of_append {s s' : HandleManager} {l : List (Nat × List Nat)}
    (h : s'.released = s.released ++ l) : issued s s' = l := by
  simp [issued, h]

theorem doReleaseSweep_blocked (t : Nat) (s : HandleManager)
    (h : (s.ctx.typeAt t).requestsInFlight > 0) :
    (doReleaseSweep t s).released = s.released ∧
    ((doReleaseSweep t s).ctx.typeAt t).toRelease = (s.ctx.typeAt t).toRelease := by
  simp [doReleaseSweep, h, HandleContext.typeAt_setType_same]

theorem doReleaseSweep_issued (t : Nat) (s : HandleManager) :
    issued s (doReleaseSweep t s) =
      if (s.ctx.typeAt t).requestsInFlight = 0 ∧ (s.ctx.typeAt t).toRelease ≠ [] then
        [(t, (s.ctx.typeAt t).toRelease)]
      else [] := by
  simp only [doReleaseSweep]
  by_cases h1 : (s.ctx.typeAt t).requestsInFlight > 0
  · have h0 : (s.ctx.typeAt t).requestsInFlight ≠ 0 := by omega
    simp [h1, h0, issued]
  · have h0 : (s.ctx.typeAt t).requestsInFlight = 0 := by omega
    by_cases h2 : (s.ctx.typeAt t).toRelease = []
    · simp [h0, h2, issued]
    · simp [h0, h2, issued, QSet.toList]

/-- C2, release safety (H2): every `ReleaseHandles` call issued by `refHandle`,
`unrefHandle`, `handleRequestLanded` or `doReleaseSweep` (also when delivered
from the event queue) is for a type whose in-flight counter is 0 at that time;
`doReleaseSweep(t)` run while `requestsInFlight[t] > 0` issues no call and
leaves `toRelease[t]` as it was. -/
theorem C2_release_safety (s : HandleManager) (t h : Nat) :
    (∀ c ∈ issued s (refHandle t h s), (s.ctx.typeAt c.1).requestsInFlight = 0) ∧
    (∀ c ∈ issued s (unrefHandle t h s), (s.ctx.typeAt c.1).requestsInFlight = 0) ∧
    (∀ c ∈ issued s (handleRequestLanded t s), (s.ctx.typeAt c.1).requestsInFlight = 0) ∧
    (∀ c ∈ issued s (doReleaseSweep t s), (s.ctx.typeAt c.1).requestsInFlight = 0) ∧
    (∀ c ∈ issued s (dispatchSweep s), (s.ctx.typeAt c.1).requestsInFlight = 0) ∧
    ((s.ctx.typeAt t).requestsInFlight > 0 →
      issued s (doReleaseSweep t s) = [] ∧
      ((doReleaseSweep t s).ctx.typeAt t).toRelease = (s.ctx.typeAt t).toRelease) := by
  refine ⟨?_, ?_, ?_, ?_, ?_, ?_⟩
  · simp [issued_of_eq (refHandle_released t h s)]
  · simp [issued_of_eq (unrefHandle_released t h s)]
  · simp [issued_of_eq (handleRequestLanded_released t s)]
  · intro c hc
    rw [doReleaseSweep_issued] at hc
    split_ifs at hc with h1
    · simp only [List.mem_singleton] at hc
      subst hc
      exact h1.1
    · simp at hc
  · intro c hc
    unfold dispatchSweep at hc
    split at hc
    · simp [issued] at hc
    · rename_i ty rest hq
      have hi := doReleaseSweep_issued ty { s with sweepQueue := rest }
      have hsame : issued s (doReleaseSweep ty { s with sweepQueue := rest }) =
          issued { s with sweepQueue := rest } (doReleaseSweep ty { s with sweepQueue := rest }) := rfl
      rw [hsame, hi] at hc
      split_ifs at hc with h1
      · simp only [List.mem_singleton] at hc
        subst hc
        exact h1.1
      · simp at hc
  · intro hpos
    exact ⟨issued_of_eq (doReleaseSweep_blocked t s hpos).1, (doReleaseSweep_blocked t s hpos).2⟩

theorem C2_release_safety_witness :
    (requestHandles 1 (unrefHandle 1 7 (refHandle 1 7 {}))).ctx.typeAt 1 =
      { refcounts := [], toRelease := [7], requestsInFlight := 1, releaseScheduled := true } ∧
    issued (requestHandles 1 (unrefHandle 1 7 (refHandle 1 7 {})))
      (doReleaseSweep 1 (requestHandles 1 (unrefHandle 1 7 (refHandle 1 7 {})))) = [] ∧
    ((doReleaseSweep 1 (requestHandles 1 (unrefHandle 1 7 (refHandle 1 7 {})))).ctx.typeAt 1).toRelease
      = [7] :=
  ⟨by decide,
   ((C2_release_safety (requestHandles 1 (unrefHandle 1 7 (refHandle 1 7 {}))) 1 7).2.2.2.2.2
      (by decide)).1,
   by decide⟩

theorem uintDec_succ {n : Nat} (h1 : 1 ≤ n) (hlt : n < UINT_RANGE) : uintDec n = n - 1 := by
  unfold uintDec UINT_RANGE at *
  omega

theorem uintInc_zero : uintInc 0 = 1 := by decide

theorem typeAt_singleton (r : Int) (t : Nat) (e : TypeEntry) :
    HandleContext.typeAt { refcount := r, types := [(t, e)] } t = e := by
  simp [HandleContext.typeAt, QMap.value, QMap.find]

theorem setType_singleton (r : Int) (t : Nat) (e e' : TypeEntry) :
    HandleContext.setType { refcount := r, types := [(t, e)] } t e'
      = { refcount := r, types := [(t, e')] } := by
  simp [HandleContext.setType, QMap.insert]

theorem refHandle_fresh (t h : Nat) :
    refHandle t h {} =
      { ctx := { refcount := 0, types := [(t, { refcounts := [(h, 1)] })] } } := by
  simp [refHandle, HandleContext.typeAt, HandleContext.setType, QMap.value, QMap.find,
    QMap.insert, QSet.contains, uintInc_zero]

theorem unref_ref_fresh (t h : Nat) :
    unrefHandle t h (refHandle t h {}) =
      { ctx := { refcount := 0,
                 types := [(t, { toRelease := [h], releaseScheduled := true })] },
        sweepQueue := [t] } := by
  have e1 : uintDec 1 = 0 := by decide
  rw [refHandle_fresh]
  simp [unrefHandle, typeAt_singleton, setType_singleton, QMap.value, QMap.find,
    QMap.insert, QMap.remove, QSet.insert, e1]

theorem ref_unref_ref_fresh (t h : Nat) :
    refHandle t h (unrefHandle t h (refHandle t h {})) =
      { ctx := { refcount := 0,
                 types := [(t, { refcounts := [(h, 1)], releaseScheduled := true })] },
        sweepQueue := [t] } := by
  rw [unref_ref_fresh]
  simp [refHandle, typeAt_singleton, setType_singleton, QMap.value, QMap.find,
    QMap.insert, QSet.contains, QSet.remove, uintInc_zero]

/-- After `ref; unref; ref` on a fresh handle manager neither the queued sweep nor
a direct sweep makes a call. -/
theorem scenario_sweeps (t h : Nat) :
    (dispatchSweep (refHandle t h (unrefHandle t h (refHandle t h {})))).released = [] ∧
    (doReleaseSweep t (refHandle t h (unrefHandle t h (refHandle t h {})))).released = [] := by
  rw [ref_unref_ref_fresh]
  constructor
  · simp [dispatchSweep, doReleaseSweep, typeAt_singleton, setType_singleton]
  · simp [doReleaseSweep, typeAt_singleton, setType_singleton]

/-- C3, resurrection: in a reachable state where `h` is in `toRelease[t]`,
`refHandle(t, h)` takes `h` out of `toRelease[t]` and stores the reference
count 1 for it, and a `doReleaseSweep(t)` that follows issues no
`ReleaseHandles` call containing `h`.  Scenario, for every type and handle:
after `ref; unref; ref`, the queued sweep, once delivered, issues no call at
all (and neither does a direct call of `doReleaseSweep`). -/
theorem C3_resurrection (s : HandleManager) (hr : HReachable s) (t h : Nat)
    (hm : QSet.contains h (s.ctx.typeAt t).toRelease = true) :
    QSet.contains h ((refHandle t h s).ctx.typeAt t).toRelease = false ∧
    QMap.find h ((refHandle t h s).ctx.typeAt t).refcounts = some 1 ∧
    (∀ c ∈ issued (refHandle t h s) (doReleaseSweep t (refHandle t h s)), h ∉ c.2) ∧
    (∀ c ∈ issued (refHandle t h s) (dispatchSweep (refHandle t h s)),
      c.1 = t → h ∉ c.2) ∧
    (∀ t₀ h₀ : Nat,
      (dispatchSweep (refHandle t₀ h₀ (unrefHandle t₀ h₀ (refHandle t₀ h₀ {})))).released = [] ∧
      (doReleaseSweep t₀ (refHandle t₀ h₀ (unrefHandle t₀ h₀ (refHandle t₀ h₀ {})))).released
        = []) := by
  have hnk : QMap.find h (s.ctx.typeAt t).refcounts = none := by
    have := reachable_exclusive hr t h
    unfold Exclusive inToRelease at this
    cases hf : QMap.find h (s.ctx.typeAt t).refcounts with
    | none => rfl
    | some v => exact absurd ⟨by simp [QMap.contains, hf], hm⟩ this
  have hgone : QSet.contains h ((refHandle t h s).ctx.typeAt t).toRelease = false := by
    simp [refHandle, HandleContext.typeAt_setType_same, hm, QSet.mem_remove_same]
  have hgone' : h ∉ ((refHandle t h s).ctx.typeAt t).toRelease := by
    simpa [QSet.contains] using hgone
  refine ⟨hgone, ?_, ?_, ?_, ?_⟩
  · simp [refHandle, HandleContext.typeAt_setType_same, hm, QMap.find_insert_same,
      QMap.value, hnk, uintInc_zero]
  · intro c hc
    rw [doReleaseSweep_issued] at hc
    split_ifs at hc with h1
    · simp only [List.mem_singleton] at hc
      subst hc
      exact hgone'
    · simp at hc
  · intro c hc hct
    unfold dispatchSweep at hc
    split at hc
    · simp [issued] at hc
    · rename_i ty rest hq
      have hsame : issued (refHandle t h s)
          (doReleaseSweep ty { refHandle t h s with sweepQueue := rest }) =
          issued { refHandle t h s with sweepQueue := rest }
            (doReleaseSweep ty { refHandle t h s with sweepQueue := rest }) := rfl
      rw [hsame, doReleaseSweep_issued] at hc
      split_ifs at hc with h1
      · simp only [List.mem_singleton] at hc
        subst hc
        simp only at hct
        subst hct
        exact hgone'
      · simp at hc
  · exact fun t₀ h₀ => scenario_sweeps t₀ h₀

theorem C3_resurrection_witness :
    QSet.contains 7 ((unrefHandle 1 7 (refHandle 1 7 {})).ctx.typeAt 1).toRelease = true ∧
    QMap.find 7 ((refHandle 1 7 (unrefHandle 1 7 (refHandle 1 7 {}))).ctx.typeAt 1).refcounts
      = some 1 ∧
    (dispatchSweep (refHandle 1 7 (unrefHandle 1 7 (refHandle 1 7 {})))).released = [] :=
  ⟨by decide,
   (C3_resurrection (unrefHandle 1 7 (refHandle 1 7 {}))
      (HReachable.unref 1 7 (HReachable.ref 1 7 HReachable.init) (by decide)) 1 7
      (by decide)).2.1,
   by decide⟩

/-- C4, `unrefHandle(t, h)` on a handle stored with count `n ≥ 1` (`n` a
`uint`).  When `n > 1` the stored count becomes `n - 1` and nothing else
changes: no other count, no set, no counter, no flag, no queued sweep, no call.
When `n = 1` the handle stops being a key of `refcounts[t]` and becomes a
member of `toRelease[t]`, other handles and types are untouched, no call is
made, and a sweep is queued and `releaseScheduled[t]` set exactly when no sweep
was scheduled and `requestsInFlight[t] = 0`. -/
theorem C4_unrefHandle (s : HandleManager) (t h n : Nat)
    (hn : QMap.find h (s.ctx.typeAt t).refcounts = some n) (h1 : 1 ≤ n)
    (hlt : n < UINT_RANGE) :
    (1 < n →
      QMap.find h ((unrefHandle t h s).ctx.typeAt t).refcounts = some (n - 1) ∧
      (∀ h', h' ≠ h → QMap.find h' ((unrefHandle t h s).ctx.typeAt t).refcounts
        = QMap.find h' (s.ctx.typeAt t).refcounts) ∧
      ((unrefHandle t h s).ctx.typeAt t).toRelease = (s.ctx.typeAt t).toRelease ∧
      ((unrefHandle t h s).ctx.typeAt t).requestsInFlight = (s.ctx.typeAt t).requestsInFlight ∧
      ((unrefHandle t h s).ctx.typeAt t).releaseScheduled = (s.ctx.typeAt t).releaseScheduled ∧
      (unrefHandle t h s).sweepQueue = s.sweepQueue) ∧
    (n = 1 →
      QMap.contains h ((unrefHandle t h s).ctx.typeAt t).refcounts = false ∧
      QSet.contains h ((unrefHandle t h s).ctx.typeAt t).toRelease = true ∧
      (∀ h', h' ≠ h →
        QMap.find h' ((unrefHandle t h s).ctx.typeAt t).refcounts
          = QMap.find h' (s.ctx.typeAt t).refcounts ∧
        QSet.contains h' ((unrefHandle t h s).ctx.typeAt t).toRelease
          = QSet.contains h' (s.ctx.typeAt t).toRelease) ∧
      ((unrefHandle t h s).ctx.typeAt t).requestsInFlight = (s.ctx.typeAt t).requestsInFlight ∧
      (((s.ctx.typeAt t).releaseScheduled = false ∧ (s.ctx.typeAt t).requestsInFlight = 0 →
          (unrefHandle t h s).sweepQueue = s.sweepQueue ++ [t] ∧
          ((unrefHandle t h s).ctx.typeAt t).releaseScheduled = true) ∧
       (¬ ((s.ctx.typeAt t).releaseScheduled = false ∧ (s.ctx.typeAt t).requestsInFlight = 0) →
          (unrefHandle t h s).sweepQueue = s.sweepQueue ∧
          ((unrefHandle t h s).ctx.typeAt t).releaseScheduled
            = (s.ctx.typeAt t).releaseScheduled))) ∧
    (∀ t', t' ≠ t → (unrefHandle t h s).ctx.typeAt t' = s.ctx.typeAt t') ∧
    (unrefHandle t h s).released = s.released ∧
    (unrefHandle t h s).ctx.refcount = s.ctx.refcount := by
  have hv : QMap.value h (s.ctx.typeAt t).refcounts 0 = n := by simp [QMap.value, hn]
  have hd : uintDec n = n - 1 := uintDec_succ h1 hlt
  refine ⟨?_, ?_, ?_, unrefHandle_released t h s, ?_⟩
  · intro hgt
    have hne : ¬ (n - 1 = 0) := by omega
    simp only [unrefHandle, hv, hd, hne, if_false, HandleContext.typeAt_setType_same,
      QMap.find_insert_same, true_and]
    exact ⟨fun h' hh => QMap.find_insert_ne hh _ _, trivial⟩
  · intro he
    subst he
    have hz : uintDec 1 = 0 := by decide
    simp only [unrefHandle, hv, hz, if_true]
    cases hsch : (s.ctx.typeAt t).releaseScheduled <;>
      by_cases hfl : (s.ctx.typeAt t).requestsInFlight = 0 <;>
      simp [hsch, hfl, HandleContext.typeAt_setType_same, QMap.contains,
        QMap.find_remove_same, QSet.mem_insert_same] <;>
      exact fun h' hh =>
        ⟨by rw [QMap.find_remove_ne hh, QMap.find_insert_ne hh], QSet.mem_insert_ne hh _⟩
  · exact fun t' ht => unrefHandle_typeAt_ne t h s ht
  · simp only [unrefHandle]
    split_ifs <;> rfl

theorem C4_unrefHandle_witness :
    QMap.find 7 ((refHandle 1 7 {}).ctx.typeAt 1).refcounts = some 1 ∧
    QMap.contains 7 ((unrefHandle 1 7 (refHandle 1 7 {})).ctx.typeAt 1).refcounts = false ∧
    (unrefHandle 1 7 (refHandle 1 7 {})).sweepQueue = [1] ∧
    QMap.find 7 ((unrefHandle 1 7 (refHandle 1 7 (refHandle 1 7 {}))).ctx.typeAt 1).refcounts
      = some 1 :=
  ⟨by decide,
   ((C4_unrefHandle (refHandle 1 7 {}) 1 7 1 (by decide) (by decide) (by decide)).2.1 rfl).1,
   by decide,
   ((C4_unrefHandle (refHandle 1 7 (refHandle 1 7 {})) 1 7 2 (by decide) (by decide)
      (by decide)).1 (by decide)).1⟩

/-- C5, `doReleaseSweep(t)`.  With `requestsInFlight[t] = 0` and a non-empty
`toRelease[t]` it issues exactly one call, `ReleaseHandles(t, S)` with `S` the
content of `toRelease[t]` before the call, and leaves `toRelease[t]` empty;
with requests in flight or an empty `toRelease[t]` it issues no call.  In every
case `refcounts[t]` is unchanged and `releaseScheduled[t]` is false
afterwards. -/
theorem C5_doReleaseSweep (s : HandleManager) (t : Nat) :
    ((s.ctx.typeAt t).requestsInFlight = 0 → (s.ctx.typeAt t).toRelease ≠ [] →
      (doReleaseSweep t s).released = s.released ++ [(t, (s.ctx.typeAt t).toRelease)] ∧
      ((doReleaseSweep t s).ctx.typeAt t).toRelease = []) ∧
    ((s.ctx.typeAt t).requestsInFlight > 0 ∨ (s.ctx.typeAt t).toRelease = [] →
      (doReleaseSweep t s).released = s.released) ∧
    ((doReleaseSweep t s).ctx.typeAt t).refcounts = (s.ctx.typeAt t).refcounts ∧
    ((doReleaseSweep t s).ctx.typeAt t).releaseScheduled = false := by
  refine ⟨?_, ?_, doReleaseSweep_refcounts t s t, ?_⟩
  · intro h0 hne
    simp [doReleaseSweep, h0, hne, HandleContext.typeAt_setType_same, QSet.toList]
  · intro hor
    rcases hor with hpos | hemp
    · exact (doReleaseSweep_blocked t s hpos).1
    · by_cases h1 : (s.ctx.typeAt t).requestsInFlight > 0
      · exact (doReleaseSweep_blocked t s h1).1
      · simp [doReleaseSweep, h1, hemp]
  · simp only [doReleaseSweep]
    split_ifs <;> simp [HandleContext.typeAt_setType_same]

theorem C5_doReleaseSweep_witness :
    ((unrefHandle 1 7 (refHandle 1 7 {})).ctx.typeAt 1).requestsInFlight = 0 ∧
    (doReleaseSweep 1 (unrefHandle 1 7 (refHandle 1 7 {}))).released = [(1, [7])] ∧
    ((doReleaseSweep 1 (unrefHandle 1 7 (refHandle 1 7 {}))).ctx.typeAt 1).toRelease = [] :=
  ⟨by decide,
   ((C5_doReleaseSweep (unrefHandle 1 7 (refHandle 1 7 {})) 1).1 (by decide) (by decide)).1,
   ((C5_doReleaseSweep (unrefHandle 1 7 (refHandle 1 7 {})) 1).1 (by decide) (by decide)).2⟩

theorem uintInc_lt (x : Nat) : uintInc x < UINT_RANGE :=
  Nat.mod_lt _ (by decide)

theorem uintDec_lt (x : Nat) : uintDec x < UINT_RANGE :=
  Nat.mod_lt _ (by decide)

theorem refHandle_typeAt_ne (t h : Nat) (s : HandleManager) {t' : Nat} (ht : t' ≠ t) :
    (refHandle t h s).ctx.typeAt t' = s.ctx.typeAt t' := by
  simp [refHandle, HandleContext.typeAt_setType_ne _ ht]

theorem refHandle_refcounts (t h : Nat) (s : HandleManager) :
    ((refHandle t h s).ctx.typeAt t).refcounts =
      QMap.insert h (uintInc (QMap.value h (s.ctx.typeAt t).refcounts 0))
        (s.ctx.typeAt t).refcounts := by
  simp only [refHandle, HandleContext.typeAt_setType_same]
  split_ifs <;> rfl

theorem unrefHandle_refcounts (t h : Nat) (s : HandleManager) :
    ((unrefHandle t h s).ctx.typeAt t).refcounts =
      if uintDec (QMap.value h (s.ctx.typeAt t).refcounts 0) = 0 then
        QMap.remove h (QMap.insert h (uintDec (QMap.value h (s.ctx.typeAt t).refcounts 0))
          (s.ctx.typeAt t).refcounts)
      else
        QMap.insert h (uintDec (QMap.value h (s.ctx.typeAt t).refcounts 0))
          (s.ctx.typeAt t).refcounts := by
  simp only [unrefHandle]
  split_ifs <;> simp [HandleContext.typeAt_setType_same]

theorem refHandle_bounded (t h : Nat) (s : HandleManager) (hs : CountsBounded s) :
    CountsBounded (refHandle t h s) := by
  intro t' h' n hf
  unfold refcountOf at hf
  by_cases ht : t' = t
  · subst ht
    rw [refHandle_refcounts] at hf
    by_cases hh : h' = h
    · subst hh
      rw [QMap.find_insert_same] at hf
      rw [← Option.some.inj hf]
      exact uintInc_lt _
    · rw [QMap.find_insert_ne hh] at hf
      exact hs _ _ _ hf
  · rw [refHandle_typeAt_ne t h s ht] at hf
    exact hs _ _ _ hf

theorem unrefHandle_bounded (t h : Nat) (s : HandleManager) (hs : CountsBounded s) :
    CountsBounded (unrefHandle t h s) := by
  intro t' h' n hf
  unfold refcountOf at hf
  by_cases ht : t' = t
  · subst ht
    rw [unrefHandle_refcounts] at hf
    by_cases hh : h' = h
    · subst hh
      split_ifs at hf
      · rw [QMap.find_remove_same] at hf
        cases hf
      · rw [QMap.find_insert_same] at hf
        rw [← Option.some.inj hf]
        exact uintDec_lt _
    · split_ifs at hf
      · rw [QMap.find_remove_ne hh, QMap.find_insert_ne hh] at hf
        exact hs _ _ _ hf
      · rw [QMap.find_insert_ne hh] at hf
        exact hs _ _ _ hf
  · rw [unrefHandle_typeAt_ne t h s ht] at hf
    exact hs _ _ _ hf

theorem dispatchSweep_refcounts (s : HandleManager) (t' : Nat) :
    ((dispatchSweep s).ctx.typeAt t').refcounts = (s.ctx.typeAt t').refcounts := by
  unfold dispatchSweep
  split
  · rfl
  · exact doReleaseSweep_refcounts _ _ t'

/-- Stored reference counts stay below `2 ^ 32` in every reachable state. -/
theorem reachable_bounded {s : HandleManager} (hr : HReachable s) : CountsBounded s := by
  induction hr with
  | init =>
    intro t h n hf
    simp [refcountOf, HandleContext.typeAt, QMap.value, QMap.find] at hf
  | ref t h _ ih => exact refHandle_bounded t h _ ih
  | unref t h _ _ ih => exact unrefHandle_bounded t h _ ih
  | request t _ ih =>
    intro t' h' n hf
    unfold refcountOf at hf
    rw [(requestHandles_tables t _ t').1] at hf
    exact ih _ _ _ hf
  | landed t _ ih =>
    intro t' h' n hf
    unfold refcountOf at hf
    rw [(handleRequestLanded_tables t _ t').1] at hf
    exact ih _ _ _ hf
  | sweep t _ ih =>
    intro t' h' n hf
    unfold refcountOf at hf
    rw [doReleaseSweep_refcounts] at hf
    exact ih _ _ _ hf
  | dispatch _ ih =>
    intro t' h' n hf
    unfold refcountOf at hf
    rw [dispatchSweep_refcounts] at hf
    exact ih _ _ _ hf

theorem uintDec_uintInc {v : Nat} (hv : v < UINT_RANGE) : uintDec (uintInc v) = v := by
  unfold uintDec uintInc UINT_RANGE at *
  omega

theorem refHandle_inFlight (t h : Nat) (s : HandleManager) (t' : Nat) :
    ((refHandle t h s).ctx.typeAt t').requestsInFlight = (s.ctx.typeAt t').requestsInFlight ∧
    ((refHandle t h s).ctx.typeAt t').releaseScheduled = (s.ctx.typeAt t').releaseScheduled := by
  by_cases ht : t' = t
  · subst ht
    simp only [refHandle, HandleContext.typeAt_setType_same]
    split_ifs <;> simp
  · rw [refHandle_typeAt_ne t h s ht]
    exact ⟨rfl, rfl⟩

theorem unrefHandle_inFlight (t h : Nat) (s : HandleManager) (t' : Nat) :
    ((unrefHandle t h s).ctx.typeAt t').requestsInFlight
      = (s.ctx.typeAt t').requestsInFlight := by
  by_cases ht : t' = t
  · subst ht
    simp only [unrefHandle]
    split_ifs <;> simp [HandleContext.typeAt_setType_same]
  · rw [unrefHandle_typeAt_ne t h s ht]

theorem doReleaseSweep_typeAt_ne (t : Nat) (s : HandleManager) {t' : Nat} (ht : t' ≠ t) :
    (doReleaseSweep t s).ctx.typeAt t' = s.ctx.typeAt t' := by
  simp only [doReleaseSweep]
  split_ifs <;> simp [HandleContext.typeAt_setType_ne _ ht]

theorem doReleaseSweep_inFlight (t : Nat) (s : HandleManager) (t' : Nat) :
    ((doReleaseSweep t s).ctx.typeAt t').requestsInFlight
      = (s.ctx.typeAt t').requestsInFlight := by
  by_cases ht : t' = t
  · subst ht
    simp only [doReleaseSweep]
    split_ifs <;> simp [HandleContext.typeAt_setType_same]
  · rw [doReleaseSweep_typeAt_ne t s ht]

theorem doReleaseSweep_unscheduled (t : Nat) (s : HandleManager) :
    ((doReleaseSweep t s).ctx.typeAt t).releaseScheduled = false := by
  simp only [doReleaseSweep]
  split_ifs <;> simp [HandleContext.typeAt_setType_same]

/-- The refcount map after `refHandle(t, h); unrefHandle(t, h)` is the map
before the two calls, unless `h` was stored with the count 0. -/
theorem ref_unref_refcounts (s : HandleManager) (hb : CountsBounded s) (t h : Nat)
    (hz : refcountOf t h s ≠ some 0) (h' : Nat) :
    refcountOf t h' (unrefHandle t h (refHandle t h s)) = refcountOf t h' s := by
  unfold refcountOf at *
  rw [unrefHandle_refcounts, refHandle_refcounts]
  simp only [QMap.value, QMap.find_insert_same, Option.getD_some]
  cases hf : QMap.find h (s.ctx.typeAt t).refcounts with
  | none =>
    have e0 : uintDec (uintInc 0) = 0 := by decide
    simp only [Option.getD_none, e0, if_true]
    by_cases hh : h' = h
    · subst hh
      rw [QMap.find_remove_same, hf]
    · rw [QMap.find_remove_ne hh, QMap.find_insert_ne hh, QMap.find_insert_ne hh]
  | some v =>
    have hvb : v < UINT_RANGE := hb t h v hf
    have hv0 : v ≠ 0 := by
      intro h0
      subst h0
      exact hz hf
    simp only [Option.getD_some, uintDec_uintInc hvb, hv0, if_false]
    by_cases hh : h' = h
    · subst hh
      rw [QMap.find_insert_same, hf]
    · rw [QMap.find_insert_ne hh, QMap.find_insert_ne hh]

/-- C6 (amended), round trip: in every reachable state, for every type `t` and
handle `h` that is not stored in `refcounts[t]` with the count 0 (a count that
only a wrapped-around 32-bit counter has), `refHandle(t, h); unrefHandle(t, h)`
followed by `doReleaseSweep(t)` leaves the refcount map and the in-flight
counters of every type as they were, and sets no `releaseScheduled` flag that
was not set before. -/
theorem C6_round_trip (s : HandleManager) (hr : HReachable s) (t h : Nat)
    (hz : refcountOf t h s ≠ some 0) : RoundTrip s t h := by
  refine ⟨?_, ?_, ?_⟩
  · intro t' h'
    by_cases ht : t' = t
    · subst ht
      have := ref_unref_refcounts s (reachable_bounded hr) t' h hz h'
      unfold refcountOf at *
      rw [doReleaseSweep_refcounts]
      exact this
    · unfold refcountOf
      rw [doReleaseSweep_typeAt_ne _ _ ht, unrefHandle_typeAt_ne _ _ _ ht,
        refHandle_typeAt_ne _ _ _ ht]
  · intro t'
    rw [doReleaseSweep_inFlight, unrefHandle_inFlight, (refHandle_inFlight t h s t').1]
  · intro t' hsch
    by_cases ht : t' = t
    · subst ht
      rw [doReleaseSweep_unscheduled] at hsch
      cases hsch
    · rw [doReleaseSweep_typeAt_ne _ _ ht, unrefHandle_typeAt_ne _ _ _ ht,
        refHandle_typeAt_ne _ _ _ ht] at hsch
      exact hsch

theorem C6_round_trip_witness :
    HReachable (refHandle 1 9 {}) ∧ refcountOf 1 7 (refHandle 1 9 {}) ≠ some 0 ∧
    RoundTrip (refHandle 1 9 {}) 1 7 :=
  ⟨HReachable.ref 1 9 HReachable.init, by decide,
   C6_round_trip (refHandle 1 9 {}) (HReachable.ref 1 9 HReachable.init) 1 7 (by decide)⟩

theorem refMany_reachable (t h : Nat) (n : Nat) : HReachable (refMany t h n) := by
  induction n with
  | zero => exact HReachable.init
  | succ n ih => exact HReachable.ref t h ih

theorem refMany_succ (t h : Nat) (n : Nat) :
    refMany t h (n + 1) =
      { ctx := { refcount := 0,
                 types := [(t, { refcounts := [(h, (n + 1) % UINT_RANGE)] })] } } := by
  induction n with
  | zero =>
    simp [refMany, refHandle, HandleContext.typeAt, HandleContext.setType, QMap.value,
      QMap.find, QMap.insert, QSet.contains, uintInc, UINT_RANGE]
  | succ n ih =>
    have hmod : ((n + 1) % UINT_RANGE + 1) % UINT_RANGE = (n + 1 + 1) % UINT_RANGE := by
      unfold UINT_RANGE
      omega
    rw [refMany, ih]
    simp [refHandle, HandleContext.typeAt, HandleContext.setType, QMap.value,
      QMap.find, QMap.insert, QSet.contains, uintInc, hmod]

theorem wrappedState_eq : wrappedState = refMany 1 7 (4294967295 + 1) := by
  rw [refMany_succ]
  rfl

/-- C6 as stated fails in a reachable state: after `2 ^ 32` calls of
`refHandle(1, 7)` the stored count of handle 7 has wrapped around to 0; there
`refHandle; unrefHandle; doReleaseSweep` removes the key 7 from the refcount
map and releases the handle to the peer. -/
theorem C6_counterexample :
    HReachable wrappedState ∧
    refcountOf 1 7 wrappedState = some 0 ∧
    refcountOf 1 7 (doReleaseSweep 1 (unrefHandle 1 7 (refHandle 1 7 wrappedState))) = none ∧
    (doReleaseSweep 1 (unrefHandle 1 7 (refHandle 1 7 wrappedState))).released = [(1, [7])] ∧
    ¬ RoundTrip wrappedState 1 7 := by
  have hreach : HReachable wrappedState := by
    rw [wrappedState_eq]
    exact refMany_reachable 1 7 _
  have hnone : refcountOf 1 7
      (doReleaseSweep 1 (unrefHandle 1 7 (refHandle 1 7 wrappedState))) = none := by decide
  have hzero : refcountOf 1 7 wrappedState = some 0 := by decide
  refine ⟨hreach, hzero, hnone, by decide, ?_⟩
  intro hrt
  have := hrt.1 1 7
  rw [hnone, hzero] at this
  cases this

theorem referenceHandles_fold (handleType : Nat) (handles : List Nat) (c : HandleContext)
    (a n : List Nat) :
    (handles.foldl (referenceHandlesStep handleType) (c, a, n)).2 =
      (a ++ handles.filter (fun h => (c.typeAt handleType).tracks h),
       n ++ handles.filter (fun h => !(c.typeAt handleType).tracks h)) := by
  induction handles generalizing c a n with
  | nil => simp
  | cons h r ih =>
    simp only [List.foldl_cons, referenceHandlesStep]
    cases hp : (c.typeAt handleType).tracks h
    · simp [ih, HandleContext.typeAt_setType_same, List.filter_cons, hp]
    · simp [ih, HandleContext.typeAt_setType_same, List.filter_cons, hp]

theorem count_filter_split (p : Nat → Bool) (l : List Nat) (h : Nat) :
    l.count h = (l.filter p).count h + (l.filter (fun x => !p x)).count h := by
  induction l with
  | nil => simp
  | cons x r ih =>
    rw [List.filter_cons, List.filter_cons, List.count_cons, ih]
    cases hp : p x
    · simp only [Bool.false_eq_true, if_false, Bool.not_false, if_true, List.count_cons]
      omega
    · simp only [if_true, Bool.not_true, Bool.false_eq_true, if_false, List.count_cons]
      omega

/-- C8, `referenceHandles(t, handles)`: `alreadyHeld` is the sub-list of the
handles that are tracked for `t` (keys of `refcounts[t]` or members of
`toRelease[t]`) and `notYetHeld` the sub-list of all the others, both in input
order and with their multiplicities, so each input element lands in exactly
one of them; `HoldHandles(t, notYetHeld)` is the only call and is made iff
`notYetHeld` is not empty, so no call is made when every handle is tracked. -/
theorem C8_referenceHandles (s : HandleManager) (t : Nat) (handles : List Nat) :
    (referenceHandles t handles s).alreadyHeld = handles.filter (fun h => tracked s t h) ∧
    (referenceHandles t handles s).notYetHeld = handles.filter (fun h => !tracked s t h) ∧
    (∀ h, handles.count h = (referenceHandles t handles s).alreadyHeld.count h
        + (referenceHandles t handles s).notYetHeld.count h) ∧
    (∀ h, ¬ (h ∈ (referenceHandles t handles s).alreadyHeld ∧
        h ∈ (referenceHandles t handles s).notYetHeld)) ∧
    ((referenceHandles t handles s).notYetHeld ≠ [] →
      (referenceHandles t handles s).holdCalls
        = [(t, (referenceHandles t handles s).notYetHeld)]) ∧
    ((referenceHandles t handles s).notYetHeld = [] →
      (referenceHandles t handles s).holdCalls = []) ∧
    ((∀ h ∈ handles, tracked s t h = true) → (referenceHandles t handles s).holdCalls = []) := by
  have hfold := referenceHandles_fold t handles s.ctx [] []
  have ha : (referenceHandles t handles s).alreadyHeld
      = handles.filter (fun h => tracked s t h) := by
    simp only [referenceHandles, hfold, tracked, List.nil_append]
  have hn : (referenceHandles t handles s).notYetHeld
      = handles.filter (fun h => !tracked s t h) := by
    simp only [referenceHandles, hfold, tracked, List.nil_append]
  have hcalls : (referenceHandles t handles s).holdCalls =
      if (referenceHandles t handles s).notYetHeld.isEmpty then []
      else [(t, (referenceHandles t handles s).notYetHeld)] := rfl
  refine ⟨ha, hn, ?_, ?_, ?_, ?_, ?_⟩
  · intro h
    rw [ha, hn]
    exact count_filter_split (fun h => tracked s t h) handles h
  · intro h hboth
    rw [ha, hn] at hboth
    have h1 := (List.mem_filter.mp hboth.1).2
    have h2 := (List.mem_filter.mp hboth.2).2
    simp only [h1, Bool.not_true, Bool.false_eq_true] at h2
  · intro hne
    rw [hcalls]
    cases hl : (referenceHandles t handles s).notYetHeld with
    | nil => exact absurd hl hne
    | cons x r => simp
  · intro he
    rw [hcalls, he]
    simp
  · intro hall
    have hnil : (referenceHandles t handles s).notYetHeld = [] := by
      rw [hn, List.filter_eq_nil_iff]
      intro h hm
      simp [hall h hm]
    rw [hcalls, hnil]
    simp

theorem C8_referenceHandles_witness :
    (referenceHandles 1 [7, 9, 7, 3] (unrefHandle 1 3 (refHandle 1 3 (refHandle 1 7 {}))))
      = { alreadyHeld := [7, 7, 3], notYetHeld := [9], holdCalls := [(1, [9])],
          state := unrefHandle 1 3 (refHandle 1 3 (refHandle 1 7 {})) } ∧
    (referenceHandles 1 [7, 3] (unrefHandle 1 3 (refHandle 1 3 (refHandle 1 7 {})))).holdCalls
      = [] :=
  ⟨by decide,
   (C8_referenceHandles (unrefHandle 1 3 (refHandle 1 3 (refHandle 1 7 {}))) 1 [7, 3]).2.2.2.2.2.2
     (by decide)⟩

/-- C10: the readiness is changed along an edge that `changeReadiness` asserts
against.  Run: the proxy starts, `GetStatus` answers Disconnected, the
interface list (with SimplePresence) arrives and the readiness becomes
`NotYetConnected`; the client then asks for `FeatureSimplePresence`, the timer
armed by `becomeReady` runs the step, and when its reply arrives
`continueIntrospection` finds the queue empty and calls
`changeReadiness(ReadinessFull)`: the edge `NotYetConnected → Full`, for which
the assertion of the `ReadinessNotYetConnected` case is false. -/
theorem C10_readiness_edge_violated :
    (run [Event.timer, Event.gotStatus (some ConnectionStatusDisconnected),
          Event.gotInterfaces (some [TELEPATHY_INTERFACE_CONNECTION_INTERFACE_SIMPLE_PRESENCE]),
          Event.becomeReady FeatureSimplePresence, Event.timer,
          Event.gotSimpleStatuses (some [])] Connection.new).map
      (fun c => (c.readiness, c.readinessChanges, c.status))
      = some (ReadinessFull,
          [(ReadinessJustCreated, ReadinessNotYetConnected),
           (ReadinessNotYetConnected, ReadinessFull)],
          ConnectionStatusDisconnected) ∧
    changeReadinessAsserts ReadinessNotYetConnected ReadinessFull = false := by
  decide

/-- C11: entering `ReadinessDead` leaves the introspection queue as it was.  Run:
the client asks for `FeatureSimplePresence`, the proxy starts, `GetStatus`
answers Connected, the interface list arrives (two steps are enqueued, one is
dispatched); then `StatusChanged(Disconnected)` kills the proxy.  The queue
still holds `introspectSimplePresence`, and the late reply to `GetSelfHandle`
dispatches it: a request is sent for the dead connection. -/
theorem C11_queue_survives_death :
    (run [Event.becomeReady FeatureSimplePresence, Event.timer,
          Event.gotStatus (some ConnectionStatusConnected),
          Event.gotInterfaces (some [TELEPATHY_INTERFACE_CONNECTION_INTERFACE_SIMPLE_PRESENCE]),
          Event.statusChanged ConnectionStatusDisconnected ConnectionStatusReasonRequested]
        Connection.new).map
      (fun c => (c.readinessChanges, c.introspectQueue, c.calls))
      = some ([(ReadinessJustCreated, ReadinessDead)],
          [IntrospectStep.introspectSimplePresence], [PendingCall.GetSelfHandle]) ∧
    (run [Event.becomeReady FeatureSimplePresence, Event.timer,
          Event.gotStatus (some ConnectionStatusConnected),
          Event.gotInterfaces (some [TELEPATHY_INTERFACE_CONNECTION_INTERFACE_SIMPLE_PRESENCE]),
          Event.statusChanged ConnectionStatusDisconnected ConnectionStatusReasonRequested,
          Event.gotSelfHandle (some 5)]
        Connection.new).map
      (fun c => (c.readiness, c.introspectQueue, c.calls))
      = some (ReadinessDead, [], [PendingCall.GetSimpleStatuses]) := by
  decide

/-- C12: the error name passed to `invalidate` on a change to Disconnected.  For
the reasons NetworkError, AuthenticationFailed and EncryptionError it is
`TELEPATHY_ERROR_NETWORK_ERROR`, for NameInUse `TELEPATHY_ERROR_NOT_YOURS`, for
NoneSpecified and Requested `TELEPATHY_ERROR_DISCONNECTED`; for each of the
eight `Cert...` reasons it is `TELEPATHY_ERROR_DISCONNECTED` as well, not
`TELEPATHY_ERROR_NETWORK_ERROR`: the run shows the invalidation recorded for
`StatusChanged(Disconnected, CertUntrusted)`. -/
theorem C12_cert_reasons_map_to_disconnected :
    errorNameForReason ConnectionStatusReasonNetworkError = TELEPATHY_ERROR_NETWORK_ERROR ∧
    errorNameForReason ConnectionStatusReasonAuthenticationFailed
      = TELEPATHY_ERROR_NETWORK_ERROR ∧
    errorNameForReason ConnectionStatusReasonEncryptionError = TELEPATHY_ERROR_NETWORK_ERROR ∧
    errorNameForReason ConnectionStatusReasonNameInUse = TELEPATHY_ERROR_NOT_YOURS ∧
    errorNameForReason ConnectionStatusReasonNoneSpecified = TELEPATHY_ERROR_DISCONNECTED ∧
    errorNameForReason ConnectionStatusReasonRequested = TELEPATHY_ERROR_DISCONNECTED ∧
    errorNameForReason ConnectionStatusReasonCertNotProvided = TELEPATHY_ERROR_DISCONNECTED ∧
    errorNameForReason ConnectionStatusReasonCertUntrusted = TELEPATHY_ERROR_DISCONNECTED ∧
    errorNameForReason ConnectionStatusReasonCertExpired = TELEPATHY_ERROR_DISCONNECTED ∧
    errorNameForReason ConnectionStatusReasonCertNotActivated = TELEPATHY_ERROR_DISCONNECTED ∧
    errorNameForReason ConnectionStatusReasonCertHostnameMismatch
      = TELEPATHY_ERROR_DISCONNECTED ∧
    errorNameForReason ConnectionStatusReasonCertFingerprintMismatch
      = TELEPATHY_ERROR_DISCONNECTED ∧
    errorNameForReason ConnectionStatusReasonCertSelfSigned = TELEPATHY_ERROR_DISCONNECTED ∧
    errorNameForReason ConnectionStatusReasonCertOtherError = TELEPATHY_ERROR_DISCONNECTED ∧
    (run [Event.timer, Event.gotStatus (some ConnectionStatusConnecting),
          Event.statusChanged ConnectionStatusDisconnected ConnectionStatusReasonCertUntrusted]
        Connection.new).map (fun c => (c.readiness, c.invalidations))
      = some (ReadinessDead,
          [(TELEPATHY_ERROR_DISCONNECTED, ConnectionStatusReasonCertUntrusted)]) := by
  decide

/-- C14, redundant status change: once the initial status is known,
`StatusChanged(s, r)` with `s` equal to the pending status returns at once, so
the whole state of the proxy (status, reasons, pending status and reason,
readiness, queue and everything else) is as before and nothing is emitted, for
every reason `r`. -/
theorem C14_redundant_status_change (c : Connection) (s r : Nat)
    (hi : c.haveInitialStatus = true) (hs : c.pendingStatus = s) :
    onStatusChanged s r c = c := by
  simp [onStatusChanged, hi, hs]

theorem C14_redundant_status_change_witness :
    (run [Event.timer, Event.gotStatus (some ConnectionStatusConnecting)] Connection.new).map
      (fun c => (c.haveInitialStatus, c.pendingStatus, c.emitted,
        decide (onStatusChanged ConnectionStatusConnecting ConnectionStatusReasonRequested c = c)))
      = some (true, ConnectionStatusConnecting,
          [Signal.statusChanged ConnectionStatusConnecting ConnectionStatusReasonNoneSpecified],
          true) ∧
    onStatusChanged 1 7
      { haveInitialStatus := true, pendingStatus := 1 }
      = { haveInitialStatus := true, pendingStatus := 1 } :=
  ⟨by decide,
   C14_redundant_status_change { haveInitialStatus := true, pendingStatus := 1 } 1 7 rfl rfl⟩

/-- C15: `createChannel(request)` and `ensureChannel(request)` make the same
checks in the same order.  The result fails with NotAvailable iff the readiness
is not Full; otherwise with NotImplemented iff the interface list lacks the
Requests interface; otherwise with InvalidArgument iff the request has no
ChannelType key; otherwise it is a pending channel bound to the request, with
`create` true for `createChannel` and false for `ensureChannel`.  The state of
the proxy is the same afterwards in every case. -/
theorem C15_create_ensure_channel (c : Connection) (request : List (String × String)) :
    (createChannel request c).1 = c ∧ (ensureChannel request c).1 = c ∧
    ((createChannel request c).2 = PendingChannel.failed TELEPATHY_ERROR_NOT_AVAILABLE ↔
      c.readiness ≠ ReadinessFull) ∧
    ((ensureChannel request c).2 = PendingChannel.failed TELEPATHY_ERROR_NOT_AVAILABLE ↔
      c.readiness ≠ ReadinessFull) ∧
    (c.readiness = ReadinessFull →
      (((createChannel request c).2 = PendingChannel.failed TELEPATHY_ERROR_NOT_IMPLEMENTED ↔
        c.interfaces.contains TELEPATHY_INTERFACE_CONNECTION_INTERFACE_REQUESTS = false) ∧
       ((ensureChannel request c).2 = PendingChannel.failed TELEPATHY_ERROR_NOT_IMPLEMENTED ↔
        c.interfaces.contains TELEPATHY_INTERFACE_CONNECTION_INTERFACE_REQUESTS = false))) ∧
    (c.readiness = ReadinessFull →
      c.interfaces.contains TELEPATHY_INTERFACE_CONNECTION_INTERFACE_REQUESTS = true →
      (((createChannel request c).2 = PendingChannel.failed TELEPATHY_ERROR_INVALID_ARGUMENT ↔
        requestContains request CHANNEL_TYPE_KEY = false) ∧
       ((ensureChannel request c).2 = PendingChannel.failed TELEPATHY_ERROR_INVALID_ARGUMENT ↔
        requestContains request CHANNEL_TYPE_KEY = false))) ∧
    (c.readiness = ReadinessFull →
      c.interfaces.contains TELEPATHY_INTERFACE_CONNECTION_INTERFACE_REQUESTS = true →
      requestContains request CHANNEL_TYPE_KEY = true →
      (createChannel request c).2 = PendingChannel.requested request true ∧
      (ensureChannel request c).2 = PendingChannel.requested request false) := by
  refine ⟨?_, ?_, ?_, ?_, ?_, ?_, ?_⟩
  · simp only [createChannel]
    split_ifs <;> rfl
  · simp only [ensureChannel]
    split_ifs <;> rfl
  · simp only [createChannel]
    split_ifs <;> simp_all
  · simp only [ensureChannel]
    split_ifs <;> simp_all
  · intro hf
    constructor
    · simp only [createChannel]
      split_ifs <;> simp_all
    · simp only [ensureChannel]
      split_ifs <;> simp_all
  · intro hf hr
    constructor
    · simp only [createChannel]
      split_ifs <;> simp_all
    · simp only [ensureChannel]
      split_ifs <;> simp_all
  · intro hf hr hk
    constructor
    · simp only [createChannel]
      split_ifs <;> simp_all
    · simp only [ensureChannel]
      split_ifs <;> simp_all

theorem C15_create_ensure_channel_witness :
    (createChannel [(CHANNEL_TYPE_KEY, "Text")]
      { readiness := ReadinessFull,
        interfaces := [TELEPATHY_INTERFACE_CONNECTION_INTERFACE_REQUESTS] }).2
      = PendingChannel.requested [(CHANNEL_TYPE_KEY, "Text")] true ∧
    (ensureChannel [(CHANNEL_TYPE_KEY, "Text")]
      { readiness := ReadinessFull,
        interfaces := [TELEPATHY_INTERFACE_CONNECTION_INTERFACE_REQUESTS] }).2
      = PendingChannel.requested [(CHANNEL_TYPE_KEY, "Text")] false ∧
    (createChannel [] { readiness := ReadinessFull }).2
      = PendingChannel.failed TELEPATHY_ERROR_NOT_IMPLEMENTED :=
  ⟨((C15_create_ensure_channel
      { readiness := ReadinessFull,
        interfaces := [TELEPATHY_INTERFACE_CONNECTION_INTERFACE_REQUESTS] }
      [(CHANNEL_TYPE_KEY, "Text")]).2.2.2.2.2.2 rfl (by decide) (by decide)).1,
   ((C15_create_ensure_channel
      { readiness := ReadinessFull,
        interfaces := [TELEPATHY_INTERFACE_CONNECTION_INTERFACE_REQUESTS] }
      [(CHANNEL_TYPE_KEY, "Text")]).2.2.2.2.2.2 rfl (by decide) (by decide)).2,
   (((C15_create_ensure_channel { readiness := ReadinessFull } []).2.2.2.2.1 rfl).1).2
     (by decide)⟩

theorem land_eq_right_iff (a F : Nat) :
    a &&& F = F ↔ ∀ i, F.testBit i = true → a.testBit i = true := by
  constructor
  · intro h i hi
    have : (a &&& F).testBit i = true := by rw [h]; exact hi
    rw [Nat.testBit_land] at this
    simp only [Bool.and_eq_true] at this
    exact this.1
  · intro h
    apply Nat.eq_of_testBit_eq
    intro i
    rw [Nat.testBit_land]
    cases hF : F.testBit i
    · simp
    · simp [h i hF]

theorem land_eq_left_iff (a F : Nat) :
    F &&& a = F ↔ ∀ i, F.testBit i = true → a.testBit i = true := by
  rw [Nat.land_comm]
  exact land_eq_right_iff a F

/-- C16 (amended): `isReady(F)` is true iff the `ready` flag of the proxy is set
and every feature of `F` is in the ready set `features`; the missing set plays
no part. -/
theorem C16_isReady (c : Connection) (F : Nat) :
    isReady F c = true ↔ c.ready = true ∧ coveredByReady F c := by
  simp only [isReady, Bool.and_eq_true, decide_eq_true_eq, coveredByReady]
  rw [land_eq_right_iff]

theorem C16_isReady_witness :
    isReady FeatureSimplePresence { ready := true, features := 1 } = true ∧
    coveredByReady FeatureSimplePresence { ready := true, features := 1 } :=
  ⟨by decide,
   ((C16_isReady { ready := true, features := 1 } FeatureSimplePresence).mp (by decide)).2⟩

/-- C16 as stated fails: after the proxy of a connected peer without the
SimplePresence interface has become fully ready, `FeatureSimplePresence` is in
the missing set, so every feature of `F = FeatureSimplePresence` is ready or
missing, yet `isReady(F)` is false. -/
theorem C16_counterexample :
    (run [Event.timer, Event.gotStatus (some ConnectionStatusConnected),
          Event.gotInterfaces (some []), Event.gotSelfHandle (some 5)] Connection.new).map
      (fun c => (c.readiness, c.ready, c.features, c.missingFeatures,
        isReady FeatureSimplePresence c))
      = some (ReadinessFull, true, 0, 1, false) ∧
    coveredByReadyOrMissing FeatureSimplePresence
      { ready := true, features := 0, missingFeatures := 1 } ∧
    ¬ (isReady FeatureSimplePresence { ready := true, features := 0, missingFeatures := 1 }
        = true ↔
       coveredByReadyOrMissing FeatureSimplePresence
        { ready := true, features := 0, missingFeatures := 1 }) := by
  have hcov : coveredByReadyOrMissing FeatureSimplePresence
      { ready := true, features := 0, missingFeatures := 1 } := by
    intro i hi
    right
    exact hi
  refine ⟨by decide, hcov, ?_⟩
  intro h
  have := h.mpr hcov
  revert this
  decide

theorem updatePendingStep_frame (c : Connection) (o : PendingReady) :
    (updatePendingStep c o).withoutOperations = c.withoutOperations := by
  simp only [updatePendingStep, Connection.withoutOperations]
  split_ifs <;> rfl

theorem updatePendingFold_frame (l : List PendingReady) (c : Connection) :
    (l.foldl updatePendingStep c).withoutOperations = c.withoutOperations := by
  induction l generalizing c with
  | nil => rfl
  | cons o r ih => rw [List.foldl_cons, ih, updatePendingStep_frame]

/-- `updatePendingOperations` writes `pendingOperations` and `completed` only. -/
theorem updatePendingOperations_frame (c : Connection) :
    (updatePendingOperations c).withoutOperations = c.withoutOperations :=
  updatePendingFold_frame c.pendingOperations c

theorem satisfied_of_frame {c c' : Connection}
    (h : c'.withoutOperations = c.withoutOperations) (o : PendingReady) :
    satisfied c' o = satisfied c o := by
  have h1 : c'.ready = c.ready := by
    have := congrArg Connection.ready h
    exact this
  have h2 : c'.features = c.features := by
    have := congrArg Connection.features h
    exact this
  have h3 : c'.missingFeatures = c.missingFeatures := by
    have := congrArg Connection.missingFeatures h
    exact this
  simp only [satisfied, h1, h2, h3]

theorem eraseP_id_append (k : Nat) (P R : List PendingReady) (y : PendingReady)
    (hP : ∀ x ∈ P, x.id ≠ k) (hy : y.id = k) :
    (P ++ y :: R).eraseP (fun o => decide (o.id = k)) = P ++ R := by
  induction P with
  | nil => simp [List.eraseP_cons, hy]
  | cons x P ih =>
    have hx : x.id ≠ k := hP x (List.mem_cons_self _ _)
    have := ih (fun z hz => hP z (List.mem_cons_of_mem _ hz))
    simp [List.eraseP_cons, hx, this]

theorem map_mark_of_ne (k : Nat) (l : List PendingReady) (h : ∀ x ∈ l, x.id ≠ k) :
    l.map (fun o => if o.id = k then { o with finished := true } else o) = l := by
  induction l with
  | nil => rfl
  | cons x l ih =>
    have hx : x.id ≠ k := h x (List.mem_cons_self _ _)
    simp [hx, ih (fun z hz => h z (List.mem_cons_of_mem _ hz))]

theorem updatePendingFold_spec (c₀ : Connection) (R P : List PendingReady) (c : Connection)
    (hf : c.withoutOperations = c₀.withoutOperations)
    (hl : c.pendingOperations = P ++ R)
    (hn : ((P ++ R).map (fun o => o.id)).Nodup) :
    (R.foldl updatePendingStep c).pendingOperations
      = P ++ R.filter (fun o => !(o.finished || satisfied c₀ o)) ∧
    (R.foldl updatePendingStep c).completed
      = c.completed ++ (R.filter (fun o => satisfied c₀ o)).map (fun o => o.id) := by
  induction R generalizing P c with
  | nil => simp [hl]
  | cons o R ih =>
    rw [List.foldl_cons]
    have hsat : satisfied c o = satisfied c₀ o := satisfied_of_frame hf o
    have hn' : (P.map (fun o => o.id) ++ o.id :: R.map (fun o => o.id)).Nodup := by
      simpa using hn
    have hPo : ∀ x ∈ P, x.id ≠ o.id := by
      intro x hx hxe
      have hd := (List.nodup_append.mp hn').2.2
      exact hd (List.mem_map_of_mem (fun o => o.id) hx) (by rw [hxe]; exact List.mem_cons_self _ _)
    have hRo : ∀ x ∈ R, x.id ≠ o.id := by
      intro x hx hxe
      have h2 := (List.nodup_append.mp hn').2.1
      have h3 := (List.nodup_cons.mp h2).1
      exact h3 (hxe ▸ List.mem_map_of_mem (fun o => o.id) hx)
    have hframe := (updatePendingStep_frame c o).trans hf
    cases hs : satisfied c₀ o
    · cases hfin : o.finished
      · -- kept
        have hstep : updatePendingStep c o = c := by
          simp [updatePendingStep, hsat, hs, hfin]
        rw [hstep]
        have := ih (P ++ [o]) c hf (by simp [hl]) (by simpa using hn)
        simp [List.filter_cons, hs, hfin, this]
      · -- finished before, not satisfied: removed
        have hstep : updatePendingStep c o = { c with pendingOperations := P ++ R } := by
          simp only [updatePendingStep, hsat, hs, hfin, Bool.or_false, if_true, if_false,
            Bool.false_eq_true, hl]
          rw [eraseP_id_append o.id P R o hPo rfl]
        rw [hstep]
        have := ih P { c with pendingOperations := P ++ R } hf rfl
          (by
            have h2 := List.nodup_append.mp hn'
            have h3 := (List.nodup_cons.mp h2.2.1).2
            have : ((P ++ R).map (fun o => o.id)) = P.map (fun o => o.id) ++ R.map (fun o => o.id) := by
              simp
            rw [this]
            refine List.nodup_append.mpr ⟨h2.1, h3, ?_⟩
            intro a ha hb
            exact h2.2.2 ha (List.mem_cons_of_mem _ hb))
        simp [List.filter_cons, hs, hfin, this]
    · -- satisfied: set finished, removed
      have hmarkP := map_mark_of_ne o.id P hPo
      have hmarkR := map_mark_of_ne o.id R hRo
      have hstep : updatePendingStep c o =
          { c with completed := c.completed ++ [o.id], pendingOperations := P ++ R } := by
        simp only [updatePendingStep, hsat, hs, Bool.or_true, if_true, hl, List.map_append,
          List.map_cons, hmarkP, hmarkR]
        rw [eraseP_id_append o.id P R { o with finished := true } hPo rfl]
      rw [hstep]
      have := ih P { c with completed := c.completed ++ [o.id], pendingOperations := P ++ R }
        hf rfl
        (by
          have h2 := List.nodup_append.mp hn'
          have h3 := (List.nodup_cons.mp h2.2.1).2
          have : ((P ++ R).map (fun o => o.id)) = P.map (fun o => o.id) ++ R.map (fun o => o.id) := by
            simp
          rw [this]
          refine List.nodup_append.mpr ⟨h2.1, h3, ?_⟩
          intro a ha hb
          exact h2.2.2 ha (List.mem_cons_of_mem _ hb))
      simp [List.filter_cons, hs, this]

theorem satisfied_iff (c : Connection) (o : PendingReady) :
    satisfied c o = true ↔ c.ready = true ∧ coveredByReadyOrMissing o.features c := by
  simp only [satisfied, Bool.and_eq_true, decide_eq_true_eq, coveredByReadyOrMissing]
  rw [land_eq_left_iff]
  simp only [Nat.testBit_lor, Bool.or_eq_true]

/-- C17 (amended): `updatePendingOperations` sets a pending operation for the
feature set `F` finished iff the `ready` flag of the proxy is set and every
feature of `F` is ready or missing.  The operations set finished (and those
already finished) are removed from `pendingOperations`, all others are kept in
their order; the ones set finished are recorded in list order.  The operations
in the list are distinct objects. -/
theorem C17_updatePendingOperations (c : Connection)
    (hn : (c.pendingOperations.map (fun o => o.id)).Nodup) :
    (∀ o, satisfied c o = true ↔ c.ready = true ∧ coveredByReadyOrMissing o.features c) ∧
    (updatePendingOperations c).pendingOperations
      = c.pendingOperations.filter (fun o => !(o.finished || satisfied c o)) ∧
    (updatePendingOperations c).completed
      = c.completed ++ (c.pendingOperations.filter (fun o => satisfied c o)).map
          (fun o => o.id) := by
  refine ⟨satisfied_iff c, ?_⟩
  have := updatePendingFold_spec c c.pendingOperations [] c rfl rfl (by simpa using hn)
  simpa [updatePendingOperations] using this

theorem C17_updatePendingOperations_witness :
    (updatePendingOperations
      { ready := true, missingFeatures := 1,
        pendingOperations := [{ id := 0, features := 2 }, { id := 1, features := 1 },
          { id := 2, features := 3 }] }).pendingOperations
      = [{ id := 0, features := 2 }, { id := 2, features := 3 }] ∧
    (updatePendingOperations
      { ready := true, missingFeatures := 1,
        pendingOperations := [{ id := 0, features := 2 }, { id := 1, features := 1 },
          { id := 2, features := 3 }] }).completed = [1] :=
  ⟨(C17_updatePendingOperations
      { ready := true, missingFeatures := 1,
        pendingOperations := [{ id := 0, features := 2 }, { id := 1, features := 1 },
          { id := 2, features := 3 }] } (by decide)).2.1.trans (by decide),
   by decide⟩

/-- C17 as stated fails: on a freshly constructed proxy `becomeReady(0)` leaves
its operation pending, and `updatePendingOperations` does not complete it,
although the empty feature set is a subset of the ready and missing features:
the `ready` flag is not set. -/
theorem C17_counterexample :
    (run [Event.becomeReady 0] Connection.new).map
      (fun c => (c.ready, c.pendingOperations, c.completed,
        (updatePendingOperations c).pendingOperations, (updatePendingOperations c).completed))
      = some (false, [{ id := 0, features := 0 }], [], [{ id := 0, features := 0 }], []) ∧
    coveredByReadyOrMissing 0
      { pendingOperations := [{ id := 0, features := 0 }] } := by
  refine ⟨by decide, ?_⟩
  intro i hi
  simp at hi

theorem updatePendingOperations_fields (c : Connection) :
    (updatePendingOperations c).readiness = c.readiness ∧
    (updatePendingOperations c).initialIntrospection = c.initialIntrospection ∧
    (updatePendingOperations c).features = c.features ∧
    (updatePendingOperations c).pendingFeatures = c.pendingFeatures ∧
    (updatePendingOperations c).missingFeatures = c.missingFeatures ∧
    (updatePendingOperations c).interfaces = c.interfaces ∧
    (updatePendingOperations c).introspectQueue = c.introspectQueue ∧
    (updatePendingOperations c).ready = c.ready := by
  have h := updatePendingOperations_frame c
  refine ⟨?_, ?_, ?_, ?_, ?_, ?_, ?_, ?_⟩
  · have := congrArg Connection.readiness h
    exact this
  · have := congrArg Connection.initialIntrospection h
    exact this
  · have := congrArg Connection.features h
    exact this
  · have := congrArg Connection.pendingFeatures h
    exact this
  · have := congrArg Connection.missingFeatures h
    exact this
  · have := congrArg Connection.interfaces h
    exact this
  · have := congrArg Connection.introspectQueue h
    exact this
  · have := congrArg Connection.ready h
    exact this

theorem changeReadiness_fields (r : Readiness) (c : Connection) :
    (changeReadiness r c).readiness = r ∧
    (changeReadiness r c).initialIntrospection = c.initialIntrospection ∧
    (changeReadiness r c).features = c.features ∧
    (changeReadiness r c).pendingFeatures = c.pendingFeatures ∧
    (changeReadiness r c).missingFeatures = c.missingFeatures ∧
    (changeReadiness r c).interfaces = c.interfaces := by
  simp only [changeReadiness]
  cases c.readiness <;> (split_ifs <;> simp)

theorem lor_one_land_one (m : Nat) : (m ||| 1) &&& 1 = 1 := by
  apply Nat.eq_of_testBit_eq
  intro i
  rw [Nat.testBit_land, Nat.testBit_lor]
  cases m.testBit i <;> cases (1 : Nat).testBit i <;> rfl

theorem land_mask_land_one (p : Nat) : (p &&& 4294967294) &&& 1 = 0 := by
  rw [Nat.land_assoc]
  have : (4294967294 : Nat) &&& 1 = 0 := by decide
  rw [this]
  exact Nat.and_zero p

/-- C20 (amended), queue-drain promotion: when `continueIntrospection` runs with
an empty queue on a proxy whose readiness is neither Dead nor Full, then
(a) if the initial-introspection flag was set, the flag is cleared, the
readiness becomes NotYetConnected when it was JustCreated and is kept
otherwise, and the ready, pending and missing feature sets are unchanged;
(b) if the flag was not set and the readiness is JustCreated or Connecting,
the readiness becomes Full, and when the interface list lacks the
SimplePresence interface, `FeatureSimplePresence` is afterwards in the missing
set and not in the pending set. -/
theorem C20_queue_drain_promotion (c : Connection) (hq : c.introspectQueue = [])
    (hd : c.readiness ≠ ReadinessDead) (hf : c.readiness ≠ ReadinessFull) :
    (c.initialIntrospection = true →
      (continueIntrospection c).initialIntrospection = false ∧
      (continueIntrospection c).readiness =
        (if c.readiness = ReadinessJustCreated then ReadinessNotYetConnected
         else c.readiness) ∧
      (continueIntrospection c).features = c.features ∧
      (continueIntrospection c).pendingFeatures = c.pendingFeatures ∧
      (continueIntrospection c).missingFeatures = c.missingFeatures) ∧
    (c.initialIntrospection = false →
      (c.readiness = ReadinessJustCreated ∨ c.readiness = ReadinessConnecting) →
      (continueIntrospection c).readiness = ReadinessFull ∧
      (continueIntrospection c).initialIntrospection = false ∧
      (c.interfaces.contains TELEPATHY_INTERFACE_CONNECTION_INTERFACE_SIMPLE_PRESENCE = false →
        (continueIntrospection c).missingFeatures &&& FeatureSimplePresence ≠ 0 ∧
        (continueIntrospection c).pendingFeatures &&& FeatureSimplePresence = 0)) := by
  have hu := updatePendingOperations_fields
  have hci : continueIntrospection c = updatePendingOperations (queueDrained c) := by
    simp only [continueIntrospection, dispatchQueue, hq]
  rw [hci]
  constructor
  · intro hflag
    by_cases hj : c.readiness = ReadinessJustCreated
    · have hlt : c.readiness.toNat < ReadinessNotYetConnected.toNat := by
        rw [hj]; decide
      have hcf := changeReadiness_fields ReadinessNotYetConnected
        { c with initialIntrospection := false }
      have hqd : queueDrained c = changeReadiness ReadinessNotYetConnected
          { c with initialIntrospection := false } := by
        simp only [queueDrained, hflag, if_true, hlt]
      rw [hqd, if_pos hj]
      refine ⟨?_, ?_, ?_, ?_, ?_⟩
      · rw [(hu _).2.1]; exact hcf.2.1
      · rw [(hu _).1]; exact hcf.1
      · rw [(hu _).2.2.1]; exact hcf.2.2.1
      · rw [(hu _).2.2.2.1]; exact hcf.2.2.2.1
      · rw [(hu _).2.2.2.2.1]; exact hcf.2.2.2.2.1
    · have hlt : ¬ c.readiness.toNat < ReadinessNotYetConnected.toNat := by
        revert hj hd hf
        cases c.readiness <;> decide
      have hqd : queueDrained c = { c with initialIntrospection := false } := by
        simp only [queueDrained, hflag, if_true, hlt, if_false]
      rw [hqd, if_neg hj]
      refine ⟨?_, ?_, ?_, ?_, ?_⟩
      · rw [(hu _).2.1]
      · rw [(hu _).1]
      · rw [(hu _).2.2.1]
      · rw [(hu _).2.2.2.1]
      · rw [(hu _).2.2.2.2.1]
  · intro hflag _
    have hcf := changeReadiness_fields ReadinessFull c
    have halive : c.readiness ≠ ReadinessDead ∧ c.readiness ≠ ReadinessFull := ⟨hd, hf⟩
    by_cases hsp : c.interfaces.contains
        TELEPATHY_INTERFACE_CONNECTION_INTERFACE_SIMPLE_PRESENCE = true
    · have hsp1 : (changeReadiness ReadinessFull c).interfaces.contains
          TELEPATHY_INTERFACE_CONNECTION_INTERFACE_SIMPLE_PRESENCE = true := by
        rw [hcf.2.2.2.2.2]; exact hsp
      have hqd : queueDrained c =
          if (changeReadiness ReadinessFull c).pendingFeatures = FeatureSimplePresence then
            { changeReadiness ReadinessFull c with introspectQueue :=
                (changeReadiness ReadinessFull c).introspectQueue ++
                  [IntrospectStep.introspectSimplePresence] }
          else changeReadiness ReadinessFull c := by
        simp only [queueDrained, hflag, Bool.false_eq_true, if_false]
        rw [if_pos halive, if_neg (fun h => h hsp1)]
      rw [hqd]
      refine ⟨?_, ?_, ?_⟩
      · rw [(hu _).1]
        split_ifs
        · exact hcf.1
        · exact hcf.1
      · rw [(hu _).2.1]
        split_ifs
        · exact hcf.2.1.trans hflag
        · exact hcf.2.1.trans hflag
      · intro habs
        rw [hsp] at habs
        cases habs
    · have hsp1 : ¬ (changeReadiness ReadinessFull c).interfaces.contains
          TELEPATHY_INTERFACE_CONNECTION_INTERFACE_SIMPLE_PRESENCE = true := by
        rw [hcf.2.2.2.2.2]; exact hsp
      have hqd : queueDrained c =
          { changeReadiness ReadinessFull c with
              pendingFeatures :=
                (changeReadiness ReadinessFull c).pendingFeatures &&& notFeatureSimplePresence,
              missingFeatures :=
                (changeReadiness ReadinessFull c).missingFeatures ||| FeatureSimplePresence } := by
        simp only [queueDrained, hflag, Bool.false_eq_true, if_false]
        rw [if_pos halive, if_pos hsp1]
      rw [hqd]
      refine ⟨?_, ?_, ?_⟩
      · rw [(hu _).1]; exact hcf.1
      · rw [(hu _).2.1]; exact hcf.2.1.trans hflag
      · intro _
        rw [(hu _).2.2.2.2.1, (hu _).2.2.2.1]
        simp only [FeatureSimplePresence, notFeatureSimplePresence]
        exact ⟨by rw [lor_one_land_one]; decide, land_mask_land_one _⟩

theorem C20_queue_drain_promotion_witness :
    (continueIntrospection { initialIntrospection := true, pendingFeatures := 1 }).readiness
      = ReadinessNotYetConnected ∧
    (continueIntrospection { readiness := ReadinessConnecting, pendingFeatures := 1 }).readiness
      = ReadinessFull ∧
    (continueIntrospection
      { readiness := ReadinessConnecting, pendingFeatures := 1 }).missingFeatures
        &&& FeatureSimplePresence ≠ 0 :=
  ⟨((C20_queue_drain_promotion { initialIntrospection := true, pendingFeatures := 1 }
      rfl (by decide) (by decide)).1 rfl).2.1,
   ((C20_queue_drain_promotion { readiness := ReadinessConnecting, pendingFeatures := 1 }
      rfl (by decide) (by decide)).2 rfl (Or.inr rfl)).1,
   (((C20_queue_drain_promotion { readiness := ReadinessConnecting, pendingFeatures := 1 }
      rfl (by decide) (by decide)).2 rfl (Or.inr rfl)).2.2 (by decide)).1⟩

/-- C20 as stated fails.  First run: the client asked for
`FeatureSimplePresence`, the peer is Disconnected and its interface list lacks
SimplePresence; the drained queue promotes the readiness to NotYetConnected,
and the feature is still pending and not missing.  Second run: the peer went to
Connecting before the interface list arrived; the drained queue finds the
initial-introspection flag set and leaves the readiness at Connecting. -/
theorem C20_counterexample :
    (run [Event.becomeReady FeatureSimplePresence, Event.timer,
          Event.gotStatus (some ConnectionStatusDisconnected)] Connection.new).map
      (fun c => (c.readiness, c.initialIntrospection, c.introspectQueue, c.pendingFeatures))
      = some (ReadinessJustCreated, true, [], 1) ∧
    (run [Event.becomeReady FeatureSimplePresence, Event.timer,
          Event.gotStatus (some ConnectionStatusDisconnected),
          Event.gotInterfaces (some [])] Connection.new).map
      (fun c => (c.readiness, c.initialIntrospection, c.interfaces, c.pendingFeatures,
        c.missingFeatures))
      = some (ReadinessNotYetConnected, false, [], 1, 0) ∧
    (run [Event.timer, Event.gotStatus (some ConnectionStatusDisconnected),
          Event.statusChanged ConnectionStatusConnecting ConnectionStatusReasonRequested]
        Connection.new).map
      (fun c => (c.readiness, c.initialIntrospection, c.introspectQueue))
      = some (ReadinessConnecting, true, []) ∧
    (run [Event.timer, Event.gotStatus (some ConnectionStatusDisconnected),
          Event.statusChanged ConnectionStatusConnecting ConnectionStatusReasonRequested,
          Event.gotInterfaces (some [])] Connection.new).map
      (fun c => (c.readiness, c.initialIntrospection, c.readinessChanges))
      = some (ReadinessConnecting, false,
          [(ReadinessJustCreated, ReadinessConnecting)]) := by
  refine ⟨?_, ?_, ?_, ?_⟩ <;> decide

/-- C19: the ready and the missing feature set overlap after this run.  The client
asks for `FeatureSimplePresence` while the peer is Disconnected; the interface
list (with SimplePresence) arrives and the statuses are requested; the peer
jumps to Connected, the interface list is fetched again and, the feature still
being pending and the step no longer in the queue, `introspectSimplePresence`
is enqueued a second time.  The first reply succeeds (the feature becomes
ready, and the second request is sent), the second fails (the feature becomes
missing as well). -/
theorem C19_ready_and_missing_overlap :
    (run [Event.timer, Event.gotStatus (some ConnectionStatusDisconnected),
          Event.becomeReady FeatureSimplePresence,
          Event.gotInterfaces (some [TELEPATHY_INTERFACE_CONNECTION_INTERFACE_SIMPLE_PRESENCE]),
          Event.statusChanged ConnectionStatusConnected ConnectionStatusReasonRequested,
          Event.gotInterfaces (some [TELEPATHY_INTERFACE_CONNECTION_INTERFACE_SIMPLE_PRESENCE]),
          Event.gotSimpleStatuses (some [])] Connection.new).map
      (fun c => (c.features, c.pendingFeatures, c.missingFeatures, c.calls))
      = some (1, 0, 0, [PendingCall.GetSelfHandle, PendingCall.GetSimpleStatuses]) ∧
    (run [Event.timer, Event.gotStatus (some ConnectionStatusDisconnected),
          Event.becomeReady FeatureSimplePresence,
          Event.gotInterfaces (some [TELEPATHY_INTERFACE_CONNECTION_INTERFACE_SIMPLE_PRESENCE]),
          Event.statusChanged ConnectionStatusConnected ConnectionStatusReasonRequested,
          Event.gotInterfaces (some [TELEPATHY_INTERFACE_CONNECTION_INTERFACE_SIMPLE_PRESENCE]),
          Event.gotSimpleStatuses (some []), Event.gotSimpleStatuses none] Connection.new).map
      (fun c => (c.features, c.pendingFeatures, c.missingFeatures,
        decide (c.features &&& c.missingFeatures ≠ 0)))
      = some (1, 0, 1, true) := by
  refine ⟨?_, ?_⟩ <;> decide

/-! ## What the building blocks of the slots leave alone -/

theorem changeReadiness_status (r : Readiness) (c : Connection) :
    (changeReadiness r c).readiness = r ∧
    (changeReadiness r c).status = c.pendingStatus ∧
    (changeReadiness r c).statusReason = c.pendingStatusReason ∧
    (changeReadiness r c).pendingStatus = c.pendingStatus ∧
    (changeReadiness r c).pendingStatusReason = c.pendingStatusReason ∧
    (changeReadiness r c).haveInitialStatus = c.haveInitialStatus ∧
    (changeReadiness r c).emitted =
      c.emitted ++ (if c.status ≠ c.pendingStatus ∨ c.statusReason ≠ c.pendingStatusReason then
        [Signal.statusChanged c.pendingStatus c.pendingStatusReason] else []) := by
  simp only [changeReadiness]
  cases c.readiness <;> (split_ifs with h <;> simp_all)

theorem changeReadiness_rest (r : Readiness) (c : Connection) :
    (changeReadiness r c).pendingOperations = c.pendingOperations ∧
    (changeReadiness r c).operationsCreated = c.operationsCreated ∧
    (changeReadiness r c).completed = c.completed ∧
    (changeReadiness r c).ready = c.ready ∧
    (changeReadiness r c).features = c.features ∧
    (changeReadiness r c).missingFeatures = c.missingFeatures ∧
    (changeReadiness r c).pendingFeatures = c.pendingFeatures ∧
    (changeReadiness r c).interfaces = c.interfaces ∧
    (changeReadiness r c).calls = c.calls ∧
    (changeReadiness r c).timers = c.timers ∧
    (changeReadiness r c).invalidations = c.invalidations := by
  simp only [changeReadiness]
  cases c.readiness <;> (split_ifs <;> simp)

theorem runStep_fields (s : IntrospectStep) (c : Connection) :
    (runStep s c).readiness = c.readiness ∧
    (runStep s c).status = c.status ∧
    (runStep s c).statusReason = c.statusReason ∧
    (runStep s c).pendingStatus = c.pendingStatus ∧
    (runStep s c).pendingStatusReason = c.pendingStatusReason ∧
    (runStep s c).haveInitialStatus = c.haveInitialStatus ∧
    (runStep s c).emitted = c.emitted ∧
    (runStep s c).pendingOperations = c.pendingOperations ∧
    (runStep s c).operationsCreated = c.operationsCreated ∧
    (runStep s c).completed = c.completed ∧
    (runStep s c).ready = c.ready ∧
    (runStep s c).features = c.features ∧
    (runStep s c).missingFeatures = c.missingFeatures := by
  cases s <;> simp [runStep]

theorem updatePendingOperations_status (c : Connection) :
    (updatePendingOperations c).status = c.status ∧
    (updatePendingOperations c).statusReason = c.statusReason ∧
    (updatePendingOperations c).pendingStatus = c.pendingStatus ∧
    (updatePendingOperations c).pendingStatusReason = c.pendingStatusReason ∧
    (updatePendingOperations c).haveInitialStatus = c.haveInitialStatus ∧
    (updatePendingOperations c).emitted = c.emitted ∧
    (updatePendingOperations c).operationsCreated = c.operationsCreated ∧
    (updatePendingOperations c).missingFeatures = c.missingFeatures := by
  have h := updatePendingOperations_frame c
  refine ⟨?_, ?_, ?_, ?_, ?_, ?_, ?_, ?_⟩
  · have := congrArg Connection.status h
    exact this
  · have := congrArg Connection.statusReason h
    exact this
  · have := congrArg Connection.pendingStatus h
    exact this
  · have := congrArg Connection.pendingStatusReason h
    exact this
  · have := congrArg Connection.haveInitialStatus h
    exact this
  · have := congrArg Connection.emitted h
    exact this
  · have := congrArg Connection.operationsCreated h
    exact this
  · have := congrArg Connection.missingFeatures h
    exact this

/-! ## The status invariant -/

theorem StatusInv_of_eq {c c' : Connection} (h1 : c'.readiness = c.readiness)
    (h2 : c'.status = c.status) (h3 : c'.pendingStatus = c.pendingStatus)
    (h : StatusInv c) : StatusInv c' := by
  unfold StatusInv at *
  rw [h1, h2, h3]
  exact h

theorem StatusInv_changeReadiness_high (r : Readiness) (c : Connection)
    (hr : ¬ r.toNat < ReadinessConnecting.toNat) : StatusInv (changeReadiness r c) := by
  intro hlt
  rw [(changeReadiness_status r c).1] at hlt
  exact absurd hlt hr

theorem StatusInv_changeReadiness_low (r : Readiness) (c : Connection) (h : StatusInv c)
    (hlt : c.readiness.toNat < ReadinessConnecting.toNat) : StatusInv (changeReadiness r c) := by
  intro _
  rw [(changeReadiness_status r c).2.1, (changeReadiness_status r c).2.2.2.1]
  exact ⟨(h hlt).2, (h hlt).2⟩

theorem StatusInv_queueDrained (c : Connection) (h : StatusInv c) :
    StatusInv (queueDrained c) := by
  simp only [queueDrained]
  split_ifs with h1 h2 h3 h4 h5
  · apply StatusInv_changeReadiness_low
    · exact StatusInv_of_eq rfl rfl rfl h
    · exact Nat.lt_trans h2 (by decide)
  · exact StatusInv_of_eq rfl rfl rfl h
  · exact StatusInv_of_eq (c := changeReadiness ReadinessFull c) rfl rfl rfl
      (StatusInv_changeReadiness_high _ _ (by decide))
  · exact StatusInv_of_eq (c := changeReadiness ReadinessFull c) rfl rfl rfl
      (StatusInv_changeReadiness_high _ _ (by decide))
  · exact StatusInv_changeReadiness_high _ _ (by decide)
  · exact h

theorem StatusInv_dispatchQueue (c : Connection) (h : StatusInv c) :
    StatusInv (dispatchQueue c) := by
  simp only [dispatchQueue]
  split
  · exact StatusInv_queueDrained c h
  · rename_i s rest _
    exact StatusInv_of_eq (runStep_fields s _).1 (runStep_fields s _).2.1
      (runStep_fields s _).2.2.2.1 (StatusInv_of_eq rfl rfl rfl h)

theorem StatusInv_updatePendingOperations (c : Connection) (h : StatusInv c) :
    StatusInv (updatePendingOperations c) :=
  StatusInv_of_eq (updatePendingOperations_fields c).1 (updatePendingOperations_status c).1
    (updatePendingOperations_status c).2.2.1 h

theorem StatusInv_continueIntrospection (c : Connection) (h : StatusInv c) :
    StatusInv (continueIntrospection c) :=
  StatusInv_updatePendingOperations _ (StatusInv_dispatchQueue c h)

theorem StatusInv_statusChangedTail (s r : Nat) (c : Connection) (h : StatusInv c) :
    StatusInv (statusChangedTail s r c) := by
  simp only [statusChangedTail]
  have hne : ConnectionStatusConnected ≠ ConnectionStatusConnecting := by decide
  split_ifs with h1 h2 h3 h4 h5
  · apply StatusInv_continueIntrospection
    intro hlt
    exact ⟨(h hlt).1, fun hh => hne (h1.symm.trans hh)⟩
  · exact StatusInv_changeReadiness_high _ _ (by decide)
  · intro hlt
    exact absurd hlt h3
  · exact StatusInv_changeReadiness_high _ _ (by decide)
  · intro hlt
    have hd : c.readiness = ReadinessDead := not_not.mp h5
    have : ¬ (ReadinessDead.toNat < ReadinessConnecting.toNat) := by decide
    exact absurd (hd ▸ hlt) this
  · intro hlt
    exact ⟨(h hlt).1, h2⟩

theorem StatusInv_onStatusChangedNested (s r : Nat) (c : Connection) (h : StatusInv c) :
    StatusInv (onStatusChangedNested s r c) := by
  simp only [onStatusChangedNested]
  split_ifs <;> first
    | exact h
    | exact StatusInv_statusChangedTail s r c h

theorem StatusInv_onStatusChanged (s r : Nat) (c : Connection) (h : StatusInv c) :
    StatusInv (onStatusChanged s r c) := by
  simp only [onStatusChanged]
  split_ifs <;> first
    | exact h
    | exact StatusInv_statusChangedTail _ r c h
    | exact StatusInv_statusChangedTail _ r _ (StatusInv_onStatusChangedNested _ r c h)

theorem StatusInv_gotStatus (reply : Option Nat) (c : Connection) (h : StatusInv c) :
    StatusInv (gotStatus reply c) := by
  cases reply with
  | none => exact StatusInv_changeReadiness_high _ _ (by decide)
  | some s =>
    simp only [gotStatus]
    split_ifs with h1 h2 h3
    · exact StatusInv_changeReadiness_high _ _ (by decide)
    · intro hlt
      exact ⟨(h hlt).1, h1⟩
    · apply StatusInv_continueIntrospection
      intro hlt
      exact ⟨(h hlt).1, h1⟩
    · apply StatusInv_continueIntrospection
      intro hlt
      exact ⟨(h hlt).1, h1⟩

theorem StatusInv_gotInterfaces (reply : Option (List String)) (c : Connection)
    (h : StatusInv c) : StatusInv (gotInterfaces reply c) := by
  simp only [gotInterfaces]
  apply StatusInv_continueIntrospection
  cases reply with
  | none => exact h
  | some v =>
    simp only
    split_ifs <;> exact StatusInv_of_eq rfl rfl rfl h

theorem StatusInv_gotContactAttributeInterfaces (reply : Option (List String))
    (c : Connection) (h : StatusInv c) :
    StatusInv (gotContactAttributeInterfaces reply c) := by
  simp only [gotContactAttributeInterfaces]
  apply StatusInv_continueIntrospection
  cases reply <;> exact StatusInv_of_eq rfl rfl rfl h

theorem StatusInv_gotSelfContact (contact : Option Nat) (c : Connection)
    (h : StatusInv c) : StatusInv (gotSelfContact contact c) := by
  simp only [gotSelfContact]
  apply StatusInv_continueIntrospection
  cases contact with
  | none => exact StatusInv_of_eq rfl rfl rfl h
  | some k =>
    simp only
    split_ifs <;> exact StatusInv_of_eq rfl rfl rfl h

theorem StatusInv_gotSimpleStatuses (reply : Option (List String)) (c : Connection)
    (h : StatusInv c) : StatusInv (gotSimpleStatuses reply c) := by
  simp only [gotSimpleStatuses]
  apply StatusInv_continueIntrospection
  cases reply <;> exact StatusInv_of_eq rfl rfl rfl h

theorem StatusInv_gotSelfHandle (reply : Option Nat) (c : Connection)
    (h : StatusInv c) : StatusInv (gotSelfHandle reply c) := by
  simp only [gotSelfHandle]
  apply StatusInv_continueIntrospection
  cases reply <;> (simp only; split_ifs <;> exact StatusInv_of_eq rfl rfl rfl h)

theorem StatusInv_onSelfHandleChanged (handle : Nat) (c : Connection)
    (h : StatusInv c) : StatusInv (onSelfHandleChanged handle c) := by
  simp only [onSelfHandleChanged]
  split_ifs
  · exact StatusInv_of_eq (runStep_fields _ _).1 (runStep_fields _ _).2.1
      (runStep_fields _ _).2.2.2.1 (StatusInv_of_eq rfl rfl rfl h)
  · exact StatusInv_of_eq rfl rfl rfl h

theorem becomeReadySimplePresence_fields (c : Connection) :
    (becomeReadySimplePresence c).readiness = c.readiness ∧
    (becomeReadySimplePresence c).status = c.status ∧
    (becomeReadySimplePresence c).pendingStatus = c.pendingStatus ∧
    (becomeReadySimplePresence c).pendingOperations = c.pendingOperations ∧
    (becomeReadySimplePresence c).operationsCreated = c.operationsCreated ∧
    (becomeReadySimplePresence c).completed = c.completed ∧
    (becomeReadySimplePresence c).ready = c.ready ∧
    (becomeReadySimplePresence c).features = c.features ∧
    (becomeReadySimplePresence c).emitted = c.emitted := by
  simp only [becomeReadySimplePresence]
  split_ifs <;> simp

/-- The three ways out of `becomeReady`: a new `PendingSuccess` (nothing else
changes), the cached operation (nothing changes), or a new `PendingReady`
appended before `updatePendingOperations` runs. -/
theorem becomeReady_cases (F : Nat) (c : Connection) :
    (becomeReady F c = ({ c with operationsCreated := c.operationsCreated + 1 },
        Operation.pendingSuccess c.operationsCreated)) ∨
    (isReady F c = false ∧
      ∃ o, c.pendingOperations.find? (fun o => decide (o.features = F)) = some o ∧
        becomeReady F c = (c, Operation.pendingReady o.id)) ∨
    (isReady F c = false ∧
      c.pendingOperations.find? (fun o => decide (o.features = F)) = none ∧
      ∃ c1, (c1 = becomeReadySimplePresence c ∨ c1 = c) ∧
        becomeReady F c =
          (updatePendingOperations
            { c1 with pendingFeatures := c1.pendingFeatures ||| F,
                      pendingOperations :=
                        c1.pendingOperations ++ [{ id := c1.operationsCreated, features := F }],
                      operationsCreated := c1.operationsCreated + 1 },
           Operation.pendingReady c1.operationsCreated)) := by
  by_cases h1 : isReady F c = true
  · left
    simp only [becomeReady, h1, if_true]
  · have h1f : isReady F c = false := by simpa using h1
    cases hfind : c.pendingOperations.find? (fun o => decide (o.features = F)) with
    | some o =>
      right; left
      refine ⟨h1f, o, rfl, ?_⟩
      simp only [becomeReady, h1f, Bool.false_eq_true, if_false, hfind]
    | none =>
      by_cases h2 : F &&& FeatureSimplePresence ≠ 0 ∧ F = FeatureSimplePresence ∧
          c.missingFeatures &&& FeatureSimplePresence ≠ 0
      · left
        simp only [becomeReady, h1f, Bool.false_eq_true, if_false, hfind]
        rw [if_pos h2]
      · right; right
        refine ⟨h1f, rfl, ?_⟩
        by_cases h3 : F &&& FeatureSimplePresence ≠ 0
        · refine ⟨becomeReadySimplePresence c, Or.inl rfl, ?_⟩
          simp only [becomeReady, h1f, Bool.false_eq_true, if_false, hfind]
          rw [if_neg h2, if_pos h3]
        · refine ⟨c, Or.inr rfl, ?_⟩
          simp only [becomeReady, h1f, Bool.false_eq_true, if_false, hfind]
          rw [if_neg h2, if_neg h3]

theorem StatusInv_becomeReady (F : Nat) (c : Connection) (h : StatusInv c) :
    StatusInv (becomeReady F c).1 := by
  rcases becomeReady_cases F c with h1 | ⟨_, o, _, h2⟩ | ⟨_, _, c1, hc1, h3⟩
  · rw [h1]
    exact StatusInv_of_eq rfl rfl rfl h
  · rw [h2]
    exact h
  · rw [h3]
    apply StatusInv_updatePendingOperations
    rcases hc1 with hc1 | hc1
    · subst hc1
      exact StatusInv_of_eq (becomeReadySimplePresence_fields c).1
        (becomeReadySimplePresence_fields c).2.1
        (becomeReadySimplePresence_fields c).2.2.1 h
    · subst hc1
      exact StatusInv_of_eq rfl rfl rfl h

theorem deliver_some {call : PendingCall} {slot : Connection → Connection}
    {c c' : Connection} (h : deliver call slot c = some c') :
    call ∈ c.calls ∧ c' = slot { c with calls := c.calls.erase call } := by
  simp only [deliver] at h
  split_ifs at h with hm
  exact ⟨hm, (Option.some.inj h).symm⟩

theorem StatusInv_step (e : Event) (c c' : Connection) (h : StatusInv c)
    (hs : step e c = some c') : StatusInv c' := by
  cases e with
  | timer =>
    simp only [step] at hs
    split_ifs at hs
    rw [← Option.some.inj hs]
    exact StatusInv_continueIntrospection _ (StatusInv_of_eq rfl rfl rfl h)
  | statusChanged s r =>
    simp only [step] at hs
    split_ifs at hs
    rw [← Option.some.inj hs]
    exact StatusInv_onStatusChanged s r c h
  | selfHandleChanged k =>
    simp only [step] at hs
    split_ifs at hs
    rw [← Option.some.inj hs]
    exact StatusInv_onSelfHandleChanged k c h
  | gotStatus reply =>
    rw [(deliver_some hs).2]
    exact StatusInv_gotStatus reply _ (StatusInv_of_eq rfl rfl rfl h)
  | gotInterfaces reply =>
    rw [(deliver_some hs).2]
    exact StatusInv_gotInterfaces reply _ (StatusInv_of_eq rfl rfl rfl h)
  | gotContactAttributeInterfaces reply =>
    rw [(deliver_some hs).2]
    exact StatusInv_gotContactAttributeInterfaces reply _ (StatusInv_of_eq rfl rfl rfl h)
  | gotSelfContact contact =>
    rw [(deliver_some hs).2]
    exact StatusInv_gotSelfContact contact _ (StatusInv_of_eq rfl rfl rfl h)
  | gotSimpleStatuses reply =>
    rw [(deliver_some hs).2]
    exact StatusInv_gotSimpleStatuses reply _ (StatusInv_of_eq rfl rfl rfl h)
  | gotSelfHandle reply =>
    rw [(deliver_some hs).2]
    exact StatusInv_gotSelfHandle reply _ (StatusInv_of_eq rfl rfl rfl h)
  | becomeReady F =>
    simp only [step] at hs
    rw [← Option.some.inj hs]
    exact StatusInv_becomeReady F c h

/-- A property kept by every event holds at the end of every run that starts
in a state with the property. -/
theorem run_invariant (P : Connection → Prop)
    (hstep : ∀ e c c', P c → step e c = some c' → P c') :
    ∀ (events : List Event) (c c' : Connection), P c → run events c = some c' → P c' := by
  intro events
  induction events with
  | nil =>
    intro c c' hp hr
    simp only [run] at hr
    rw [← Option.some.inj hr]
    exact hp
  | cons e rest ih =>
    intro c c' hp hr
    simp only [run] at hr
    cases hs : step e c with
    | none => rw [hs] at hr; cases hr
    | some c1 =>
      rw [hs] at hr
      exact ih c1 c' (hstep e c c1 hp hs) hr

theorem reachable_StatusInv {c : Connection} (hr : CReachable c) : StatusInv c := by
  obtain ⟨events, he⟩ := hr
  exact run_invariant StatusInv StatusInv_step events Connection.new c
    (fun _ => ⟨by decide, by decide⟩) he

/-! ## Events that carry no status information -/

theorem statusView_runStep (s : IntrospectStep) (c : Connection) :
    statusView (runStep s c) = statusView c := by
  cases s <;> rfl

theorem statusView_updatePendingOperations (c : Connection) :
    statusView (updatePendingOperations c) = statusView c := by
  have h := updatePendingOperations_frame c
  have h1 := congrArg statusView h
  exact h1

theorem statusView_becomeReadySimplePresence (c : Connection) :
    statusView (becomeReadySimplePresence c) = statusView c := by
  simp only [becomeReadySimplePresence]
  split_ifs <;> rfl

/-- An event other than `StatusChanged` and the `GetStatus` reply first changes
members outside the status view and then runs `continueIntrospection`,
`updatePendingOperations`, or nothing more. -/
theorem nonStatus_step_shape (e : Event) (c c' : Connection)
    (he : e.isStatusEvent = false) (hs : step e c = some c') :
    ∃ pre, statusView pre = statusView c ∧
      (c' = continueIntrospection pre ∨ c' = updatePendingOperations pre ∨ c' = pre) := by
  cases e with
  | timer =>
    simp only [step] at hs
    split_ifs at hs
    refine ⟨_, ?_, Or.inl (Option.some.inj hs).symm⟩
    rfl
  | statusChanged s r => cases he
  | gotStatus reply => cases he
  | selfHandleChanged k =>
    simp only [step] at hs
    split_ifs at hs
    refine ⟨c', ?_, Or.inr (Or.inr rfl)⟩
    rw [← Option.some.inj hs]
    simp only [onSelfHandleChanged]
    split_ifs
    · rw [statusView_runStep]
      simp [statusView, statusEmissions]
    · simp [statusView, statusEmissions]
  | gotInterfaces reply =>
    rw [(deliver_some hs).2]
    simp only [gotInterfaces]
    refine ⟨_, ?_, Or.inl rfl⟩
    cases reply with
    | none => rfl
    | some v =>
      simp only
      split_ifs <;> rfl
  | gotContactAttributeInterfaces reply =>
    rw [(deliver_some hs).2]
    simp only [gotContactAttributeInterfaces]
    refine ⟨_, ?_, Or.inl rfl⟩
    cases reply <;> rfl
  | gotSelfContact contact =>
    rw [(deliver_some hs).2]
    simp only [gotSelfContact]
    refine ⟨_, ?_, Or.inl rfl⟩
    cases contact with
    | none => rfl
    | some k =>
      simp only
      split_ifs
      · simp [statusView, statusEmissions]
      · rfl
  | gotSimpleStatuses reply =>
    rw [(deliver_some hs).2]
    simp only [gotSimpleStatuses]
    refine ⟨_, ?_, Or.inl rfl⟩
    cases reply <;> rfl
  | gotSelfHandle reply =>
    rw [(deliver_some hs).2]
    simp only [gotSelfHandle]
    refine ⟨_, ?_, Or.inl rfl⟩
    cases reply <;> (simp only; split_ifs <;> rfl)
  | becomeReady F =>
    simp only [step] at hs
    rw [← Option.some.inj hs]
    rcases becomeReady_cases F c with h1 | ⟨_, o, _, h2⟩ | ⟨_, _, c1, hc1, h3⟩
    · rw [h1]
      refine ⟨_, ?_, Or.inr (Or.inr rfl)⟩
      rfl
    · rw [h2]
      refine ⟨_, ?_, Or.inr (Or.inr rfl)⟩
      rfl
    · rw [h3]
      refine ⟨_, ?_, Or.inr (Or.inl rfl)⟩
      rcases hc1 with hc1 | hc1
      · subst hc1
        have := statusView_becomeReadySimplePresence c
        simp only [statusView] at this ⊢
        exact this
      · subst hc1
        rfl

/-- A property that depends on the status view only and is kept by
`continueIntrospection` is kept by every event that carries no status
information. -/
theorem nonStatus_step_invariant (P : Connection → Prop)
    (hview : ∀ c c', statusView c' = statusView c → P c → P c')
    (hcont : ∀ c, P c → P (continueIntrospection c))
    (e : Event) (c c' : Connection) (he : e.isStatusEvent = false) (hp : P c)
    (hs : step e c = some c') : P c' := by
  obtain ⟨pre, hv, hc⟩ := nonStatus_step_shape e c c' he hs
  have hpre : P pre := hview c pre hv hp
  rcases hc with hc | hc | hc
  · rw [hc]; exact hcont pre hpre
  · rw [hc]; exact hview pre _ (statusView_updatePendingOperations pre) hpre
  · rw [hc]; exact hpre

theorem run_invariant_nonStatus (P : Connection → Prop)
    (hstep : ∀ e c c', e.isStatusEvent = false → P c → step e c = some c' → P c') :
    ∀ (events : List Event) (c c' : Connection),
      (∀ e ∈ events, e.isStatusEvent = false) → P c → run events c = some c' → P c' := by
  intro events
  induction events with
  | nil =>
    intro c c' _ hp hr
    simp only [run] at hr
    rw [← Option.some.inj hr]
    exact hp
  | cons e rest ih =>
    intro c c' hall hp hr
    simp only [run] at hr
    cases hs : step e c with
    | none => rw [hs] at hr; cases hr
    | some c1 =>
      rw [hs] at hr
      exact ih c1 c' (fun e' he' => hall e' (List.mem_cons_of_mem _ he'))
        (hstep e c c1 (hall e (List.mem_cons_self _ _)) hp hs) hr

theorem AfterJump_view (base : List Signal) (r : Nat) (c c' : Connection)
    (hv : statusView c' = statusView c) (h : AfterJump base r c) : AfterJump base r c' := by
  simp only [statusView, Prod.mk.injEq] at hv
  obtain ⟨h1, h2, h3, h4, h5, _, _, _, h9⟩ := hv
  unfold AfterJump at *
  rw [h1, h2, h3, h4, h5, h9]
  exact h

theorem statusEmissions_append_status (l : List Signal) (s r : Nat) :
    statusEmissions (l ++ [Signal.statusChanged s r]) =
      statusEmissions l ++ [Signal.statusChanged s r] := by
  simp [statusEmissions]

theorem AfterJump_queueDrained (base : List Signal) (r : Nat) (c : Connection)
    (h : AfterJump base r c) : AfterJump base r (queueDrained c) := by
  have hge : ¬ c.readiness.toNat < ReadinessNotYetConnected.toNat := by
    rcases h.2.2 with h1 | h1 <;> (rw [h1.1]; decide)
  by_cases hflag : c.initialIntrospection = true
  · have : queueDrained c = { c with initialIntrospection := false } := by
      simp only [queueDrained, hflag, if_true]
      rw [if_neg hge]
    rw [this]
    exact AfterJump_view base r c _ rfl h
  · have hflag' : c.initialIntrospection = false := by simpa using hflag
    rcases h.2.2 with h1 | h1
    · -- readiness Connecting: promoted to Full
      have halive : c.readiness ≠ ReadinessDead ∧ c.readiness ≠ ReadinessFull := by
        rw [h1.1]; exact ⟨by decide, by decide⟩
      have hcs := changeReadiness_status ReadinessFull c
      have hne : c.status ≠ c.pendingStatus ∨ c.statusReason ≠ c.pendingStatusReason := by
        left
        rw [h1.2.1, h.1]
        decide
      have hfull : AfterJump base r (changeReadiness ReadinessFull c) := by
        refine ⟨hcs.2.2.2.1.trans h.1, hcs.2.2.2.2.1.trans h.2.1, Or.inr ⟨hcs.1, ?_, ?_, ?_⟩⟩
        · exact hcs.2.1.trans h.1
        · exact hcs.2.2.1.trans h.2.1
        · rw [hcs.2.2.2.2.2.2, if_pos hne, statusEmissions_append_status, h1.2.2.2, h.1, h.2.1]
          simp
      simp only [queueDrained, hflag', Bool.false_eq_true, if_false]
      rw [if_pos halive]
      split_ifs
      · exact AfterJump_view base r _ _ rfl hfull
      · exact AfterJump_view base r _ _ rfl hfull
      · exact hfull
    · have hnot : ¬ (c.readiness ≠ ReadinessDead ∧ c.readiness ≠ ReadinessFull) := by
        intro hh
        exact hh.2 h1.1
      simp only [queueDrained, hflag', Bool.false_eq_true, if_false]
      rw [if_neg hnot]
      exact h

theorem AfterJump_continueIntrospection (base : List Signal) (r : Nat) (c : Connection)
    (h : AfterJump base r c) : AfterJump base r (continueIntrospection c) := by
  simp only [continueIntrospection]
  apply AfterJump_view base r _ _ (statusView_updatePendingOperations _)
  simp only [dispatchQueue]
  split
  · exact AfterJump_queueDrained base r c h
  · rename_i s rest _
    exact AfterJump_view base r _ _ (statusView_runStep s _) (AfterJump_view base r c _ rfl h)

theorem dispatchQueue_enqueued (c : Connection) (x : IntrospectStep) :
    (dispatchQueue { c with introspectQueue := c.introspectQueue ++ [x] }).readiness
      = c.readiness ∧
    (dispatchQueue { c with introspectQueue := c.introspectQueue ++ [x] }).emitted
      = c.emitted ∧
    statusView (dispatchQueue { c with introspectQueue := c.introspectQueue ++ [x] })
      = statusView c := by
  simp only [dispatchQueue]
  cases c.introspectQueue with
  | nil =>
    simp only [List.nil_append]
    exact ⟨(runStep_fields x _).1, (runStep_fields x _).2.2.2.2.2.2.1, statusView_runStep x _⟩
  | cons s rest =>
    simp only [List.cons_append]
    exact ⟨(runStep_fields s _).1, (runStep_fields s _).2.2.2.2.2.2.1, statusView_runStep s _⟩

/-- C13, non-compliant status jump: in a reachable state where the initial status
is known, the pending status is neither Connecting nor Connected and the
readiness is below Connecting, `StatusChanged(Connected, r)` is handled exactly
as `StatusChanged(Connecting, r)` followed by `StatusChanged(Connected, r)`; the
readiness becomes Connecting and the only signal emitted is
`statusChanged(Connecting, r)`.  As long as no further status information
arrives, the `statusChanged` signals are then those emitted before, followed by
(Connecting, `r`) while the readiness is Connecting, and by (Connecting, `r`) and
(Connected, `r`) once the readiness is Full. -/
theorem C13_status_jump (c : Connection) (hr : CReachable c) (r : Nat)
    (hi : c.haveInitialStatus = true)
    (hp1 : c.pendingStatus ≠ ConnectionStatusConnecting)
    (hp2 : c.pendingStatus ≠ ConnectionStatusConnected)
    (hlt : c.readiness.toNat < ReadinessConnecting.toNat) :
    onStatusChanged ConnectionStatusConnected r c =
      onStatusChanged ConnectionStatusConnected r
        (onStatusChanged ConnectionStatusConnecting r c) ∧
    (onStatusChanged ConnectionStatusConnected r c).readiness = ReadinessConnecting ∧
    (onStatusChanged ConnectionStatusConnected r c).emitted =
      c.emitted ++ [Signal.statusChanged ConnectionStatusConnecting r] ∧
    (∀ events c', (∀ e ∈ events, e.isStatusEvent = false) →
      run events (onStatusChanged ConnectionStatusConnected r c) = some c' →
      AfterJump (statusEmissions c.emitted) r c') := by
  have hni : ¬ ¬ c.haveInitialStatus = true := fun h => h hi
  have hcc : ConnectionStatusConnecting ≠ ConnectionStatusConnected := by decide
  -- the state after the synthesised change to Connecting
  have hA : statusChangedTail ConnectionStatusConnecting r c =
      changeReadiness ReadinessConnecting
        { c with pendingStatus := ConnectionStatusConnecting, pendingStatusReason := r } := by
    simp only [statusChangedTail, hi, hp1, hp2, hcc, hlt, if_true, if_false, not_true_eq_false, not_false_eq_true, ne_eq, true_and, and_true, and_false, false_and]
  have hN : onStatusChangedNested ConnectionStatusConnecting r c =
      statusChangedTail ConnectionStatusConnecting r c := by
    simp only [onStatusChangedNested, hi, hp1, hp2, hcc, hlt, if_true, if_false, not_true_eq_false, not_false_eq_true, ne_eq, true_and, and_true, and_false, false_and]
  have hcs := changeReadiness_status ReadinessConnecting
    { c with pendingStatus := ConnectionStatusConnecting, pendingStatusReason := r }
  have hL : onStatusChanged ConnectionStatusConnected r c =
      statusChangedTail ConnectionStatusConnected r
        (statusChangedTail ConnectionStatusConnecting r c) := by
    simp only [onStatusChanged, hi, hp1, hp2, hcc, hlt, if_true, if_false, not_true_eq_false, not_false_eq_true, ne_eq, true_and, and_true, and_false, false_and]
    rw [hN]
  have hI : onStatusChanged ConnectionStatusConnecting r c =
      statusChangedTail ConnectionStatusConnecting r c := by
    simp only [onStatusChanged, hi, hp1, hp2, hcc, hlt, if_true, if_false, not_true_eq_false, not_false_eq_true, ne_eq, true_and, and_true, and_false, false_and]
  have hAi : (statusChangedTail ConnectionStatusConnecting r c).haveInitialStatus = true := by
    rw [hA, hcs.2.2.2.2.2.1]; exact hi
  have hAp : (statusChangedTail ConnectionStatusConnecting r c).pendingStatus
      = ConnectionStatusConnecting := by
    rw [hA, hcs.2.2.2.1]
  have hR : onStatusChanged ConnectionStatusConnected r
      (statusChangedTail ConnectionStatusConnecting r c) =
      statusChangedTail ConnectionStatusConnected r
        (statusChangedTail ConnectionStatusConnecting r c) := by
    simp only [onStatusChanged, hAi, hAp, hcc, if_true, if_false, not_true_eq_false,
      not_false_eq_true, ne_eq, true_and, and_true, and_false, false_and]
  have hstat := (reachable_StatusInv hr hlt).1
  have hAe : (statusChangedTail ConnectionStatusConnecting r c).emitted =
      c.emitted ++ [Signal.statusChanged ConnectionStatusConnecting r] := by
    rw [hA, hcs.2.2.2.2.2.2, if_pos (Or.inl hstat)]
  -- the change to Connected enqueues `introspectMain` and dispatches one step
  have hB : statusChangedTail ConnectionStatusConnected r
        (statusChangedTail ConnectionStatusConnecting r c) =
      continueIntrospection
        { ({ statusChangedTail ConnectionStatusConnecting r c with
              pendingStatus := ConnectionStatusConnected, pendingStatusReason := r }
            : Connection) with
          introspectQueue :=
            (statusChangedTail ConnectionStatusConnecting r c).introspectQueue ++
              [IntrospectStep.introspectMain] } := by
    simp only [statusChangedTail, if_true]
  have hd := dispatchQueue_enqueued
    ({ statusChangedTail ConnectionStatusConnecting r c with
        pendingStatus := ConnectionStatusConnected, pendingStatusReason := r } : Connection)
    IntrospectStep.introspectMain
  have hready : (onStatusChanged ConnectionStatusConnected r c).readiness
      = ReadinessConnecting := by
    rw [hL, hB]
    simp only [continueIntrospection]
    rw [(updatePendingOperations_fields _).1, hd.1]
    show (statusChangedTail ConnectionStatusConnecting r c).readiness = ReadinessConnecting
    rw [hA, hcs.1]
  have hemit : (onStatusChanged ConnectionStatusConnected r c).emitted =
      c.emitted ++ [Signal.statusChanged ConnectionStatusConnecting r] := by
    rw [hL, hB]
    simp only [continueIntrospection]
    rw [(updatePendingOperations_status _).2.2.2.2.2.1, hd.2.1]
    exact hAe
  have hafter : AfterJump (statusEmissions c.emitted) r
      (onStatusChanged ConnectionStatusConnected r c) := by
    rw [hL, hB]
    simp only [continueIntrospection]
    apply AfterJump_view _ r _ _ (statusView_updatePendingOperations _)
    apply AfterJump_view _ r _ _ hd.2.2
    refine ⟨rfl, rfl, Or.inl ⟨?_, ?_, ?_, ?_⟩⟩
    · show (statusChangedTail ConnectionStatusConnecting r c).readiness = ReadinessConnecting
      rw [hA, hcs.1]
    · show (statusChangedTail ConnectionStatusConnecting r c).status
        = ConnectionStatusConnecting
      rw [hA, hcs.2.1]
    · show (statusChangedTail ConnectionStatusConnecting r c).statusReason = r
      rw [hA, hcs.2.2.1]
    · show statusEmissions (statusChangedTail ConnectionStatusConnecting r c).emitted = _
      rw [hAe, statusEmissions_append_status]
  refine ⟨?_, hready, hemit, ?_⟩
  · rw [hI, hR, hL]
  · intro events c' hall hrun
    exact run_invariant_nonStatus (AfterJump (statusEmissions c.emitted) r)
      (nonStatus_step_invariant _ (AfterJump_view _ r) (AfterJump_continueIntrospection _ r))
      events _ c' hall hafter hrun

theorem C13_status_jump_witness :
    run [Event.timer, Event.gotStatus (some ConnectionStatusDisconnected)] Connection.new
      = some { initialIntrospection := true, introspectQueue := [],
               pendingStatus := ConnectionStatusDisconnected, haveInitialStatus := true,
               calls := [PendingCall.GetInterfaces], statusChangedConnected := true } ∧
    (onStatusChanged ConnectionStatusConnected ConnectionStatusReasonRequested
      { initialIntrospection := true, introspectQueue := [],
        pendingStatus := ConnectionStatusDisconnected, haveInitialStatus := true,
        calls := [PendingCall.GetInterfaces], statusChangedConnected := true }).readiness
      = ReadinessConnecting ∧
    (onStatusChanged ConnectionStatusConnected ConnectionStatusReasonRequested
      { initialIntrospection := true, introspectQueue := [],
        pendingStatus := ConnectionStatusDisconnected, haveInitialStatus := true,
        calls := [PendingCall.GetInterfaces], statusChangedConnected := true }).emitted
      = [Signal.statusChanged ConnectionStatusConnecting ConnectionStatusReasonRequested] ∧
    (run [Event.gotInterfaces (some []), Event.gotSelfHandle (some 5),
          Event.gotInterfaces (some []), Event.gotSelfHandle (some 5)]
      (onStatusChanged ConnectionStatusConnected ConnectionStatusReasonRequested
        { initialIntrospection := true, introspectQueue := [],
          pendingStatus := ConnectionStatusDisconnected, haveInitialStatus := true,
          calls := [PendingCall.GetInterfaces], statusChangedConnected := true })).map
      (fun c => (c.readiness, c.emitted))
      = some (ReadinessFull,
          [Signal.statusChanged ConnectionStatusConnecting ConnectionStatusReasonRequested,
           Signal.statusChanged ConnectionStatusConnected ConnectionStatusReasonRequested]) :=
  ⟨by decide,
   (C13_status_jump _ ⟨[Event.timer, Event.gotStatus (some ConnectionStatusDisconnected)],
      by decide⟩ ConnectionStatusReasonRequested rfl (by decide) (by decide) (by decide)).2.1,
   (C13_status_jump _ ⟨[Event.timer, Event.gotStatus (some ConnectionStatusDisconnected)],
      by decide⟩ ConnectionStatusReasonRequested rfl (by decide) (by decide) (by decide)).2.2.1,
   by decide⟩

/-! ## The pending operations -/

theorem opsView_runStep (s : IntrospectStep) (c : Connection) :
    opsView (runStep s c) = opsView c := by
  cases s <;> rfl

theorem quiet_changeReadiness (r : Readiness) (c : Connection) :
    opsView (changeReadiness r c) = opsView c ∧
    satView (changeReadiness r c) = satView c := by
  have h := changeReadiness_rest r c
  simp only [opsView, satView, h.1, h.2.1, h.2.2.2.1, h.2.2.2.2.1, h.2.2.2.2.2.1, and_self]

theorem opsView_queueDrained (c : Connection) : opsView (queueDrained c) = opsView c := by
  simp only [queueDrained]
  split_ifs <;> simp [opsView, changeReadiness_rest]

theorem opsView_dispatchQueue (c : Connection) : opsView (dispatchQueue c) = opsView c := by
  simp only [dispatchQueue]
  split
  · exact opsView_queueDrained c
  · rw [opsView_runStep]
    rfl

theorem statusChangedTail_shape (s r : Nat) (x : Connection) :
    (∃ pre, opsView pre = opsView x ∧ statusChangedTail s r x = updatePendingOperations pre) ∨
    (opsView (statusChangedTail s r x) = opsView x ∧
      satView (statusChangedTail s r x) = satView x) := by
  simp only [statusChangedTail]
  split_ifs
  · left
    refine ⟨_, ?_, rfl⟩
    exact opsView_dispatchQueue _
  · right
    exact quiet_changeReadiness _ _
  · right
    exact ⟨rfl, rfl⟩
  · right
    exact quiet_changeReadiness _ _
  · right
    exact ⟨rfl, rfl⟩
  · right
    exact ⟨rfl, rfl⟩

theorem quiet_onStatusChangedNested (r : Nat) (c : Connection) :
    opsView (onStatusChangedNested ConnectionStatusConnecting r c) = opsView c ∧
    satView (onStatusChangedNested ConnectionStatusConnecting r c) = satView c := by
  have hcc : ConnectionStatusConnecting ≠ ConnectionStatusConnected := by decide
  simp only [onStatusChangedNested, statusChangedTail, hcc, if_false, if_true]
  split_ifs <;> first
    | exact ⟨rfl, rfl⟩
    | exact quiet_changeReadiness _ _

theorem onStatusChanged_shape (s r : Nat) (c : Connection) :
    (∃ pre, opsView pre = opsView c ∧ onStatusChanged s r c = updatePendingOperations pre) ∨
    (opsView (onStatusChanged s r c) = opsView c ∧
      satView (onStatusChanged s r c) = satView c) := by
  have hn := quiet_onStatusChangedNested r c
  simp only [onStatusChanged]
  have ht := statusChangedTail_shape s r (onStatusChangedNested ConnectionStatusConnecting r c)
  split_ifs <;> first
    | exact Or.inr ⟨rfl, rfl⟩
    | exact statusChangedTail_shape s r c
    | (rcases ht with ⟨pre, hp, he⟩ | ⟨h1, h2⟩
       · exact Or.inl ⟨pre, hp.trans hn.1, he⟩
       · exact Or.inr ⟨h1.trans hn.1, h2.trans hn.2⟩)

theorem gotStatus_shape (reply : Option Nat) (c : Connection) :
    (∃ pre, opsView pre = opsView c ∧ gotStatus reply c = updatePendingOperations pre) ∨
    (opsView (gotStatus reply c) = opsView c ∧ satView (gotStatus reply c) = satView c) := by
  cases reply with
  | none =>
    right
    exact quiet_changeReadiness _ _
  | some s =>
    simp only [gotStatus]
    split_ifs
    · right; exact quiet_changeReadiness _ _
    · right; exact ⟨rfl, rfl⟩
    · left
      refine ⟨_, ?_, rfl⟩
      exact opsView_dispatchQueue _
    · left
      refine ⟨_, ?_, rfl⟩
      exact opsView_dispatchQueue _

theorem continueIntrospection_settles (x c : Connection) (h : opsView x = opsView c) :
    ∃ pre, opsView pre = opsView c ∧ continueIntrospection x = updatePendingOperations pre :=
  ⟨dispatchQueue x, (opsView_dispatchQueue x).trans h, rfl⟩

/-- What an event does to the pending operations: it ends in
`updatePendingOperations` with the list as it was; or it leaves the list and
the members read by the completion test alone; or (a `becomeReady` for a
feature set with no pending operation) it appends a new operation and ends in
`updatePendingOperations`. -/
theorem step_ops_shape (e : Event) (c c' : Connection) (hs : step e c = some c') :
    (∃ pre, opsView pre = opsView c ∧ c' = updatePendingOperations pre) ∨
    (c'.pendingOperations = c.pendingOperations ∧
      c.operationsCreated ≤ c'.operationsCreated ∧ satView c' = satView c) ∨
    (∃ pre F, c.pendingOperations.find? (fun o => decide (o.features = F)) = none ∧
      pre.pendingOperations =
        c.pendingOperations ++ [{ id := c.operationsCreated, features := F }] ∧
      pre.operationsCreated = c.operationsCreated + 1 ∧
      c' = updatePendingOperations pre) := by
  have quiet : ∀ x : Connection, opsView x = opsView c → satView x = satView c →
      x.pendingOperations = c.pendingOperations ∧
        c.operationsCreated ≤ x.operationsCreated ∧ satView x = satView c := by
    intro x h1 h2
    simp only [opsView, Prod.mk.injEq] at h1
    exact ⟨h1.1, le_of_eq h1.2.symm, h2⟩
  cases e with
  | timer =>
    simp only [step] at hs
    split_ifs at hs
    rw [← Option.some.inj hs]
    exact Or.inl (continueIntrospection_settles _ c rfl)
  | statusChanged s r =>
    simp only [step] at hs
    split_ifs at hs
    rw [← Option.some.inj hs]
    rcases onStatusChanged_shape s r c with h | ⟨h1, h2⟩
    · exact Or.inl h
    · exact Or.inr (Or.inl (quiet _ h1 h2))
  | selfHandleChanged k =>
    simp only [step] at hs
    split_ifs at hs
    rw [← Option.some.inj hs]
    refine Or.inr (Or.inl (quiet _ ?_ ?_))
    · simp only [onSelfHandleChanged]
      split_ifs <;> rfl
    · simp only [onSelfHandleChanged]
      split_ifs <;> rfl
  | gotStatus reply =>
    rw [(deliver_some hs).2]
    rcases gotStatus_shape reply { c with calls := c.calls.erase PendingCall.GetStatus }
      with h | ⟨h1, h2⟩
    · exact Or.inl h
    · exact Or.inr (Or.inl (quiet _ h1 h2))
  | gotInterfaces reply =>
    rw [(deliver_some hs).2]
    simp only [gotInterfaces]
    refine Or.inl (continueIntrospection_settles _ c ?_)
    cases reply with
    | none => rfl
    | some v =>
      simp only
      split_ifs <;> rfl
  | gotContactAttributeInterfaces reply =>
    rw [(deliver_some hs).2]
    simp only [gotContactAttributeInterfaces]
    refine Or.inl (continueIntrospection_settles _ c ?_)
    cases reply <;> rfl
  | gotSelfContact contact =>
    rw [(deliver_some hs).2]
    simp only [gotSelfContact]
    refine Or.inl (continueIntrospection_settles _ c ?_)
    cases contact with
    | none => rfl
    | some k =>
      simp only
      split_ifs <;> rfl
  | gotSimpleStatuses reply =>
    rw [(deliver_some hs).2]
    simp only [gotSimpleStatuses]
    refine Or.inl (continueIntrospection_settles _ c ?_)
    cases reply <;> rfl
  | gotSelfHandle reply =>
    rw [(deliver_some hs).2]
    simp only [gotSelfHandle]
    refine Or.inl (continueIntrospection_settles _ c ?_)
    cases reply <;> (simp only; split_ifs <;> rfl)
  | becomeReady F =>
    simp only [step] at hs
    rw [← Option.some.inj hs]
    rcases becomeReady_cases F c with h1 | ⟨_, o, _, h2⟩ | ⟨_, hfind, c1, hc1, h3⟩
    · rw [h1]
      exact Or.inr (Or.inl ⟨rfl, Nat.le_succ _, rfl⟩)
    · rw [h2]
      exact Or.inr (Or.inl ⟨rfl, le_refl _, rfl⟩)
    · rw [h3]
      refine Or.inr (Or.inr ⟨_, F, hfind, ?_, ?_, rfl⟩)
      · rcases hc1 with hc1 | hc1
        · subst hc1
          simp only [(becomeReadySimplePresence_fields c).2.2.2.1,
            (becomeReadySimplePresence_fields c).2.2.2.2.1]
        · subst hc1
          rfl
      · rcases hc1 with hc1 | hc1
        · subst hc1
          simp only [(becomeReadySimplePresence_fields c).2.2.2.2.1]
        · subst hc1
          rfl

theorem OpsWellFormed_of_view {c c' : Connection} (h : opsView c' = opsView c)
    (hw : OpsWellFormed c) : OpsWellFormed c' := by
  simp only [opsView, Prod.mk.injEq] at h
  unfold OpsWellFormed
  rw [h.1, h.2]
  exact hw

theorem satisfied_of_satView {c c' : Connection} (h : satView c' = satView c)
    (o : PendingReady) : satisfied c' o = satisfied c o := by
  simp only [satView, Prod.mk.injEq] at h
  simp only [satisfied, h.1, h.2.1, h.2.2]

theorem updatePendingOperations_list (c : Connection)
    (hn : (c.pendingOperations.map (fun o => o.id)).Nodup) :
    (updatePendingOperations c).pendingOperations
      = c.pendingOperations.filter (fun o => !(o.finished || satisfied c o)) := by
  have := updatePendingFold_spec c c.pendingOperations [] c rfl rfl (by simpa using hn)
  simpa [updatePendingOperations] using this.1

theorem updatePendingOperations_created (c : Connection) :
    (updatePendingOperations c).operationsCreated = c.operationsCreated := by
  have := congrArg Connection.operationsCreated (updatePendingOperations_frame c)
  exact this

theorem OpsInv_updatePendingOperations (pre : Connection) (hw : OpsWellFormed pre) :
    OpsInv (updatePendingOperations pre) := by
  have hl := updatePendingOperations_list pre hw.1
  have hsub : (updatePendingOperations pre).pendingOperations.Sublist pre.pendingOperations := by
    rw [hl]
    exact List.filter_sublist _
  refine ⟨⟨?_, ?_, ?_, ?_⟩, ?_⟩
  · exact List.Nodup.sublist (hsub.map _) hw.1
  · intro o ho
    rw [updatePendingOperations_created]
    exact hw.2.1 o (hsub.subset ho)
  · exact List.Nodup.sublist (hsub.map _) hw.2.2.1
  · intro o ho
    exact hw.2.2.2 o (hsub.subset ho)
  · intro o ho
    rw [satisfied_of_frame (updatePendingOperations_frame pre)]
    rw [hl, List.mem_filter] at ho
    have h2 := ho.2
    simp only [Bool.not_eq_true', Bool.or_eq_false_iff] at h2
    exact h2.2

theorem OpsWellFormed_append (c pre : Connection) (F : Nat) (hw : OpsWellFormed c)
    (hfind : c.pendingOperations.find? (fun o => decide (o.features = F)) = none)
    (hl : pre.pendingOperations =
      c.pendingOperations ++ [{ id := c.operationsCreated, features := F }])
    (hc : pre.operationsCreated = c.operationsCreated + 1) : OpsWellFormed pre := by
  have hnone := List.find?_eq_none.mp hfind
  unfold OpsWellFormed
  rw [hl, hc]
  refine ⟨?_, ?_, ?_, ?_⟩
  · rw [List.map_append, List.nodup_append]
    refine ⟨hw.1, List.nodup_singleton _, ?_⟩
    intro k hk hk2
    simp only [List.map_cons, List.map_nil, List.mem_singleton] at hk2
    obtain ⟨o, ho, hok⟩ := List.mem_map.mp hk
    have := hw.2.1 o ho
    omega
  · intro o ho
    rcases List.mem_append.mp ho with ho | ho
    · have := hw.2.1 o ho
      omega
    · rw [List.mem_singleton] at ho
      rw [ho]
      exact Nat.lt_succ_self _
  · rw [List.map_append, List.nodup_append]
    refine ⟨hw.2.2.1, List.nodup_singleton _, ?_⟩
    intro k hk hk2
    simp only [List.map_cons, List.map_nil, List.mem_singleton] at hk2
    obtain ⟨o, ho, hok⟩ := List.mem_map.mp hk
    have := hnone o ho
    simp only [decide_eq_true_eq] at this
    exact this (hok.trans hk2)
  · intro o ho
    rcases List.mem_append.mp ho with ho | ho
    · exact hw.2.2.2 o ho
    · rw [List.mem_singleton] at ho
      rw [ho]

theorem OpsInv_step (e : Event) (c c' : Connection) (h : OpsInv c)
    (hs : step e c = some c') : OpsInv c' := by
  rcases step_ops_shape e c c' hs with ⟨pre, hp, he⟩ | ⟨h1, h2, h3⟩ | ⟨pre, F, hf, hl, hc, he⟩
  · rw [he]
    exact OpsInv_updatePendingOperations pre (OpsWellFormed_of_view hp h.1)
  · refine ⟨⟨?_, ?_, ?_, ?_⟩, ?_⟩
    · rw [h1]; exact h.1.1
    · intro o ho
      rw [h1] at ho
      exact lt_of_lt_of_le (h.1.2.1 o ho) h2
    · rw [h1]; exact h.1.2.2.1
    · intro o ho
      rw [h1] at ho
      exact h.1.2.2.2 o ho
    · intro o ho
      rw [h1] at ho
      rw [satisfied_of_satView h3]
      exact h.2 o ho
  · rw [he]
    exact OpsInv_updatePendingOperations pre (OpsWellFormed_append c pre F h.1 hf hl hc)

theorem reachable_OpsInv {c : Connection} (hr : CReachable c) : OpsInv c := by
  obtain ⟨events, he⟩ := hr
  refine run_invariant OpsInv OpsInv_step events Connection.new c ?_ he
  refine ⟨⟨List.nodup_nil, ?_, List.nodup_nil, ?_⟩, ?_⟩ <;>
    (intro o ho; cases ho)

theorem land_subset_lor (a F m : Nat) (h : a &&& F = F) : F &&& (a ||| m) = F := by
  apply Nat.eq_of_testBit_eq
  intro i
  have h1 : (a &&& F).testBit i = F.testBit i := by rw [h]
  rw [Nat.testBit_land] at h1
  rw [Nat.testBit_land, Nat.testBit_lor]
  cases hF : F.testBit i <;> cases ha : a.testBit i <;> cases hm : m.testBit i <;> simp_all

/-- A pending operation is handed out again: `becomeReady` for its feature set
returns it and changes nothing. -/
theorem becomeReady_pending (c : Connection) (h : OpsInv c) (o : PendingReady)
    (ho : o ∈ c.pendingOperations) :
    becomeReady o.features c = (c, Operation.pendingReady o.id) := by
  have hsat := h.2 o ho
  have hnr : isReady o.features c = false := by
    cases hr : isReady o.features c
    · rfl
    · exfalso
      simp only [isReady, Bool.and_eq_true, decide_eq_true_eq] at hr
      have : satisfied c o = true := by
        simp only [satisfied, Bool.and_eq_true, decide_eq_true_eq]
        exact ⟨hr.1, land_subset_lor _ _ _ hr.2⟩
      rw [hsat] at this
      cases this
  rcases becomeReady_cases o.features c with h1 | ⟨_, o', hf, h2⟩ | ⟨_, hf, _⟩
  · exfalso
    have h2 : isReady o.features c = true := by
      by_contra hne
      have hfalse : isReady o.features c = false := by simpa using hne
      have hfind : ∃ o', c.pendingOperations.find? (fun x => decide (x.features = o.features))
          = some o' := by
        cases hq : c.pendingOperations.find? (fun x => decide (x.features = o.features)) with
        | some o' => exact ⟨o', rfl⟩
        | none =>
          have := List.find?_eq_none.mp hq o ho
          simp at this
      obtain ⟨o', hq⟩ := hfind
      simp only [becomeReady, hfalse, Bool.false_eq_true, if_false, hq] at h1
      have := congrArg Prod.snd h1
      simp at this
    rw [hnr] at h2
    cases h2
  · have hm := List.mem_of_find?_eq_some hf
    have hp := List.find?_some hf
    simp only [decide_eq_true_eq] at hp
    have : o' = o := List.inj_on_of_nodup_map h.1.2.2.1 hm ho hp
    rw [h2, this]
  · exfalso
    have := List.find?_eq_none.mp hf o ho
    simp at this

theorem CreatedFor_step (id F : Nat) (e : Event) (c c' : Connection)
    (h : OpsInv c ∧ CreatedFor id F c) (hs : step e c = some c') :
    OpsInv c' ∧ CreatedFor id F c' := by
  refine ⟨OpsInv_step e c c' h.1 hs, ?_⟩
  obtain ⟨hinv, hlt, hfe⟩ := h
  rcases step_ops_shape e c c' hs with ⟨pre, hp, he⟩ | ⟨h1, h2, h3⟩ | ⟨pre, G, hf, hl, hc, he⟩
  · have hw := OpsWellFormed_of_view hp hinv.1
    simp only [opsView, Prod.mk.injEq] at hp
    rw [he]
    refine ⟨?_, ?_⟩
    · rw [updatePendingOperations_created, hp.2]
      exact hlt
    · intro o ho hid
      rw [updatePendingOperations_list pre hw.1, List.mem_filter, hp.1] at ho
      exact hfe o ho.1 hid
  · refine ⟨lt_of_lt_of_le hlt h2, ?_⟩
    intro o ho hid
    rw [h1] at ho
    exact hfe o ho hid
  · have hw := OpsWellFormed_append c pre G hinv.1 hf hl hc
    rw [he]
    refine ⟨?_, ?_⟩
    · rw [updatePendingOperations_created, hc]
      omega
    · intro o ho hid
      rw [updatePendingOperations_list pre hw.1, List.mem_filter, hl] at ho
      rcases List.mem_append.mp ho.1 with hm | hm
      · exact hfe o hm hid
      · rw [List.mem_singleton] at hm
        rw [hm] at hid
        simp only at hid
        omega

theorem becomeReady_createdFor (c : Connection) (h : OpsInv c) (F id : Nat)
    (hop : (becomeReady F c).2 = Operation.pendingReady id) :
    CreatedFor id F (becomeReady F c).1 := by
  rcases becomeReady_cases F c with h1 | ⟨_, o, hf, h2⟩ | ⟨_, hf, c1, hc1, h3⟩
  · rw [h1] at hop
    cases hop
  · rw [h2] at hop ⊢
    have hid : o.id = id := by
      simp only [Operation.pendingReady.injEq] at hop
      exact hop
    have hm := List.mem_of_find?_eq_some hf
    have hp := List.find?_some hf
    simp only [decide_eq_true_eq] at hp
    refine ⟨hid ▸ h.1.2.1 o hm, ?_⟩
    intro o' ho' hid'
    have : o' = o := List.inj_on_of_nodup_map h.1.1 ho' hm (hid'.trans hid.symm)
    rw [this]
    exact hp
  · have hoc : c1.operationsCreated = c.operationsCreated := by
      rcases hc1 with hc1 | hc1
      · rw [hc1]; exact (becomeReadySimplePresence_fields c).2.2.2.2.1
      · rw [hc1]
    have hpo : c1.pendingOperations = c.pendingOperations := by
      rcases hc1 with hc1 | hc1
      · rw [hc1]; exact (becomeReadySimplePresence_fields c).2.2.2.1
      · rw [hc1]
    rw [h3] at hop ⊢
    have hid : c.operationsCreated = id := by
      simp only [Operation.pendingReady.injEq] at hop
      rw [← hop, hoc]
    have hw : OpsWellFormed
        ({ c1 with pendingFeatures := c1.pendingFeatures ||| F,
                   pendingOperations :=
                     c1.pendingOperations ++ [{ id := c1.operationsCreated, features := F }],
                   operationsCreated := c1.operationsCreated + 1 } : Connection) := by
      apply OpsWellFormed_append c _ F h.1 hf
      · show c1.pendingOperations ++ _ = _
        rw [hpo, hoc]
      · show c1.operationsCreated + 1 = _
        rw [hoc]
    refine ⟨?_, ?_⟩
    · rw [updatePendingOperations_created]
      show id < c1.operationsCreated + 1
      omega
    · intro o ho hido
      rw [updatePendingOperations_list _ hw.1, List.mem_filter] at ho
      have hm : o ∈ c1.pendingOperations ++
          [({ id := c1.operationsCreated, features := F } : PendingReady)] := ho.1
      rcases List.mem_append.mp hm with hm | hm
      · rw [hpo] at hm
        have := h.1.2.1 o hm
        omega
      · rw [List.mem_singleton] at hm
        rw [hm]

/-- C18, `becomeReady` idempotence: let `becomeReady(F)` in a reachable state
return the pending operation `id`.  After any further events, as long as that
operation is in the pending list (it has not finished), `becomeReady(F)` returns
the same operation `id` and leaves the whole state (the pending list included)
as it was; with no event in between this is the immediate repetition of the
call.  Both requests hold the same object, which `updatePendingOperations`
sets finished once. -/
theorem C18_becomeReady_idempotent (c : Connection) (hr : CReachable c) (F id : Nat)
    (hop : (becomeReady F c).2 = Operation.pendingReady id)
    (events : List Event) (c' : Connection)
    (hrun : run events (becomeReady F c).1 = some c')
    (hpending : ∃ o ∈ c'.pendingOperations, o.id = id) :
    becomeReady F c' = (c', Operation.pendingReady id) := by
  have hinv := reachable_OpsInv hr
  have h1 : OpsInv (becomeReady F c).1 :=
    OpsInv_step (Event.becomeReady F) c _ hinv rfl
  have h2 := becomeReady_createdFor c hinv F id hop
  have h3 := run_invariant (fun x => OpsInv x ∧ CreatedFor id F x)
    (CreatedFor_step id F) events _ c' ⟨h1, h2⟩ hrun
  obtain ⟨o, ho, hid⟩ := hpending
  have hF : o.features = F := h3.2.2 o ho hid
  have := becomeReady_pending c' h3.1 o ho
  rw [hF, hid] at this
  exact this

theorem C18_becomeReady_idempotent_witness :
    (becomeReady FeatureSimplePresence Connection.new).2 = Operation.pendingReady 0 ∧
    run [Event.timer, Event.gotStatus (some ConnectionStatusDisconnected)]
        (becomeReady FeatureSimplePresence Connection.new).1
      = some { initialIntrospection := true, pendingFeatures := FeatureSimplePresence,
               pendingStatus := ConnectionStatusDisconnected, haveInitialStatus := true,
               calls := [PendingCall.GetInterfaces], statusChangedConnected := true,
               pendingOperations := [{ id := 0, features := FeatureSimplePresence }],
               operationsCreated := 1 } ∧
    becomeReady FeatureSimplePresence
        { initialIntrospection := true, pendingFeatures := FeatureSimplePresence,
          pendingStatus := ConnectionStatusDisconnected, haveInitialStatus := true,
          calls := [PendingCall.GetInterfaces], statusChangedConnected := true,
          pendingOperations := [{ id := 0, features := FeatureSimplePresence }],
          operationsCreated := 1 }
      = ({ initialIntrospection := true, pendingFeatures := FeatureSimplePresence,
           pendingStatus := ConnectionStatusDisconnected, haveInitialStatus := true,
           calls := [PendingCall.GetInterfaces], statusChangedConnected := true,
           pendingOperations := [{ id := 0, features := FeatureSimplePresence }],
           operationsCreated := 1 }, Operation.pendingReady 0) :=
  ⟨by decide, by decide,
   C18_becomeReady_idempotent Connection.new ⟨[], rfl⟩ FeatureSimplePresence 0 (by decide)
     [Event.timer, Event.gotStatus (some ConnectionStatusDisconnected)] _ (by decide)
     ⟨{ id := 0, features := FeatureSimplePresence }, by decide, rfl⟩⟩

/-! ## Sharing of the handle context -/

theorem intInc_eq (x : Int) (h1 : INT_MIN ≤ x) (h2 : x < INT_MAX) : intInc x = x + 1 := by
  simp only [intInc, INT_MIN, INT_MAX] at *
  omega

theorem intDec_eq (x : Int) (h1 : INT_MIN < x) (h2 : x ≤ INT_MAX) : intDec x = x - 1 := by
  simp only [intDec, INT_MIN, INT_MAX] at *
  omega

theorem intInc_zero : intInc 0 = 1 := by norm_num [intInc]

theorem unrefHandle_ctx_refcount (t h : Nat) (s : HandleManager) :
    (unrefHandle t h s).ctx.refcount = s.ctx.refcount := by
  simp only [unrefHandle]
  split_ifs <;> simp only [HandleContext.setType]

theorem clearSelfContact_none (p : Private) (c : HandleContext) (hs : p.selfContact = none) :
    clearSelfContact p c = { ctx := c } := by
  simp only [clearSelfContact, hs]

theorem clearSelfContact_some (p : Private) (c : HandleContext) (h : Nat)
    (hs : p.selfContact = some h) :
    ∃ s : HandleManager, s.ctx = c ∧
      clearSelfContact p c = unrefHandle HandleTypeContact h s := by
  refine ⟨{ ctx := c }, rfl, ?_⟩
  simp only [clearSelfContact, hs]

theorem clearSelfContact_refcount (p : Private) (c : HandleContext) :
    (clearSelfContact p c).ctx.refcount = c.refcount := by
  cases hs : p.selfContact with
  | none => rw [clearSelfContact_none p c hs]
  | some h =>
    obtain ⟨s, h1, h2⟩ := clearSelfContact_some p c h hs
    rw [h2, ← h1]
    exact unrefHandle_ctx_refcount _ h s

theorem dtorPrivate_null (p : Private) (g : Process) (hp : p.handleContext = none) :
    dtorPrivate p g = g := by
  simp only [dtorPrivate, hp]

theorem dtorPrivate_eq (p : Private) (g : Process) (a : Nat) (c : HandleContext)
    (hp : p.handleContext = some a) (hc : g.heap a = some c) :
    dtorPrivate p g =
      if intDec c.refcount = 0 then
        { g with released := g.released ++
                   (disposeCalls (clearSelfContact p c).ctx).map (fun call => (p.key, call)),
                 handleContexts := setAt g.handleContexts p.key none,
                 heap := setAt g.heap a none }
      else
        { g with heap := setAt g.heap a
                   (some { (clearSelfContact p c).ctx with refcount := intDec c.refcount }) } := by
  simp only [dtorPrivate, hp, hc, clearSelfContact_refcount]

theorem holders_append (k : ContextKey) (l₁ l₂ : List Proxy) :
    holders k (l₁ ++ l₂) = holders k l₁ + holders k l₂ := by
  simp only [holders, List.countP_append]

theorem holders_cons (k : ContextKey) (x : Proxy) (l : List Proxy) :
    holders k (x :: l) =
      holders k l + (if x.priv.key = k ∧ x.started = true then 1 else 0) := by
  simp only [holders, List.countP_cons, Bool.and_eq_true, decide_eq_true_eq]

theorem holders_mid (k : ContextKey) (x : Proxy) (l₁ l₂ : List Proxy) :
    holders k (l₁ ++ x :: l₂) =
      holders k (l₁ ++ l₂) + (if x.priv.key = k ∧ x.started = true then 1 else 0) := by
  rw [holders_append, holders_append, holders_cons]
  omega

theorem holders_pos (k : ContextKey) (l : List Proxy) :
    0 < holders k l ↔ ∃ x ∈ l, x.priv.key = k ∧ x.started = true := by
  simp only [holders, List.countP_pos_iff, Bool.and_eq_true, decide_eq_true_eq]

theorem mem_mid {x y : Proxy} {l₁ l₂ : List Proxy} :
    y ∈ l₁ ++ x :: l₂ ↔ y = x ∨ y ∈ l₁ ++ l₂ := by
  simp only [List.mem_append, List.mem_cons]
  tauto

theorem startIntrospection_reuse (fresh : Nat) (p : Private) (g : Process) (a : Nat)
    (h : g.handleContexts p.key = some a) :
    startIntrospection fresh p g =
      ({ p with handleContext := some a }, { g with heap := incRefcount a g.heap }) := by
  simp only [startIntrospection, acquireContext, h]

theorem startIntrospection_create (fresh : Nat) (p : Private) (g : Process)
    (h : g.handleContexts p.key = none) :
    startIntrospection fresh p g =
      ({ p with handleContext := some fresh },
       { g with heap := incRefcount fresh (setAt g.heap fresh (some {})),
                handleContexts := setAt g.handleContexts p.key (some fresh) }) := by
  simp only [startIntrospection, acquireContext, h]

theorem SharingInv_start (fresh : Nat) (g : Process) (l₁ l₂ : List Proxy) (x : Proxy)
    (h : SharingInv g (l₁ ++ x :: l₂)) (hx : x.started = false)
    (hfresh : g.heap fresh = none)
    (hguard : ∀ a c, g.handleContexts x.priv.key = some a → g.heap a = some c →
      c.refcount < INT_MAX) :
    SharingInv (startIntrospection fresh x.priv g).2
      (l₁ ++ { priv := (startIntrospection fresh x.priv g).1, started := true } :: l₂) := by
  obtain ⟨ha, ha', hb, hc⟩ := h
  have hold : ∀ k a, holders k
      (l₁ ++ ({ priv := { x.priv with handleContext := some a }, started := true } : Proxy) :: l₂) =
      holders k (l₁ ++ x :: l₂) + (if x.priv.key = k then 1 else 0) := by
    intro k a
    rw [holders_mid, holders_mid]
    simp [hx, Private.key]
  have hmem : ∀ (y : Proxy) a,
      y ∈ l₁ ++ ({ priv := { x.priv with handleContext := some a }, started := true } : Proxy) :: l₂ →
      y = { priv := { x.priv with handleContext := some a }, started := true } ∨
        y ∈ l₁ ++ x :: l₂ := by
    intro y a hy
    rcases mem_mid.mp hy with h1 | h1
    · exact Or.inl h1
    · exact Or.inr (mem_mid.mpr (Or.inr h1))
  cases hm : g.handleContexts x.priv.key with
  | some a =>
    rw [startIntrospection_reuse fresh x.priv g a hm]
    obtain ⟨c, hca, hcr, hpos, hle⟩ := hb _ _ hm
    have hlt : c.refcount < INT_MAX := hguard a c hm hca
    have hinc : intInc c.refcount = c.refcount + 1 := by
      apply intInc_eq _ _ hlt
      rw [hcr]
      simp only [INT_MIN]
      omega
    refine ⟨?_, ?_, ?_, hc⟩
    · intro y hy hys
      rcases hmem y a hy with h1 | h1
      · rw [h1]
        exact ⟨a, rfl, hm⟩
      · exact ha y h1 hys
    · intro y hy hys
      rcases hmem y a hy with h1 | h1
      · rw [h1] at hys
        cases hys
      · exact ha' y h1 hys
    · intro k a' hk
      obtain ⟨c', hc', hr', hp', hl'⟩ := hb k a' hk
      by_cases haa : a' = a
      · have hkk : k = x.priv.key := hc _ _ _ hk (haa ▸ hm)
        refine ⟨{ c with refcount := intInc c.refcount }, ?_, ?_, ?_, ?_⟩
        · show incRefcount a g.heap a' = _
          simp [incRefcount, setAt, haa, hca]
        · rw [hold, hkk, if_pos rfl]
          show intInc c.refcount = _
          rw [hinc, hcr]
          push_cast
          rfl
        · rw [hold]
          omega
        · show intInc c.refcount ≤ INT_MAX
          rw [hinc]
          omega
      · have hkk : x.priv.key ≠ k := by
          intro e
          rw [← e, hm] at hk
          exact haa (Option.some.inj hk).symm
        refine ⟨c', ?_, ?_, ?_, hl'⟩
        · show incRefcount a g.heap a' = _
          simp [incRefcount, setAt, haa, hc']
        · rw [hold, if_neg hkk]
          exact hr'
        · rw [hold, if_neg hkk]
          exact hp'
  | none =>
    rw [startIntrospection_create fresh x.priv g hm]
    have hnone : holders x.priv.key (l₁ ++ x :: l₂) = 0 := by
      by_contra hne
      obtain ⟨y, hy, hyk, hys⟩ := (holders_pos _ _).mp (Nat.pos_of_ne_zero hne)
      obtain ⟨a, _, hya⟩ := ha y hy hys
      rw [hyk, hm] at hya
      cases hya
    have hnf : ∀ k a, g.handleContexts k = some a → a ≠ fresh := by
      intro k a hk e
      obtain ⟨c, hca, _⟩ := hb k a hk
      rw [e, hfresh] at hca
      cases hca
    refine ⟨?_, ?_, ?_, ?_⟩
    · intro y hy hys
      show ∃ a', y.priv.handleContext = some a' ∧
        setAt g.handleContexts x.priv.key (some fresh) y.priv.key = some a'
      rcases hmem y fresh hy with h1 | h1
      · rw [h1]
        exact ⟨fresh, rfl, by simp [setAt, Private.key]⟩
      · obtain ⟨a', h2, h3⟩ := ha y h1 hys
        have hne : y.priv.key ≠ x.priv.key := by
          intro e
          rw [e, hm] at h3
          cases h3
        refine ⟨a', h2, ?_⟩
        simp only [setAt, if_neg hne]
        exact h3
    · intro y hy hys
      rcases hmem y fresh hy with h1 | h1
      · rw [h1] at hys
        cases hys
      · exact ha' y h1 hys
    · intro k a' hk
      have hk' : setAt g.handleContexts x.priv.key (some fresh) k = some a' := hk
      by_cases hkk : k = x.priv.key
      · have haf : a' = fresh := by
          rw [hkk] at hk'
          simp only [setAt, if_true] at hk'
          exact (Option.some.inj hk').symm
        refine ⟨{ refcount := 1 }, ?_, ?_, ?_, ?_⟩
        · show incRefcount fresh (setAt g.heap fresh (some {})) a' = _
          rw [haf]
          simp [incRefcount, setAt, intInc_zero]
        · rw [hold, hkk, if_pos rfl, hnone]
          rfl
        · rw [hold, hkk, if_pos rfl]
          omega
        · show (1 : Int) ≤ INT_MAX
          norm_num [INT_MAX]
      · simp only [setAt, if_neg hkk] at hk'
        obtain ⟨c', hc', hr', hp', hl'⟩ := hb k a' hk'
        have haf : a' ≠ fresh := hnf k a' hk'
        refine ⟨c', ?_, ?_, ?_, hl'⟩
        · show incRefcount fresh (setAt g.heap fresh (some {})) a' = _
          simp [incRefcount, setAt, haf, hc']
        · rw [hold, if_neg (Ne.symm hkk)]
          exact hr'
        · rw [hold, if_neg (Ne.symm hkk)]
          exact hp'
    · intro k k' a hk hk'
      have h1 : setAt g.handleContexts x.priv.key (some fresh) k = some a := hk
      have h2 : setAt g.handleContexts x.priv.key (some fresh) k' = some a := hk'
      by_cases e1 : k = x.priv.key <;> by_cases e2 : k' = x.priv.key
      · rw [e1, e2]
      · exfalso
        rw [e1] at h1
        simp only [setAt, if_true] at h1
        simp only [setAt, if_neg e2] at h2
        exact hnf k' a h2 (Option.some.inj h1).symm
      · exfalso
        rw [e2] at h2
        simp only [setAt, if_true] at h2
        simp only [setAt, if_neg e1] at h1
        exact hnf k a h1 (Option.some.inj h2).symm
      · simp only [setAt, if_neg e1] at h1
        simp only [setAt, if_neg e2] at h2
        exact hc k k' a h1 h2

theorem SharingInv_contact (contact : Option Nat) (g : Process) (l₁ l₂ : List Proxy)
    (x : Proxy) (h : SharingInv g (l₁ ++ x :: l₂)) :
    SharingInv g (l₁ ++ { x with priv := { x.priv with selfContact := contact } } :: l₂) := by
  obtain ⟨ha, ha', hb, hc⟩ := h
  have hold : ∀ k, holders k
      (l₁ ++ ({ x with priv := { x.priv with selfContact := contact } } : Proxy) :: l₂) =
      holders k (l₁ ++ x :: l₂) := by
    intro k
    rw [holders_mid, holders_mid]
    rfl
  have hxm : x ∈ l₁ ++ x :: l₂ := mem_mid.mpr (Or.inl rfl)
  refine ⟨?_, ?_, ?_, hc⟩
  · intro y hy hys
    rcases mem_mid.mp hy with h1 | h1
    · rw [h1] at hys ⊢
      exact ha x hxm hys
    · exact ha y (mem_mid.mpr (Or.inr h1)) hys
  · intro y hy hys
    rcases mem_mid.mp hy with h1 | h1
    · rw [h1] at hys ⊢
      exact ha' x hxm hys
    · exact ha' y (mem_mid.mpr (Or.inr h1)) hys
  · intro k a hk
    obtain ⟨c, h1, h2, h3, h4⟩ := hb k a hk
    exact ⟨c, h1, by rw [hold]; exact h2, by rw [hold]; exact h3, h4⟩

theorem SharingInv_destroy (g : Process) (l₁ l₂ : List Proxy) (x : Proxy)
    (h : SharingInv g (l₁ ++ x :: l₂)) : SharingInv (dtorPrivate x.priv g) (l₁ ++ l₂) := by
  obtain ⟨ha, ha', hb, hc⟩ := h
  have hsub : ∀ y, y ∈ l₁ ++ l₂ → y ∈ l₁ ++ x :: l₂ := fun y hy => mem_mid.mpr (Or.inr hy)
  have hxm : x ∈ l₁ ++ x :: l₂ := mem_mid.mpr (Or.inl rfl)
  cases hs : x.started with
  | false =>
    have hd : dtorPrivate x.priv g = g := dtorPrivate_null _ _ (ha' x hxm hs)
    have hold : ∀ k, holders k (l₁ ++ x :: l₂) = holders k (l₁ ++ l₂) := by
      intro k
      rw [holders_mid]
      simp [hs]
    rw [hd]
    refine ⟨fun y hy => ha y (hsub y hy), fun y hy => ha' y (hsub y hy), ?_, hc⟩
    intro k a hk
    obtain ⟨c, h1, h2, h3, h4⟩ := hb k a hk
    exact ⟨c, h1, by rw [← hold]; exact h2, by rw [← hold]; exact h3, h4⟩
  | true =>
    obtain ⟨a, hp, hm⟩ := ha x hxm hs
    obtain ⟨c, hca, hcr, hpos, hle⟩ := hb _ _ hm
    have hold : ∀ k, holders k (l₁ ++ x :: l₂) =
        holders k (l₁ ++ l₂) + (if x.priv.key = k then 1 else 0) := by
      intro k
      rw [holders_mid]
      simp [hs]
    have hdec : intDec c.refcount = c.refcount - 1 := by
      apply intDec_eq _ _ hle
      rw [hcr]
      simp only [INT_MIN]
      omega
    rw [dtorPrivate_eq x.priv g a c hp hca, hdec]
    by_cases hz : c.refcount - 1 = 0
    · rw [if_pos hz]
      have hzero : holders x.priv.key (l₁ ++ l₂) = 0 := by
        have := hold x.priv.key
        rw [if_pos rfl] at this
        omega
      have hkey : ∀ y ∈ l₁ ++ l₂, y.started = true → y.priv.key ≠ x.priv.key := by
        intro y hy hys e
        have : 0 < holders x.priv.key (l₁ ++ l₂) := (holders_pos _ _).mpr ⟨y, hy, e, hys⟩
        omega
      refine ⟨?_, fun y hy => ha' y (hsub y hy), ?_, ?_⟩
      · intro y hy hys
        obtain ⟨a', h2, h3⟩ := ha y (hsub y hy) hys
        refine ⟨a', h2, ?_⟩
        show setAt g.handleContexts x.priv.key none y.priv.key = some a'
        simp only [setAt, if_neg (hkey y hy hys)]
        exact h3
      · intro k a' hk
        have hk' : setAt g.handleContexts x.priv.key none k = some a' := hk
        by_cases hkk : k = x.priv.key
        · rw [hkk] at hk'
          simp [setAt] at hk'
        · simp only [setAt, if_neg hkk] at hk'
          obtain ⟨c', hc', hr', hp', hl'⟩ := hb k a' hk'
          have haa : a' ≠ a := fun e => hkk (hc _ _ _ hk' (e ▸ hm))
          refine ⟨c', ?_, ?_, ?_, hl'⟩
          · show setAt g.heap a none a' = _
            simp only [setAt, if_neg haa]
            exact hc'
          · rw [hold, if_neg (Ne.symm hkk)] at hr'
            exact hr'
          · rw [hold, if_neg (Ne.symm hkk)] at hp'
            exact hp'
      · intro k k' a' hk hk'
        have h1 : setAt g.handleContexts x.priv.key none k = some a' := hk
        have h2 : setAt g.handleContexts x.priv.key none k' = some a' := hk'
        by_cases e1 : k = x.priv.key
        · rw [e1] at h1
          simp [setAt] at h1
        · by_cases e2 : k' = x.priv.key
          · rw [e2] at h2
            simp [setAt] at h2
          · simp only [setAt, if_neg e1] at h1
            simp only [setAt, if_neg e2] at h2
            exact hc k k' a' h1 h2
    · rw [if_neg hz]
      refine ⟨fun y hy => ha y (hsub y hy), fun y hy => ha' y (hsub y hy), ?_, hc⟩
      intro k a' hk
      obtain ⟨c', hc', hr', hp', hl'⟩ := hb k a' hk
      by_cases haa : a' = a
      · have hkk : k = x.priv.key := hc _ _ _ hk (haa ▸ hm)
        have h1 := hold x.priv.key
        rw [if_pos rfl] at h1
        refine ⟨{ (clearSelfContact x.priv c).ctx with refcount := c.refcount - 1 }, ?_, ?_, ?_, ?_⟩
        · show setAt g.heap a _ a' = _
          simp [setAt, haa]
        · show c.refcount - 1 = _
          rw [hkk]
          omega
        · rw [hkk]
          omega
        · show c.refcount - 1 ≤ INT_MAX
          omega
      · have hkk : x.priv.key ≠ k := by
          intro e
          rw [← e, hm] at hk
          exact haa (Option.some.inj hk).symm
        refine ⟨c', ?_, ?_, ?_, hl'⟩
        · show setAt g.heap a _ a' = _
          simp only [setAt, if_neg haa]
          exact hc'
        · rw [hold, if_neg hkk] at hr'
          exact hr'
        · rw [hold, if_neg hkk] at hp'
          exact hp'

theorem reachable_SharingInv {g : Process} {l : List Proxy} (h : PReachable g l) :
    SharingInv g l := by
  induction h with
  | init =>
    refine ⟨?_, ?_, ?_, ?_⟩
    · intro x hx
      cases hx
    · intro x hx
      cases hx
    · intro k a hk
      cases hk
    · intro k k' a hk
      cases hk
  | create bus service _ ih =>
    obtain ⟨ha, ha', hb, hc⟩ := ih
    have hold : ∀ k (l : List Proxy), holders k
        (l ++ [({ priv := { busConnectionName := bus, serviceName := service } } : Proxy)]) =
        holders k l := by
      intro k l
      rw [holders_append, holders_cons]
      simp [holders]
    refine ⟨?_, ?_, ?_, hc⟩
    · intro y hy hys
      rcases List.mem_append.mp hy with h1 | h1
      · exact ha y h1 hys
      · rw [List.mem_singleton] at h1
        rw [h1] at hys
        cases hys
    · intro y hy hys
      rcases List.mem_append.mp hy with h1 | h1
      · exact ha' y h1 hys
      · rw [List.mem_singleton] at h1
        rw [h1]
    · intro k a hk
      obtain ⟨c, h1, h2, h3, h4⟩ := hb k a hk
      exact ⟨c, h1, by rw [hold]; exact h2, by rw [hold]; exact h3, h4⟩
  | start fresh _ hx hfresh hguard ih => exact SharingInv_start fresh _ _ _ _ ih hx hfresh hguard
  | contact contact _ _ ih => exact SharingInv_contact contact _ _ _ _ ih
  | destroy _ ih => exact SharingInv_destroy _ _ _ _ ih
  | tables a c types _ hca ih =>
    obtain ⟨ha, ha', hb, hc⟩ := ih
    refine ⟨ha, ha', ?_, hc⟩
    intro k a' hk
    obtain ⟨c', hc', hr', hp', hl'⟩ := hb k a' hk
    by_cases haa : a' = a
    · rw [haa, hca] at hc'
      rw [← Option.some.inj hc'] at hr' hl'
      refine ⟨{ c with types := types }, ?_, hr', hp', hl'⟩
      show setAt _ a _ a' = _
      simp [setAt, haa]
    · refine ⟨c', ?_, hr', hp', hl'⟩
      show setAt _ a _ a' = _
      simp only [setAt, if_neg haa]
      exact hc'

theorem holders_singleton_started (k : ContextKey) (p : Private) (hk : p.key = k) :
    holders k [{ priv := p, started := true }] = 1 := by
  simp [holders, hk]

theorem incRefcount_same (a : Nat) (heap : Nat → Option HandleContext) (c : HandleContext)
    (h : heap a = some c) :
    incRefcount a heap a = some { refcount := intInc c.refcount, types := c.types } := by
  simp [incRefcount, setAt, h]

theorem intInc_wrap (n : Nat) :
    intInc (((n : Int) + 1 + 2147483648) % 4294967296 - 2147483648) =
      (((n + 1 : Nat) : Int) + 1 + 2147483648) % 4294967296 - 2147483648 := by
  simp only [intInc]
  push_cast
  omega

theorem startMany_step (n : Nat) :
    startMany (n + 1) =
      ((startIntrospection n { busConnectionName := "bus", serviceName := "cm" }
          (startMany n).1).2,
       (startMany n).2 ++
         [{ priv := (startIntrospection n { busConnectionName := "bus", serviceName := "cm" }
              (startMany n).1).1,
            started := true }]) := rfl

theorem startMany_succ (n : Nat) :
    (startMany (n + 1)).1.handleContexts ("bus", "cm") = some 0 ∧
    (startMany (n + 1)).1.heap 0 =
      some { refcount := ((n : Int) + 1 + 2147483648) % 4294967296 - 2147483648 } ∧
    holders ("bus", "cm") (startMany (n + 1)).2 = n + 1 := by
  have hkey : ∀ fresh g, holders ("bus", "cm")
      [{ priv := (startIntrospection fresh
            { busConnectionName := "bus", serviceName := "cm" } g).1,
         started := true }] = 1 :=
    fun fresh g => holders_singleton_started _ _ rfl
  induction n with
  | zero =>
    have hk : ({} : Process).handleContexts
        (Private.key { busConnectionName := "bus", serviceName := "cm" }) = none := rfl
    rw [startMany_step 0]
    refine ⟨?_, ?_, ?_⟩
    · show (startIntrospection 0 _ {}).2.handleContexts _ = _
      rw [startIntrospection_create _ _ _ hk]
      simp [setAt, Private.key]
    · show (startIntrospection 0 _ {}).2.heap 0 = _
      rw [startIntrospection_create _ _ _ hk]
      show incRefcount 0 (setAt (fun _ => none) 0 (some {})) 0 = _
      rw [incRefcount_same 0 _ {} (by simp [setAt])]
      simp [intInc_zero]
    · show holders _ ([] ++ _) = _
      rw [holders_append, hkey]
      rfl
  | succ n ih =>
    obtain ⟨h1, h2, h3⟩ := ih
    have hk : (startMany (n + 1)).1.handleContexts
        (Private.key { busConnectionName := "bus", serviceName := "cm" }) = some 0 := h1
    rw [startMany_step (n + 1)]
    refine ⟨?_, ?_, ?_⟩
    · show (startIntrospection (n + 1) _ (startMany (n + 1)).1).2.handleContexts _ = _
      rw [startIntrospection_reuse _ _ _ 0 hk]
      exact h1
    · show (startIntrospection (n + 1) _ (startMany (n + 1)).1).2.heap 0 = _
      rw [startIntrospection_reuse _ _ _ 0 hk]
      show incRefcount 0 (startMany (n + 1)).1.heap 0 = _
      rw [incRefcount_same 0 _ _ h2]
      show some ({ refcount := intInc _, types := [] } : HandleContext) = _
      rw [intInc_wrap]
    · show holders _ (_ ++ _) = _
      rw [holders_append, h3, hkey]

/-- C9, single handle context per peer, while the `int` refcount does not
overflow: in every process state reached by constructing proxies, starting them
(`startIntrospection`, run while the refcount of the context of the key is below
`INT_MAX`), assigning their self contact, destroying them (`~Private`) and
changing the per-type tables, all started proxies with the same (bus connection
name, service name) key hold the same `HandleContext`, which is not null; the
context a started proxy holds is the one stored under its key, it is alive, and
its `refcount` equals the number of started, not yet destroyed proxies with that
key; and the key is present in the process-wide map iff that number is
positive. -/
theorem C9_single_context (g : Process) (l : List Proxy) (h : PReachable g l) :
    (∀ x ∈ l, ∀ y ∈ l, x.priv.key = y.priv.key → x.started = true → y.started = true →
      x.priv.handleContext.isSome = true ∧ x.priv.handleContext = y.priv.handleContext) ∧
    (∀ x ∈ l, x.started = true →
      ∃ a c, x.priv.handleContext = some a ∧ g.handleContexts x.priv.key = some a ∧
        g.heap a = some c ∧ c.refcount = (holders x.priv.key l : Int)) ∧
    (∀ k, (g.handleContexts k).isSome = true ↔ 0 < holders k l) := by
  obtain ⟨ha, _, hb, _⟩ := reachable_SharingInv h
  refine ⟨?_, ?_, ?_⟩
  · intro x hx y hy hk hxs hys
    obtain ⟨a, hxa, h1⟩ := ha x hx hxs
    obtain ⟨b, hyb, h2⟩ := ha y hy hys
    rw [hk, h2] at h1
    rw [hxa, hyb, Option.some.inj h1]
    exact ⟨rfl, rfl⟩
  · intro x hx hxs
    obtain ⟨a, hxa, h1⟩ := ha x hx hxs
    obtain ⟨c, hc1, hc2, _⟩ := hb _ _ h1
    exact ⟨a, c, hxa, h1, hc1, hc2⟩
  · intro k
    constructor
    · intro hs
      obtain ⟨a, hka⟩ := Option.isSome_iff_exists.mp hs
      obtain ⟨_, _, _, hpos, _⟩ := hb k a hka
      exact hpos
    · intro hpos
      obtain ⟨y, hy, hyk, hys⟩ := (holders_pos _ _).mp hpos
      obtain ⟨a, _, h1⟩ := ha y hy hys
      rw [hyk] at h1
      rw [h1]
      rfl

theorem C9_single_context_witness :
    ((startIntrospection 0 { busConnectionName := "bus", serviceName := "cm" } {}).1.handleContext.isSome
        = true ∧
      (startIntrospection 0 { busConnectionName := "bus", serviceName := "cm" } {}).1.handleContext
        = (startIntrospection 1 { busConnectionName := "bus", serviceName := "cm" }
            (startIntrospection 0 { busConnectionName := "bus", serviceName := "cm" }
              {}).2).1.handleContext) ∧
    (((startIntrospection 1 { busConnectionName := "bus", serviceName := "cm" }
        (startIntrospection 0 { busConnectionName := "bus", serviceName := "cm" } {}).2).2.handleContexts
          ("bus", "cm")).isSome = true ↔
      0 < holders ("bus", "cm")
        [{ priv := (startIntrospection 0 { busConnectionName := "bus", serviceName := "cm" } {}).1,
           started := true },
         { priv := (startIntrospection 1 { busConnectionName := "bus", serviceName := "cm" }
            (startIntrospection 0 { busConnectionName := "bus", serviceName := "cm" } {}).2).1,
           started := true }]) :=
  have r2 : PReachable {}
      ([] ++ ({ priv := { busConnectionName := "bus", serviceName := "cm" } } : Proxy) ::
        [({ priv := { busConnectionName := "bus", serviceName := "cm" } } : Proxy)]) :=
    PReachable.create "bus" "cm" (PReachable.create "bus" "cm" PReachable.init)
  have r3 := @PReachable.start 0 {} []
    [{ priv := { busConnectionName := "bus", serviceName := "cm" } }]
    { priv := { busConnectionName := "bus", serviceName := "cm" } } r2 rfl rfl
    (fun a c h => Option.noConfusion h)
  have r4 := @PReachable.start 1
    (startIntrospection 0 { busConnectionName := "bus", serviceName := "cm" } {}).2
    [{ priv := (startIntrospection 0 { busConnectionName := "bus", serviceName := "cm" } {}).1,
       started := true }] []
    { priv := { busConnectionName := "bus", serviceName := "cm" } } r3 rfl rfl
    (fun a c h1 h2 => by
      have ha : a = 0 := (Option.some.inj h1).symm
      subst ha
      have hc : c = { refcount := intInc 0 } := (Option.some.inj h2).symm
      subst hc
      show intInc 0 < INT_MAX
      rw [intInc_zero]
      norm_num [INT_MAX])
  ⟨((C9_single_context _ _ r4).1 _ (List.mem_cons_self _ _)
      _ (List.mem_cons_of_mem _ (List.mem_cons_self _ _)) rfl rfl rfl),
   (C9_single_context _ _ r4).2.2 ("bus", "cm")⟩

/-- C9, counterexample to the claim as stated (any sequence of start-ups): after
2147483648 proxies for the peer ("bus", "cm") were constructed and started, the
context stored for the key has the `refcount` -2147483648 (the `int` wrapped
around at `INT_MAX`), while 2147483648 started proxies hold it. -/
theorem C9_counterexample :
    (startMany (2147483647 + 1)).1.handleContexts ("bus", "cm") = some 0 ∧
    (startMany (2147483647 + 1)).1.heap 0 = some { refcount := -2147483648 } ∧
    holders ("bus", "cm") (startMany (2147483647 + 1)).2 = 2147483647 + 1 ∧
    ((-2147483648 : Int) ≠ ((2147483647 + 1 : Nat) : Int)) := by
  obtain ⟨h1, h2, h3⟩ := startMany_succ 2147483647
  refine ⟨h1, ?_, h3, by norm_num⟩
  rw [h2]
  norm_num

/-! ## Disposal of the handle context -/

theorem QMap.keys_insert_mem {α : Type} (k : Nat) (v : α) (m : QMap α) (x : Nat)
    (hx : x ∈ QMap.keys (QMap.insert k v m)) : x = k ∨ x ∈ QMap.keys m := by
  induction m with
  | nil =>
    simp only [QMap.insert, QMap.keys, List.map_cons, List.map_nil, List.mem_singleton] at hx
    exact Or.inl hx
  | cons e r ih =>
    obtain ⟨k', v'⟩ := e
    simp only [QMap.insert] at hx
    split_ifs at hx with h1 h2
    · simp only [QMap.keys, List.map_cons, List.mem_cons] at hx ⊢
      tauto
    · simp only [QMap.keys, List.map_cons, List.mem_cons] at hx ⊢
      tauto
    · simp only [QMap.keys, List.map_cons, List.mem_cons] at hx ih ⊢
      rcases hx with hx | hx
      · exact Or.inr (Or.inl hx)
      · rcases ih hx with h | h
        · exact Or.inl h
        · exact Or.inr (Or.inr h)

theorem QMap.keys_insert_pairwise {α : Type} (k : Nat) (v : α) (m : QMap α)
    (h : (QMap.keys m).Pairwise (fun a b => a < b)) :
    (QMap.keys (QMap.insert k v m)).Pairwise (fun a b => a < b) := by
  induction m with
  | nil => simp [QMap.insert, QMap.keys]
  | cons e r ih =>
    obtain ⟨k', v'⟩ := e
    have h' : (∀ x ∈ QMap.keys r, k' < x) ∧ (QMap.keys r).Pairwise (fun a b => a < b) := by
      simpa [QMap.keys] using h
    simp only [QMap.insert]
    split_ifs with h1 h2
    · show (k :: k' :: QMap.keys r).Pairwise _
      refine List.pairwise_cons.mpr ⟨?_, List.pairwise_cons.mpr h'⟩
      intro x hx
      rcases List.mem_cons.mp hx with hx | hx
      · rw [hx]; exact h1
      · exact lt_trans h1 (h'.1 x hx)
    · show (k :: QMap.keys r).Pairwise _
      rw [h2]
      exact List.pairwise_cons.mpr h'
    · show (k' :: QMap.keys (QMap.insert k v r)).Pairwise _
      refine List.pairwise_cons.mpr ⟨?_, ih h'.2⟩
      intro x hx
      rcases QMap.keys_insert_mem k v r x hx with hx | hx
      · rw [hx]; omega
      · exact h'.1 x hx

theorem QMap.keys_remove_pairwise {α : Type} (k : Nat) (m : QMap α)
    (h : (QMap.keys m).Pairwise (fun a b => a < b)) :
    (QMap.keys (QMap.remove k m)).Pairwise (fun a b => a < b) :=
  List.Pairwise.sublist ((List.filter_sublist m).map Prod.fst) h

theorem QMap.find_of_not_mem_keys {α : Type} (k : Nat) (m : QMap α)
    (h : k ∉ QMap.keys m) : QMap.find k m = none := by
  induction m with
  | nil => rfl
  | cons e r ih =>
    obtain ⟨k', v'⟩ := e
    simp only [QMap.keys, List.map_cons, List.mem_cons, not_or] at h
    simp only [QMap.find]
    rw [if_neg (fun e => h.1 e.symm)]
    exact ih h.2

theorem QMap.contains_iff_mem_keys {α : Type} (k : Nat) (m : QMap α) :
    QMap.contains k m = true ↔ k ∈ QMap.keys m := by
  induction m with
  | nil => simp [QMap.contains, QMap.find, QMap.keys]
  | cons e r ih =>
    obtain ⟨k', v'⟩ := e
    simp only [QMap.contains, QMap.find, QMap.keys, List.map_cons, List.mem_cons] at ih ⊢
    by_cases hk : k' = k
    · simp [hk]
    · rw [if_neg hk, ih]
      constructor
      · exact Or.inr
      · rintro (h | h)
        · exact absurd h.symm hk
        · exact h

theorem QSet.insert_nodup (h : Nat) (s : QSet) (hs : s.Nodup) : (QSet.insert h s).Nodup := by
  simp only [QSet.insert]
  split_ifs with hm
  · exact hs
  · refine List.Nodup.append hs (List.nodup_singleton h) ?_
    intro x hx hx2
    rw [List.mem_singleton] at hx2
    exact hm (hx2 ▸ hx)

theorem QSet.remove_nodup (h : Nat) (s : QSet) (hs : s.Nodup) : (QSet.remove h s).Nodup :=
  List.Nodup.filter _ hs

theorem HandleContext.setType_wellFormed (c : HandleContext) (t : Nat) (e : TypeEntry)
    (hc : c.WellFormed) (he : e.WellFormed) : (c.setType t e).WellFormed := by
  refine ⟨QMap.keys_insert_pairwise t e c.types hc.1, ?_⟩
  intro t'
  by_cases ht : t' = t
  · rw [ht, HandleContext.typeAt_setType_same]
    exact he
  · rw [HandleContext.typeAt_setType_ne _ ht]
    exact hc.2 t'

theorem refHandle_wellFormed (t h : Nat) (s : HandleManager) (hw : s.ctx.WellFormed) :
    (refHandle t h s).ctx.WellFormed := by
  have he := hw.2 t
  simp only [refHandle]
  apply HandleContext.setType_wellFormed _ _ _ hw
  split_ifs
  · exact ⟨QMap.keys_insert_pairwise _ _ _ he.1, QSet.remove_nodup _ _ he.2⟩
  · exact ⟨QMap.keys_insert_pairwise _ _ _ he.1, he.2⟩

theorem unrefHandle_wellFormed (t h : Nat) (s : HandleManager) (hw : s.ctx.WellFormed) :
    (unrefHandle t h s).ctx.WellFormed := by
  have he := hw.2 t
  have h1 : ∀ n, (QMap.keys (QMap.insert h n (s.ctx.typeAt t).refcounts)).Pairwise
      (fun a b => a < b) := fun n => QMap.keys_insert_pairwise _ _ _ he.1
  have h2 : ∀ n, (QMap.keys (QMap.remove h (QMap.insert h n (s.ctx.typeAt t).refcounts))).Pairwise
      (fun a b => a < b) := fun n => QMap.keys_remove_pairwise _ _ (h1 n)
  have h3 := QSet.insert_nodup h _ he.2
  simp only [unrefHandle]
  split_ifs <;> apply HandleContext.setType_wellFormed _ _ _ hw <;> first
    | exact ⟨h2 _, h3⟩
    | exact ⟨h1 _, he.2⟩

theorem doReleaseSweep_wellFormed (t : Nat) (s : HandleManager) (hw : s.ctx.WellFormed) :
    (doReleaseSweep t s).ctx.WellFormed := by
  have he := hw.2 t
  simp only [doReleaseSweep]
  split_ifs <;> apply HandleContext.setType_wellFormed _ _ _ hw <;> first
    | exact ⟨he.1, he.2⟩
    | exact ⟨he.1, List.nodup_nil⟩

theorem handleRequestLanded_wellFormed (t : Nat) (s : HandleManager)
    (hw : s.ctx.WellFormed) : (handleRequestLanded t s).ctx.WellFormed := by
  have he := hw.2 t
  simp only [handleRequestLanded]
  split_ifs <;> apply HandleContext.setType_wellFormed _ _ _ hw <;> exact ⟨he.1, he.2⟩

theorem requestHandles_wellFormed (t : Nat) (s : HandleManager) (hw : s.ctx.WellFormed) :
    (requestHandles t s).ctx.WellFormed := by
  have he := hw.2 t
  simp only [requestHandles]
  apply HandleContext.setType_wellFormed _ _ _ hw
  exact ⟨he.1, he.2⟩

theorem dispatchSweep_wellFormed (s : HandleManager) (hw : s.ctx.WellFormed) :
    (dispatchSweep s).ctx.WellFormed := by
  unfold dispatchSweep
  split
  · exact hw
  · exact doReleaseSweep_wellFormed _ _ hw

theorem reachable_wellFormed {s : HandleManager} (hr : HReachable s) :
    s.ctx.WellFormed := by
  induction hr with
  | init =>
    refine ⟨List.Pairwise.nil, ?_⟩
    intro t
    exact ⟨List.Pairwise.nil, List.nodup_nil⟩
  | ref t h _ ih => exact refHandle_wellFormed t h _ ih
  | unref t h _ _ ih => exact unrefHandle_wellFormed t h _ ih
  | request t _ ih => exact requestHandles_wellFormed t _ ih
  | landed t _ ih => exact handleRequestLanded_wellFormed t _ ih
  | sweep t _ ih => exact doReleaseSweep_wellFormed t _ ih
  | dispatch _ ih => exact dispatchSweep_wellFormed _ ih

theorem handlesReleased_append (t : Nat) (a b : List (Nat × List Nat)) :
    handlesReleased t (a ++ b) = handlesReleased t a ++ handlesReleased t b := by
  simp only [handlesReleased, List.filter_append, List.flatMap_append]

/-- The calls that the loop body of `~Private` makes for one handle type. -/
theorem handlesReleased_entry (c : HandleContext) (t t' : Nat) :
    handlesReleased t
      ((if (c.typeAt t').refcounts.isEmpty then []
        else [(t', QMap.keys (c.typeAt t').refcounts)]) ++
       (if (c.typeAt t').toRelease.isEmpty then []
        else [(t', QSet.toList (c.typeAt t').toRelease)]))
      = if t' = t then QMap.keys (c.typeAt t').refcounts ++ (c.typeAt t').toRelease
        else [] := by
  by_cases ht : t' = t
  · rw [if_pos ht, handlesReleased_append]
    congr 1
    · by_cases h1 : (c.typeAt t').refcounts.isEmpty = true
      · rw [if_pos h1]
        rw [List.isEmpty_iff] at h1
        rw [h1]
        rfl
      · rw [if_neg h1]
        simp [handlesReleased, ht]
    · by_cases h1 : (c.typeAt t').toRelease.isEmpty = true
      · rw [if_pos h1]
        rw [List.isEmpty_iff] at h1
        rw [h1]
        rfl
      · rw [if_neg h1]
        simp [handlesReleased, ht, QSet.toList]
  · rw [if_neg ht, handlesReleased_append]
    have e1 : handlesReleased t
        (if (c.typeAt t').refcounts.isEmpty then []
         else [(t', QMap.keys (c.typeAt t').refcounts)]) = [] := by
      split_ifs <;> simp [handlesReleased, ht]
    have e2 : handlesReleased t
        (if (c.typeAt t').toRelease.isEmpty then []
         else [(t', QSet.toList (c.typeAt t').toRelease)]) = [] := by
      split_ifs <;> simp [handlesReleased, ht]
    rw [e1, e2]
    rfl

theorem handlesReleased_flatMap (c : HandleContext) (t : Nat) (ks : List Nat)
    (hn : ks.Nodup) :
    handlesReleased t
      (ks.flatMap (fun handleType =>
        (if (c.typeAt handleType).refcounts.isEmpty then []
         else [(handleType, QMap.keys (c.typeAt handleType).refcounts)]) ++
        (if (c.typeAt handleType).toRelease.isEmpty then []
         else [(handleType, QSet.toList (c.typeAt handleType).toRelease)])))
      = if t ∈ ks then QMap.keys (c.typeAt t).refcounts ++ (c.typeAt t).toRelease
        else [] := by
  induction ks with
  | nil => rfl
  | cons k ks ih =>
    rw [List.flatMap_cons, handlesReleased_append, handlesReleased_entry,
      ih (List.nodup_cons.mp hn).2]
    have hk := (List.nodup_cons.mp hn).1
    by_cases h1 : k = t
    · have h2 : t ∉ ks := h1 ▸ hk
      rw [if_pos h1, if_neg h2, if_pos (by rw [h1]; exact List.mem_cons_self _ _), h1,
        List.append_nil]
    · rw [if_neg h1]
      by_cases h2 : t ∈ ks
      · rw [if_pos h2, if_pos (List.mem_cons_of_mem _ h2)]
        rfl
      · rw [if_neg h2, if_neg (by
          intro hm
          rcases List.mem_cons.mp hm with hm | hm
          · exact h1 hm.symm
          · exact h2 hm)]
        rfl

theorem handlesReleased_disposeCalls (c : HandleContext) (hw : c.WellFormed) (t : Nat) :
    handlesReleased t (disposeCalls c) =
      QMap.keys (c.typeAt t).refcounts ++ QSet.toList (c.typeAt t).toRelease := by
  have hn : (QMap.keys c.types).Nodup := hw.1.imp (fun h => Nat.ne_of_lt h)
  have := handlesReleased_flatMap c t (QMap.keys c.types) hn
  simp only [disposeCalls]
  rw [this]
  by_cases hm : t ∈ QMap.keys c.types
  · rw [if_pos hm]
    rfl
  · rw [if_neg hm]
    have : c.typeAt t = {} := by
      simp only [HandleContext.typeAt, QMap.value, QMap.find_of_not_mem_keys t c.types hm]
      rfl
    rw [this]
    rfl

theorem disposeCalls_nonempty (c : HandleContext) :
    ∀ call ∈ disposeCalls c, call.2 ≠ [] := by
  intro call hc
  simp only [disposeCalls, List.mem_flatMap, List.mem_append] at hc
  obtain ⟨t, _, h | h⟩ := hc
  · split_ifs at h with h1
    · cases h
    · rw [List.mem_singleton] at h
      rw [h]
      intro he
      apply h1
      have : (c.typeAt t).refcounts = [] := by
        cases hr : (c.typeAt t).refcounts with
        | nil => rfl
        | cons x r =>
          rw [hr] at he
          simp [QMap.keys] at he
      rw [this]
      rfl
  · split_ifs at h with h1
    · cases h
    · rw [List.mem_singleton] at h
      rw [h]
      intro he
      apply h1
      have : (c.typeAt t).toRelease = [] := he
      rw [this]
      rfl

theorem keys_insert_iff {α : Type} (x k : Nat) (v : α) (m : QMap α) :
    x ∈ QMap.keys (QMap.insert k v m) ↔ x = k ∨ x ∈ QMap.keys m := by
  rw [← QMap.contains_iff_mem_keys, ← QMap.contains_iff_mem_keys]
  by_cases hx : x = k
  · subst hx
    simp [QMap.contains, QMap.find_insert_same]
  · simp [QMap.contains, QMap.find_insert_ne hx, hx]

theorem keys_remove_iff {α : Type} (x k : Nat) (m : QMap α) :
    x ∈ QMap.keys (QMap.remove k m) ↔ x ≠ k ∧ x ∈ QMap.keys m := by
  rw [← QMap.contains_iff_mem_keys, ← QMap.contains_iff_mem_keys]
  by_cases hx : x = k
  · subst hx
    simp [QMap.contains, QMap.find_remove_same]
  · simp [QMap.contains, QMap.find_remove_ne hx, hx]

theorem qset_insert_iff (x h : Nat) (s : QSet) :
    x ∈ QSet.insert h s ↔ x = h ∨ x ∈ s := by
  simp only [QSet.insert]
  split_ifs with h1
  · constructor
    · exact Or.inr
    · rintro (e | e)
      · rw [e]
        exact h1
      · exact e
  · simp only [List.mem_append, List.mem_singleton]
    tauto

theorem handles_after_last_unref (x h n : Nat) (r : QMap Nat) (tr : QSet)
    (hk : h ∈ QMap.keys r) :
    (x ∈ QMap.keys (QMap.remove h (QMap.insert h n r)) ∨ x ∈ QSet.insert h tr) ↔
      (x ∈ QMap.keys r ∨ x ∈ tr) := by
  rw [keys_remove_iff, keys_insert_iff, qset_insert_iff]
  by_cases hx : x = h
  · rw [hx]
    tauto
  · tauto

theorem handles_after_unref (x h n : Nat) (r : QMap Nat) (tr : QSet)
    (hk : h ∈ QMap.keys r) :
    (x ∈ QMap.keys (QMap.insert h n r) ∨ x ∈ tr) ↔ (x ∈ QMap.keys r ∨ x ∈ tr) := by
  rw [keys_insert_iff]
  by_cases hx : x = h
  · rw [hx]
    tauto
  · tauto

/-- What `unrefHandle` does to the entry of one type, for a handle that is a key
of the refcount map: the handles in the refcount map or the to-release set are
the same before and after. -/
theorem unrefHandle_handles (t h : Nat) (s : HandleManager)
    (hk : QMap.contains h (s.ctx.typeAt t).refcounts = true) (t' x : Nat) :
    (x ∈ QMap.keys ((unrefHandle t h s).ctx.typeAt t').refcounts ∨
      x ∈ ((unrefHandle t h s).ctx.typeAt t').toRelease) ↔
    (x ∈ QMap.keys (s.ctx.typeAt t').refcounts ∨ x ∈ (s.ctx.typeAt t').toRelease) := by
  by_cases ht : t' = t
  · subst ht
    have hk' : h ∈ QMap.keys (s.ctx.typeAt t').refcounts :=
      (QMap.contains_iff_mem_keys _ _).mp hk
    simp only [unrefHandle]
    split_ifs <;> simp only [HandleContext.typeAt_setType_same] <;> first
      | exact handles_after_last_unref x h _ _ _ hk'
      | exact handles_after_unref x h _ _ _ hk'
  · rw [unrefHandle_typeAt_ne t h s ht]

theorem unrefHandle_types_congr (t h : Nat) (s s' : HandleManager)
    (hc : s.ctx.types = s'.ctx.types) :
    (unrefHandle t h s).ctx.types = (unrefHandle t h s').ctx.types := by
  simp only [unrefHandle, HandleContext.typeAt, HandleContext.setType, hc]
  split_ifs <;> simp only []

theorem clearSelfContact_types (p : Private) (c : HandleContext) (h : Nat)
    (hs : p.selfContact = some h) (hm : HandleManager) (hc : c.types = hm.ctx.types) :
    (clearSelfContact p c).ctx.types = (unrefHandle HandleTypeContact h hm).ctx.types := by
  obtain ⟨s, h1, h2⟩ := clearSelfContact_some p c h hs
  rw [h2]
  rw [← h1] at hc
  exact unrefHandle_types_congr _ h s hm hc

/-- The tables of a context after `selfContact.clear()` are again those of a
reachable handle-manager state, with the same handles per type in the refcount
map or the to-release set. -/
theorem clearSelfContact_tables (hm : HandleManager) (hr : HReachable hm) (p : Private)
    (c : HandleContext) (ht : c.types = hm.ctx.types)
    (hself : ∀ h, p.selfContact = some h →
      QMap.contains h (hm.ctx.typeAt HandleTypeContact).refcounts = true) :
    ∃ hm1 : HandleManager, HReachable hm1 ∧
      (clearSelfContact p c).ctx.types = hm1.ctx.types ∧
      ∀ t x, (x ∈ QMap.keys (hm1.ctx.typeAt t).refcounts ∨ x ∈ (hm1.ctx.typeAt t).toRelease) ↔
        (x ∈ QMap.keys (hm.ctx.typeAt t).refcounts ∨ x ∈ (hm.ctx.typeAt t).toRelease) := by
  cases hs : p.selfContact with
  | none =>
    refine ⟨hm, hr, ?_, fun t x => Iff.rfl⟩
    rw [clearSelfContact_none p c hs]
    exact ht
  | some h =>
    exact ⟨unrefHandle HandleTypeContact h hm,
      HReachable.unref HandleTypeContact h hr (hself h hs),
      clearSelfContact_types p c h hs hm ht,
      unrefHandle_handles HandleTypeContact h hm (hself h hs)⟩

/-- The handles released by the `foreach` loop of `~Private` for a context whose
tables are those of a reachable handle-manager state: per type the keys of the
refcount map followed by the to-release set, without repetition. -/
theorem dispose_handles (hm : HandleManager) (hr : HReachable hm) (c : HandleContext)
    (ht : c.types = hm.ctx.types) :
    (∀ t, handlesReleased t (disposeCalls c) =
      QMap.keys (c.typeAt t).refcounts ++ QSet.toList (c.typeAt t).toRelease) ∧
    (∀ t, (handlesReleased t (disposeCalls c)).Nodup) := by
  have htype : ∀ t, c.typeAt t = hm.ctx.typeAt t := by
    intro t
    simp only [HandleContext.typeAt, ht]
  have hw : c.WellFormed := by
    have h := reachable_wellFormed hr
    refine ⟨ht ▸ h.1, ?_⟩
    intro t
    rw [htype]
    exact h.2 t
  have hex := reachable_exclusive hr
  refine ⟨handlesReleased_disposeCalls c hw, ?_⟩
  intro t
  rw [handlesReleased_disposeCalls c hw]
  refine List.Nodup.append ((hw.2 t).1.imp (fun h => Nat.ne_of_lt h)) (hw.2 t).2 ?_
  intro x hx hx2
  apply hex t x
  refine ⟨?_, ?_⟩
  · rw [← htype, QMap.contains_iff_mem_keys]
    exact hx
  · simp only [inToRelease, QSet.contains, decide_eq_true_eq]
    rw [← htype]
    exact hx2

/-- C7, dispose: let the proxy `p` hold the context `c`, whose tables are those
of a reachable handle-manager state in which the handle of the self contact of
`p`, if `p` holds one, is referenced.  `~Private` first clears the self contact,
which gives that handle back with `unrefHandle`.  When `p` is the last proxy
sharing the context (the refcount drops to 0), `ReleaseHandles` is then issued,
for every handle type, for exactly the keys of the refcount map followed by the
members of the to-release set as they stand after the clearing, which are the
handles that were in one of the two tables before the destructor ran; no handle
is passed twice, no call has an empty handle list; the key is removed from the
process-wide map and the context is deleted.  When another proxy still shares
the context, no `ReleaseHandles` call is issued, the map is unchanged, and the
context keeps the tables left by the clearing with `refcount` one less.  A proxy
without self contact leaves the tables as they were. -/
theorem C7_dispose (hm : HandleManager) (hr : HReachable hm) (p : Private) (g : Process)
    (a : Nat) (c : HandleContext) (hp : p.handleContext = some a)
    (hc : g.heap a = some c) (ht : c.types = hm.ctx.types)
    (hself : ∀ h, p.selfContact = some h →
      QMap.contains h (hm.ctx.typeAt HandleTypeContact).refcounts = true) :
    (intDec c.refcount = 0 →
      (dtorPrivate p g).released =
        g.released ++
          (disposeCalls (clearSelfContact p c).ctx).map (fun call => (p.key, call)) ∧
      (∀ t, handlesReleased t (disposeCalls (clearSelfContact p c).ctx) =
        QMap.keys ((clearSelfContact p c).ctx.typeAt t).refcounts ++
          QSet.toList ((clearSelfContact p c).ctx.typeAt t).toRelease) ∧
      (∀ t x, x ∈ handlesReleased t (disposeCalls (clearSelfContact p c).ctx) ↔
        (x ∈ QMap.keys (c.typeAt t).refcounts ∨ x ∈ (c.typeAt t).toRelease)) ∧
      (∀ t, (handlesReleased t (disposeCalls (clearSelfContact p c).ctx)).Nodup) ∧
      (∀ call ∈ disposeCalls (clearSelfContact p c).ctx, call.2 ≠ []) ∧
      (dtorPrivate p g).handleContexts p.key = none ∧
      (dtorPrivate p g).heap a = none) ∧
    (intDec c.refcount ≠ 0 →
      (dtorPrivate p g).released = g.released ∧
      (dtorPrivate p g).handleContexts = g.handleContexts ∧
      (dtorPrivate p g).heap a =
        some { refcount := intDec c.refcount, types := (clearSelfContact p c).ctx.types }) ∧
    (p.selfContact = none → (clearSelfContact p c).ctx = c) := by
  obtain ⟨hm1, hr1, ht1, hset⟩ := clearSelfContact_tables hm hr p c ht hself
  obtain ⟨hrel, hnodup⟩ := dispose_handles hm1 hr1 _ ht1
  have hd := dtorPrivate_eq p g a c hp hc
  refine ⟨?_, ?_, ?_⟩
  · intro hz
    rw [hd, if_pos hz]
    refine ⟨rfl, hrel, ?_, hnodup, disposeCalls_nonempty _, ?_, ?_⟩
    · intro t x
      have h1 : (clearSelfContact p c).ctx.typeAt t = hm1.ctx.typeAt t := by
        simp only [HandleContext.typeAt, ht1]
      have h2 : c.typeAt t = hm.ctx.typeAt t := by
        simp only [HandleContext.typeAt, ht]
      rw [hrel, h1, h2, List.mem_append]
      exact hset t x
    · show setAt g.handleContexts p.key none p.key = none
      simp only [setAt, if_true]
    · show setAt g.heap a none a = none
      simp only [setAt, if_true]
  · intro hz
    rw [hd, if_neg hz]
    refine ⟨rfl, rfl, ?_⟩
    show setAt g.heap a _ a = _
    simp only [setAt, if_true]
  · intro hs
    rw [clearSelfContact_none p c hs]

theorem C7_dispose_witness :
    handlesReleased 1
      (disposeCalls
        (clearSelfContact
          { busConnectionName := "bus", serviceName := "cm", handleContext := some 0,
            selfContact := some 7 }
          { refcount := 1,
            types := (unrefHandle 1 3 (refHandle 1 3 (refHandle 1 7 {}))).ctx.types }).ctx)
      = [3, 7] ∧
    (dtorPrivate
      { busConnectionName := "bus", serviceName := "cm", handleContext := some 0,
        selfContact := some 7 }
      { heap := setAt (fun _ => none) 0
          (some { refcount := 1,
                  types := (unrefHandle 1 3 (refHandle 1 3 (refHandle 1 7 {}))).ctx.types }) }).heap 0
      = none ∧
    (dtorPrivate
      { busConnectionName := "bus", serviceName := "cm", handleContext := some 0,
        selfContact := some 7 }
      { heap := setAt (fun _ => none) 0
          (some { refcount := 2,
                  types := (unrefHandle 1 3 (refHandle 1 3 (refHandle 1 7 {}))).ctx.types }) }).released
      = [] :=
  ⟨(((C7_dispose (unrefHandle 1 3 (refHandle 1 3 (refHandle 1 7 {})))
        (HReachable.unref 1 3 (HReachable.ref 1 3 (HReachable.ref 1 7 HReachable.init))
          (by decide))
        { busConnectionName := "bus", serviceName := "cm", handleContext := some 0,
          selfContact := some 7 }
        { heap := setAt (fun _ => none) 0
            (some { refcount := 1,
                    types := (unrefHandle 1 3 (refHandle 1 3 (refHandle 1 7 {}))).ctx.types }) }
        0 _ rfl rfl rfl
        (fun h e => Option.some.inj e ▸ (by decide))).1 (by norm_num [intDec])).2.1 1).trans
      (by decide),
   ((C7_dispose (unrefHandle 1 3 (refHandle 1 3 (refHandle 1 7 {})))
        (HReachable.unref 1 3 (HReachable.ref 1 3 (HReachable.ref 1 7 HReachable.init))
          (by decide))
        { busConnectionName := "bus", serviceName := "cm", handleContext := some 0,
          selfContact := some 7 }
        { heap := setAt (fun _ => none) 0
            (some { refcount := 1,
                    types := (unrefHandle 1 3 (refHandle 1 3 (refHandle 1 7 {}))).ctx.types }) }
        0 _ rfl rfl rfl
        (fun h e => Option.some.inj e ▸ (by decide))).1 (by norm_num [intDec])).2.2.2.2.2.2,
   ((C7_dispose (unrefHandle 1 3 (refHandle 1 3 (refHandle 1 7 {})))
        (HReachable.unref 1 3 (HReachable.ref 1 3 (HReachable.ref 1 7 HReachable.init))
          (by decide))
        { busConnectionName := "bus", serviceName := "cm", handleContext := some 0,
          selfContact := some 7 }
        { heap := setAt (fun _ => none) 0
            (some { refcount := 2,
                    types := (unrefHandle 1 3 (refHandle 1 3 (refHandle 1 7 {}))).ctx.types }) }
        0 _ rfl rfl rfl
        (fun h e => Option.some.inj e ▸ (by decide))).2.1 (by norm_num [intDec])).1⟩

/-- C7, counterexample to "the per-type tables are unchanged" when another proxy
still shares the context: two proxies share the context at address 0 (`refcount`
2), whose tables hold one reference to the contact handle 7; the proxy that is
destroyed holds the last reference to its self contact, whose handle is 7.
`~Private` issues no `ReleaseHandles` call and leaves `refcount` 1, but
`selfContact.clear()` has moved the handle 7 from the refcount map to the
to-release set and set `releaseScheduled`. -/
theorem C7_counterexample :
    HReachable (refHandle 1 7 {}) ∧
    (refHandle 1 7 {}).ctx.types = [(1, { refcounts := [(7, 1)] })] ∧
    intDec 2 ≠ 0 ∧
    (dtorPrivate
      { busConnectionName := "bus", serviceName := "cm", handleContext := some 0,
        selfContact := some 7 }
      { handleContexts := setAt (fun _ => none) ("bus", "cm") (some 0),
        heap := setAt (fun _ => none) 0
          (some { refcount := 2, types := (refHandle 1 7 {}).ctx.types }) }).released = [] ∧
    (dtorPrivate
      { busConnectionName := "bus", serviceName := "cm", handleContext := some 0,
        selfContact := some 7 }
      { handleContexts := setAt (fun _ => none) ("bus", "cm") (some 0),
        heap := setAt (fun _ => none) 0
          (some { refcount := 2, types := (refHandle 1 7 {}).ctx.types }) }).heap 0 =
      some { refcount := 1,
             types := [(1, { toRelease := [7], releaseScheduled := true })] } := by
  refine ⟨HReachable.ref 1 7 HReachable.init, by decide, by norm_num [intDec], ?_, ?_⟩
  · decide
  · decide

/-! ## Accessors before readiness -/

theorem FreshInv_view {c c' : Connection} (hv : statusView c' = statusView c)
    (h : FreshInv c) : FreshInv c' := by
  simp only [statusView, Prod.mk.injEq] at hv
  obtain ⟨h1, h2, h3, _⟩ := hv
  unfold FreshInv at *
  rw [h1, h2, h3]
  exact h

theorem FreshInv_changeReadiness (r : Readiness) (c : Connection)
    (hr : r ≠ ReadinessJustCreated) : FreshInv (changeReadiness r c) := by
  intro h
  rw [(changeReadiness_status r c).1] at h
  exact absurd h hr

theorem FreshInv_queueDrained (c : Connection) (h : FreshInv c) :
    FreshInv (queueDrained c) := by
  simp only [queueDrained]
  split_ifs <;> first
    | exact h
    | exact FreshInv_view rfl h
    | exact FreshInv_changeReadiness _ _ (by decide)

theorem FreshInv_continueIntrospection (c : Connection) (h : FreshInv c) :
    FreshInv (continueIntrospection c) := by
  simp only [continueIntrospection]
  apply FreshInv_view (statusView_updatePendingOperations _)
  simp only [dispatchQueue]
  split
  · exact FreshInv_queueDrained c h
  · rename_i s rest _
    exact FreshInv_view (statusView_runStep s _) (FreshInv_view rfl h)

theorem FreshInv_of_eq {c c' : Connection} (h1 : c'.readiness = c.readiness)
    (h2 : c'.status = c.status) (h3 : c'.statusReason = c.statusReason)
    (h : FreshInv c) : FreshInv c' := by
  unfold FreshInv at *
  rw [h1, h2, h3]
  exact h

theorem FreshInv_statusChangedTail (s r : Nat) (c : Connection) (h : FreshInv c) :
    FreshInv (statusChangedTail s r c) := by
  simp only [statusChangedTail]
  split_ifs <;> first
    | exact FreshInv_continueIntrospection _ (FreshInv_of_eq rfl rfl rfl h)
    | exact FreshInv_changeReadiness _ _ (by decide)
    | exact FreshInv_of_eq rfl rfl rfl h

theorem FreshInv_onStatusChangedNested (s r : Nat) (c : Connection) (h : FreshInv c) :
    FreshInv (onStatusChangedNested s r c) := by
  simp only [onStatusChangedNested]
  split_ifs <;> first
    | exact h
    | exact FreshInv_of_eq rfl rfl rfl h
    | exact FreshInv_statusChangedTail s r c h

theorem FreshInv_onStatusChanged (s r : Nat) (c : Connection) (h : FreshInv c) :
    FreshInv (onStatusChanged s r c) := by
  simp only [onStatusChanged]
  split_ifs <;> first
    | exact h
    | exact FreshInv_of_eq rfl rfl rfl h
    | exact FreshInv_statusChangedTail _ r c h
    | exact FreshInv_statusChangedTail _ r _ (FreshInv_onStatusChangedNested _ r c h)

theorem FreshInv_gotStatus (reply : Option Nat) (c : Connection) (h : FreshInv c) :
    FreshInv (gotStatus reply c) := by
  cases reply with
  | none => exact FreshInv_changeReadiness _ _ (by decide)
  | some s =>
    simp only [gotStatus]
    split_ifs <;> first
      | exact FreshInv_changeReadiness _ _ (by decide)
      | exact FreshInv_of_eq rfl rfl rfl h
      | exact FreshInv_continueIntrospection _ (FreshInv_of_eq rfl rfl rfl h)

theorem FreshInv_step (e : Event) (c c' : Connection) (h : FreshInv c)
    (hs : step e c = some c') : FreshInv c' := by
  cases he : e.isStatusEvent with
  | false =>
    exact nonStatus_step_invariant FreshInv (fun _ _ hv hp => FreshInv_view hv hp)
      FreshInv_continueIntrospection e c c' he h hs
  | true =>
    cases e with
    | statusChanged s r =>
      simp only [step] at hs
      split_ifs at hs
      rw [← Option.some.inj hs]
      exact FreshInv_onStatusChanged s r c h
    | gotStatus reply =>
      rw [(deliver_some hs).2]
      exact FreshInv_gotStatus reply _ (FreshInv_of_eq rfl rfl rfl h)
    | timer => cases he
    | selfHandleChanged k => cases he
    | gotInterfaces reply => cases he
    | gotContactAttributeInterfaces reply => cases he
    | gotSelfContact contact => cases he
    | gotSimpleStatuses reply => cases he
    | gotSelfHandle reply => cases he
    | becomeReady F => cases he

/-- C21, accessor defaults before readiness: in every reachable proxy state
whose readiness is `ReadinessJustCreated`, `status()` returns `StatusUnknown`
and `statusReason()` returns `ConnectionStatusReasonNoneSpecified`; on a freshly
constructed proxy `interfaces()` is the empty list and `selfHandle()` is 0; and
the four accessors leave every proxy state as it was. -/
theorem C21_accessor_defaults (c : Connection) (hr : CReachable c) :
    (c.readiness = ReadinessJustCreated →
      c.statusAccessor.value = StatusUnknown ∧
      c.statusReasonAccessor.value = ConnectionStatusReasonNoneSpecified) ∧
    Connection.new.interfacesAccessor.value = [] ∧
    Connection.new.selfHandleAccessor.value = 0 ∧
    (∀ x : Connection, x.statusAccessor.state = x ∧ x.statusReasonAccessor.state = x ∧
      x.interfacesAccessor.state = x ∧ x.selfHandleAccessor.state = x) := by
  obtain ⟨events, he⟩ := hr
  have hinv : FreshInv c :=
    run_invariant FreshInv FreshInv_step events Connection.new c
      (fun _ => ⟨rfl, rfl⟩) he
  exact ⟨hinv, rfl, rfl, fun _ => ⟨rfl, rfl, rfl, rfl⟩⟩

theorem C21_accessor_defaults_witness :
    (run [Event.becomeReady FeatureSimplePresence, Event.timer,
        Event.gotStatus (some ConnectionStatusDisconnected)] Connection.new).map
      (fun c => (c.readiness, c.pendingStatus, c.statusAccessor.value,
        c.statusAccessor.warned, c.statusReasonAccessor.value))
      = some (ReadinessJustCreated, ConnectionStatusDisconnected, StatusUnknown, true,
          ConnectionStatusReasonNoneSpecified) ∧
    (Connection.new.statusAccessor.value = StatusUnknown ∧
      Connection.new.statusReasonAccessor.value = ConnectionStatusReasonNoneSpecified) :=
  ⟨by decide, (C21_accessor_defaults Connection.new ⟨[], rfl⟩).1 rfl⟩

/-- C24: `getContactAttributes` on a proxy that is ready but not connected.
Run: the proxy starts, `GetStatus` answers Disconnected, the interface list
(with Contacts) arrives: `ready` is set and the status is Disconnected.  The
documentation of `getContactAttributes` promises an immediate failure with
`TELEPATHY_ERROR_NOT_AVAILABLE` unless `status() == StatusConnected &&
isReady()`; the call instead increments the in-flight counter of the contact
handle type and issues the request. -/
theorem C24_getContactAttributes_disconnected :
    (run [Event.timer, Event.gotStatus (some ConnectionStatusDisconnected),
          Event.gotInterfaces (some [TELEPATHY_INTERFACE_CONNECTION_INTERFACE_CONTACTS])]
        Connection.new).map
      (fun c => (isReady 0 c, c.statusAccessor.value,
        (getContactAttributes c {}).1,
        ((getContactAttributes c {}).2.ctx.typeAt HandleTypeContact).requestsInFlight))
      = some (true, ConnectionStatusDisconnected, PendingContactAttributes.requested, 1) ∧
    ConnectionStatusDisconnected ≠ ConnectionStatusConnected := by
  refine ⟨?_, ?_⟩ <;> decide

/-! ## No stranded releases -/

theorem requestHandles_typeAt_ne (t : Nat) (s : HandleManager) {t' : Nat} (ht : t' ≠ t) :
    (requestHandles t s).ctx.typeAt t' = s.ctx.typeAt t' := by
  simp [requestHandles, HandleContext.typeAt_setType_ne _ ht]

theorem requestHandles_typeAt_same (t : Nat) (s : HandleManager) :
    (requestHandles t s).ctx.typeAt t =
      { s.ctx.typeAt t with requestsInFlight := uintInc (s.ctx.typeAt t).requestsInFlight } := by
  simp [requestHandles, HandleContext.typeAt_setType_same]

theorem handleRequestLanded_typeAt_ne (t : Nat) (s : HandleManager) {t' : Nat}
    (ht : t' ≠ t) : (handleRequestLanded t s).ctx.typeAt t' = s.ctx.typeAt t' := by
  simp only [handleRequestLanded]
  split_ifs <;> simp [HandleContext.typeAt_setType_ne _ ht]

theorem Covered_refHandle (t h : Nat) (s : HandleManager) (hs : ∀ t', Covered s t') :
    ∀ t', Covered (refHandle t h s) t' := by
  intro t' hne
  have hc := hs t'
  rw [(refHandle_inFlight t h s t').1, (refHandle_inFlight t h s t').2]
  apply hc
  intro he
  apply hne
  by_cases ht : t' = t
  · subst ht
    simp only [refHandle, HandleContext.typeAt_setType_same]
    split_ifs <;> simp [he, QSet.remove]
  · rw [refHandle_typeAt_ne t h s ht]
    exact he

theorem Covered_unrefHandle (t h : Nat) (s : HandleManager) (hs : ∀ t', Covered s t') :
    ∀ t', Covered (unrefHandle t h s) t' := by
  intro t'
  by_cases ht : t' = t
  · subst ht
    have hc := hs t'
    unfold Covered at hc ⊢
    simp only [unrefHandle]
    split_ifs with h1 h2 h3
    · intro _
      simp [HandleContext.typeAt_setType_same]
    · intro _
      simp only [HandleContext.typeAt_setType_same]
      right
      exact Nat.pos_of_ne_zero h3
    · intro _
      simp only [HandleContext.typeAt_setType_same]
      left
      simpa using h2
    · simp only [HandleContext.typeAt_setType_same]
      exact hc
  · unfold Covered
    rw [unrefHandle_typeAt_ne t h s ht]
    exact hs t'

theorem Covered_handleRequestLanded (t : Nat) (s : HandleManager)
    (hs : ∀ t', Covered s t') : ∀ t', Covered (handleRequestLanded t s) t' := by
  intro t'
  by_cases ht : t' = t
  · subst ht
    unfold Covered
    simp only [handleRequestLanded]
    split_ifs with h1
    · intro _
      simp [HandleContext.typeAt_setType_same]
    · simp only [HandleContext.typeAt_setType_same]
      intro hne
      by_cases hz : uintDec (s.ctx.typeAt t').requestsInFlight = 0
      · left
        by_contra hsch
        apply h1
        refine ⟨hz, ?_, hsch⟩
        intro hem
        apply hne
        exact List.isEmpty_iff.mp hem
      · right
        exact Nat.pos_of_ne_zero hz
  · unfold Covered
    rw [handleRequestLanded_typeAt_ne t s ht]
    exact hs t'

theorem Covered_doReleaseSweep (t : Nat) (s : HandleManager)
    (hs : ∀ t', Covered s t') : ∀ t', Covered (doReleaseSweep t s) t' := by
  intro t'
  by_cases ht : t' = t
  · subst ht
    unfold Covered
    simp only [doReleaseSweep]
    split_ifs with h1 h2
    · intro _
      simp only [HandleContext.typeAt_setType_same]
      right
      exact h1
    · intro hne
      simp only [HandleContext.typeAt_setType_same] at hne
      exact absurd (List.isEmpty_iff.mp h2) hne
    · intro hne
      simp [HandleContext.typeAt_setType_same] at hne
  · unfold Covered
    rw [doReleaseSweep_typeAt_ne t s ht]
    exact hs t'

theorem Covered_requestHandles (t : Nat) (s : HandleManager)
    (hb : (s.ctx.typeAt t).requestsInFlight + 1 < UINT_RANGE)
    (hs : ∀ t', Covered s t') : ∀ t', Covered (requestHandles t s) t' := by
  intro t'
  by_cases ht : t' = t
  · subst ht
    unfold Covered
    rw [requestHandles_typeAt_same]
    intro _
    right
    show 0 < uintInc (s.ctx.typeAt t').requestsInFlight
    unfold uintInc
    rw [Nat.mod_eq_of_lt hb]
    omega
  · unfold Covered
    rw [requestHandles_typeAt_ne t s ht]
    exact hs t'

theorem Covered_dispatchSweep (s : HandleManager) (hs : ∀ t', Covered s t') :
    ∀ t', Covered (dispatchSweep s) t' := by
  unfold dispatchSweep
  split
  · exact hs
  · exact Covered_doReleaseSweep _ _ hs

/-- C27 (amended), no stranded releases: in every handle-manager state reached
through `refHandle`, `unrefHandle`, `handleRequestLanded`, `doReleaseSweep` (called
directly or dispatched from the queue) and in-flight increments that do not
overflow the 32-bit counter, for every handle type `t`: if `toRelease[t]` is
non-empty then a release sweep is scheduled for `t` or `requestsInFlight[t]` is
positive. -/
theorem C27_no_stranded_releases (s : HandleManager) (hr : HReachableNoOverflow s)
    (t : Nat) : Covered s t := by
  have h : ∀ t', Covered s t' := by
    induction hr with
    | init =>
      intro t' hne
      simp [HandleContext.typeAt, QMap.value, QMap.find] at hne
    | ref t h _ ih => exact Covered_refHandle t h _ ih
    | unref t h _ _ ih => exact Covered_unrefHandle t h _ ih
    | request t _ hb ih => exact Covered_requestHandles t _ hb ih
    | landed t _ ih => exact Covered_handleRequestLanded t _ ih
    | sweep t _ ih => exact Covered_doReleaseSweep t _ ih
    | dispatch _ ih => exact Covered_dispatchSweep _ ih
  exact h t

theorem C27_no_stranded_releases_witness :
    Covered (unrefHandle 1 7 (refHandle 1 7 (requestHandles 1 {}))) 1 ∧
    ((unrefHandle 1 7 (refHandle 1 7 (requestHandles 1 {}))).ctx.typeAt 1).toRelease = [7] ∧
    ((unrefHandle 1 7 (refHandle 1 7 (requestHandles 1 {}))).ctx.typeAt 1).releaseScheduled
      = false :=
  ⟨C27_no_stranded_releases _
    (HReachableNoOverflow.unref 1 7
      (HReachableNoOverflow.ref 1 7
        (HReachableNoOverflow.request 1 HReachableNoOverflow.init (by decide)))
      (by decide)) 1,
   by decide, by decide⟩

theorem requestMany_reachable (t n : Nat) (s : HandleManager) (h : HReachable s) :
    HReachable (requestMany t n s) := by
  induction n with
  | zero => exact h
  | succ n ih => exact HReachable.request t ih

theorem requestMany_succ (t n : Nat) (e : TypeEntry) :
    requestMany t (n + 1) { ctx := { refcount := 0, types := [(t, e)] } } =
      { ctx := { refcount := 0,
                 types := [(t, { e with requestsInFlight :=
                                   (e.requestsInFlight + n + 1) % UINT_RANGE })] } } := by
  induction n with
  | zero =>
    simp [requestMany, requestHandles, typeAt_singleton, setType_singleton, uintInc]
  | succ n ih =>
    have hmod : ((e.requestsInFlight + n + 1) % UINT_RANGE + 1) % UINT_RANGE
        = (e.requestsInFlight + (n + 1) + 1) % UINT_RANGE := by
      unfold UINT_RANGE
      omega
    rw [requestMany, ih]
    simp [requestHandles, typeAt_singleton, setType_singleton, uintInc, hmod]

theorem strandedState_eq :
    strandedState =
      requestMany 1 (4294967294 + 1) (unrefHandle 1 7 (refHandle 1 7 (requestHandles 1 {}))) := by
  have hb : unrefHandle 1 7 (refHandle 1 7 (requestHandles 1 {})) =
      { ctx := { refcount := 0,
                 types := [(1, { toRelease := [7], requestsInFlight := 1 })] } } := by
    decide
  rw [hb, requestMany_succ]
  rfl

/-- C27 as stated fails in a reachable state: one request for type 1 is in
flight when handle 7 loses its last reference, so no sweep is scheduled; after
`2 ^ 32 - 1` further `requestHandles(1, ...)` calls the in-flight counter has
wrapped around to 0.  The to-release set holds handle 7, no sweep is scheduled
and the counter reads 0. -/
theorem C27_counterexample :
    HReachable strandedState ∧
    (strandedState.ctx.typeAt 1).toRelease = [7] ∧
    (strandedState.ctx.typeAt 1).releaseScheduled = false ∧
    (strandedState.ctx.typeAt 1).requestsInFlight = 0 ∧
    ¬ Covered strandedState 1 := by
  have hreach : HReachable strandedState := by
    rw [strandedState_eq]
    exact requestMany_reachable 1 _ _
      (HReachable.unref 1 7 (HReachable.ref 1 7 (HReachable.request 1 HReachable.init))
        (by decide))
  refine ⟨hreach, by decide, by decide, by decide, ?_⟩
  intro hc
  have := hc (by decide)
  revert this
  decide

/-! ## Sweep bookkeeping -/

theorem typeAt_of_not_contains (c : HandleContext) (t : Nat)
    (h : QMap.contains t c.types = false) : c.typeAt t = {} := by
  simp only [QMap.contains] at h
  simp only [HandleContext.typeAt, QMap.value]
  cases hf : QMap.find t c.types with
  | none => rfl
  | some e => rw [hf] at h; cases h

theorem refHandle_sweepQueue (t h : Nat) (s : HandleManager) :
    (refHandle t h s).sweepQueue = s.sweepQueue := by
  simp [refHandle]

theorem requestHandles_sweepQueue (t : Nat) (s : HandleManager) :
    (requestHandles t s).sweepQueue = s.sweepQueue := by
  simp [requestHandles]

theorem doReleaseSweep_sweepQueue (t : Nat) (s : HandleManager) :
    (doReleaseSweep t s).sweepQueue = s.sweepQueue := by
  simp only [doReleaseSweep]
  split_ifs <;> rfl

theorem requestHandles_scheduled (t : Nat) (s : HandleManager) (t' : Nat) :
    ((requestHandles t s).ctx.typeAt t').releaseScheduled
      = (s.ctx.typeAt t').releaseScheduled := by
  by_cases ht : t' = t
  · subst ht
    rw [requestHandles_typeAt_same]
  · rw [requestHandles_typeAt_ne t s ht]

/-- What `unrefHandle` does to the queue and the flag: either it posts one sweep
for its type, whose flag was clear and is now set, or it changes neither. -/
theorem unrefHandle_schedule (t h : Nat) (s : HandleManager) :
    ((unrefHandle t h s).sweepQueue = s.sweepQueue ++ [t] ∧
      (s.ctx.typeAt t).releaseScheduled = false ∧
      ((unrefHandle t h s).ctx.typeAt t).releaseScheduled = true) ∨
    ((unrefHandle t h s).sweepQueue = s.sweepQueue ∧
      ((unrefHandle t h s).ctx.typeAt t).releaseScheduled
        = (s.ctx.typeAt t).releaseScheduled) := by
  simp only [unrefHandle]
  split_ifs with h1 h2 h3
  · left
    refine ⟨rfl, ?_, ?_⟩
    · simpa using h2
    · simp [HandleContext.typeAt_setType_same]
  · right
    exact ⟨rfl, by simp [HandleContext.typeAt_setType_same]⟩
  · right
    exact ⟨rfl, by simp [HandleContext.typeAt_setType_same]⟩
  · right
    exact ⟨rfl, by simp [HandleContext.typeAt_setType_same]⟩

theorem handleRequestLanded_schedule (t : Nat) (s : HandleManager) :
    ((handleRequestLanded t s).sweepQueue = s.sweepQueue ++ [t] ∧
      (s.ctx.typeAt t).releaseScheduled = false ∧
      ((handleRequestLanded t s).ctx.typeAt t).releaseScheduled = true) ∨
    ((handleRequestLanded t s).sweepQueue = s.sweepQueue ∧
      ((handleRequestLanded t s).ctx.typeAt t).releaseScheduled
        = (s.ctx.typeAt t).releaseScheduled) := by
  simp only [handleRequestLanded]
  split_ifs with h1
  · left
    refine ⟨rfl, ?_, ?_⟩
    · simpa using h1.2.2
    · simp [HandleContext.typeAt_setType_same]
  · right
    exact ⟨rfl, by simp [HandleContext.typeAt_setType_same]⟩

theorem handleRequestLanded_inFlight (t : Nat) (s : HandleManager) :
    ((handleRequestLanded t s).ctx.typeAt t).requestsInFlight
      = uintDec (s.ctx.typeAt t).requestsInFlight := by
  simp only [handleRequestLanded]
  split_ifs <;> simp [HandleContext.typeAt_setType_same]

/-- The count invariant after an operation that posts at most one sweep for
the type `t` and leaves the other types alone. -/
theorem count_after_schedule (s s' : HandleManager) (t : Nat)
    (hne : ∀ t', t' ≠ t → s'.ctx.typeAt t' = s.ctx.typeAt t')
    (hsch : (s'.sweepQueue = s.sweepQueue ++ [t] ∧
        (s.ctx.typeAt t).releaseScheduled = false ∧
        (s'.ctx.typeAt t).releaseScheduled = true) ∨
      (s'.sweepQueue = s.sweepQueue ∧
        (s'.ctx.typeAt t).releaseScheduled = (s.ctx.typeAt t).releaseScheduled))
    (h : ∀ t', s.sweepQueue.count t' = if (s.ctx.typeAt t').releaseScheduled then 1 else 0) :
    ∀ t', s'.sweepQueue.count t' = if (s'.ctx.typeAt t').releaseScheduled then 1 else 0 := by
  intro t'
  have ht' := h t'
  by_cases ht : t' = t
  · subst ht
    rcases hsch with ⟨h1, h2, h3⟩ | ⟨h1, h2⟩
    · rw [h1, h3, List.count_append, ht', h2]
      simp
    · rw [h1, h2]
      exact ht'
  · rw [hne t' ht]
    rcases hsch with ⟨h1, _, _⟩ | ⟨h1, _⟩
    · rw [h1, List.count_append, ht']
      simp [List.count_cons, Ne.symm ht]
    · rw [h1]
      exact ht'

theorem SweepInv_refHandle (t h : Nat) (s : HandleManager) (p : Nat → Nat)
    (hb : QMap.value h (s.ctx.typeAt t).refcounts 0 + 1 < UINT_RANGE)
    (hs : SweepInv s p) : SweepInv (refHandle t h s) p := by
  obtain ⟨h1, h2, h3⟩ := hs
  refine ⟨?_, ?_, ?_⟩
  · intro t'
    rw [refHandle_sweepQueue, (refHandle_inFlight t h s t').2]
    exact h1 t'
  · intro t' h' n hf
    unfold refcountOf at hf
    by_cases ht : t' = t
    · subst ht
      rw [refHandle_refcounts] at hf
      by_cases hh : h' = h
      · subst hh
        rw [QMap.find_insert_same] at hf
        have := Option.some.inj hf
        unfold uintInc at this
        rw [Nat.mod_eq_of_lt hb] at this
        omega
      · rw [QMap.find_insert_ne hh] at hf
        exact h2 _ _ _ hf
    · rw [refHandle_typeAt_ne t h s ht] at hf
      exact h2 _ _ _ hf
  · intro t'
    rw [(refHandle_inFlight t h s t').1]
    exact h3 t'

theorem SweepInv_unrefHandle (t h : Nat) (s : HandleManager) (p : Nat → Nat)
    (hs : SweepInv s p) : SweepInv (unrefHandle t h s) p := by
  obtain ⟨h1, h2, h3⟩ := hs
  refine ⟨?_, ?_, ?_⟩
  · exact count_after_schedule s _ t (fun t' ht => unrefHandle_typeAt_ne t h s ht)
      (unrefHandle_schedule t h s) h1
  · intro t' h' n hf
    unfold refcountOf at hf
    by_cases ht : t' = t
    · subst ht
      rw [unrefHandle_refcounts] at hf
      by_cases hh : h' = h
      · subst hh
        split_ifs at hf with hz
        · rw [QMap.find_remove_same] at hf
          cases hf
        · rw [QMap.find_insert_same] at hf
          have := Option.some.inj hf
          have hlt := uintDec_lt (QMap.value h' (s.ctx.typeAt t').refcounts 0)
          omega
      · split_ifs at hf with hz
        · rw [QMap.find_remove_ne hh, QMap.find_insert_ne hh] at hf
          exact h2 _ _ _ hf
        · rw [QMap.find_insert_ne hh] at hf
          exact h2 _ _ _ hf
    · rw [unrefHandle_typeAt_ne t h s ht] at hf
      exact h2 _ _ _ hf
  · intro t'
    rw [unrefHandle_inFlight]
    exact h3 t'

theorem SweepInv_requestHandles (t : Nat) (s : HandleManager) (p : Nat → Nat)
    (hb : p t + 1 < UINT_RANGE) (hs : SweepInv s p) :
    SweepInv (requestHandles t s) (fun t' => if t' = t then p t' + 1 else p t') := by
  obtain ⟨h1, h2, h3⟩ := hs
  refine ⟨?_, ?_, ?_⟩
  · intro t'
    rw [requestHandles_sweepQueue, requestHandles_scheduled]
    exact h1 t'
  · intro t' h' n hf
    unfold refcountOf at hf
    rw [(requestHandles_tables t s t').1] at hf
    exact h2 _ _ _ hf
  · intro t'
    by_cases ht : t' = t
    · subst ht
      rw [requestHandles_typeAt_same]
      simp only [if_true]
      refine ⟨?_, hb⟩
      show uintInc (s.ctx.typeAt t').requestsInFlight = p t' + 1
      rw [(h3 t').1]
      unfold uintInc
      exact Nat.mod_eq_of_lt hb
    · rw [requestHandles_typeAt_ne t s ht]
      simp only [if_neg ht]
      exact h3 t'

theorem SweepInv_handleRequestLanded (t : Nat) (s : HandleManager) (p : Nat → Nat)
    (hp : 0 < p t) (hs : SweepInv s p) :
    SweepInv (handleRequestLanded t s) (fun t' => if t' = t then p t' - 1 else p t') := by
  obtain ⟨h1, h2, h3⟩ := hs
  refine ⟨?_, ?_, ?_⟩
  · exact count_after_schedule s _ t (fun t' ht => handleRequestLanded_typeAt_ne t s ht)
      (handleRequestLanded_schedule t s) h1
  · intro t' h' n hf
    unfold refcountOf at hf
    rw [(handleRequestLanded_tables t s t').1] at hf
    exact h2 _ _ _ hf
  · intro t'
    by_cases ht : t' = t
    · subst ht
      rw [handleRequestLanded_inFlight, (h3 t').1]
      simp only [if_true]
      have hlt := (h3 t').2
      refine ⟨uintDec_succ hp hlt, ?_⟩
      omega
    · rw [handleRequestLanded_typeAt_ne t s ht]
      simp only [if_neg ht]
      exact h3 t'

theorem SweepInv_dispatchSweep (s : HandleManager) (p : Nat → Nat) (hs : SweepInv s p) :
    SweepInv (dispatchSweep s) p := by
  obtain ⟨h1, h2, h3⟩ := hs
  unfold dispatchSweep
  split
  · exact ⟨h1, h2, h3⟩
  · rename_i t rest hq
    refine ⟨?_, ?_, ?_⟩
    · intro t'
      rw [doReleaseSweep_sweepQueue]
      show rest.count t' = _
      have hc := h1 t'
      rw [hq, List.count_cons] at hc
      by_cases ht : t' = t
      · subst ht
        rw [doReleaseSweep_unscheduled]
        simp only [beq_self_eq_true, if_true] at hc
        split_ifs at hc
        simp_all
      · rw [doReleaseSweep_typeAt_ne _ _ ht]
        have hne : (t == t') = false := by simpa using Ne.symm ht
        simp only [hne] at hc
        simpa using hc
    · intro t' h' n hf
      unfold refcountOf at hf
      rw [doReleaseSweep_refcounts] at hf
      exact h2 _ _ _ hf
    · intro t'
      rw [doReleaseSweep_inFlight]
      exact h3 t'

theorem paired_SweepInv {s : HandleManager} {p : Nat → Nat} (hr : HPaired s p) :
    SweepInv s p := by
  induction hr with
  | init =>
    refine ⟨?_, ?_, ?_⟩
    · intro t
      rfl
    · intro t h n hf
      simp [refcountOf, HandleContext.typeAt, QMap.value, QMap.find] at hf
    · intro t
      exact ⟨rfl, Nat.zero_lt_succ _⟩
  | ref t h _ hb ih => exact SweepInv_refHandle t h _ _ hb ih
  | unref t h _ _ ih => exact SweepInv_unrefHandle t h _ _ ih
  | request t _ hb ih => exact SweepInv_requestHandles t _ _ hb ih
  | landed t _ hp ih => exact SweepInv_handleRequestLanded t _ _ hp ih
  | dispatch _ ih => exact SweepInv_dispatchSweep _ _ ih

/-- C28 (amended), sweep bookkeeping: in every state reached through `refHandle`,
`unrefHandle`, in-flight increments, `handleRequestLanded` (for a request made
before) and the dispatch of queued sweeps, with no 32-bit counter overflowing,
the number of queued `doReleaseSweep(t)` events is 1 if `releaseScheduled[t]` is
set and 0 otherwise; every value in the refcount map is at least 1; the
assertions of `doReleaseSweep` hold when the event loop delivers the sweep at
the head of the queue; and the assertions of `handleRequestLanded` hold when a
request made before lands. -/
theorem C28_sweep_bookkeeping (s : HandleManager) (p : Nat → Nat) (hr : HPaired s p) :
    (∀ t, s.sweepQueue.count t = if (s.ctx.typeAt t).releaseScheduled then 1 else 0) ∧
    (∀ t h n, refcountOf t h s = some n → 1 ≤ n) ∧
    (∀ t rest, s.sweepQueue = t :: rest →
      doReleaseSweepAsserts t { s with sweepQueue := rest } = true) ∧
    (∀ t, 0 < p t → handleRequestLandedAsserts t s = true) := by
  obtain ⟨h1, h2, h3⟩ := paired_SweepInv hr
  have hknown : ∀ t, (s.ctx.typeAt t).releaseScheduled = true ∨
      0 < (s.ctx.typeAt t).requestsInFlight → QMap.contains t s.ctx.types = true := by
    intro t ht
    cases hc : QMap.contains t s.ctx.types with
    | true => rfl
    | false =>
      exfalso
      rw [typeAt_of_not_contains _ _ hc] at ht
      rcases ht with ht | ht
      · cases ht
      · exact absurd ht (by decide)
  refine ⟨h1, fun t h n hf => (h2 t h n hf).1, ?_, ?_⟩
  · intro t rest hq
    have hc := h1 t
    rw [hq, List.count_cons] at hc
    have hsch : (s.ctx.typeAt t).releaseScheduled = true := by
      cases hv : (s.ctx.typeAt t).releaseScheduled with
      | true => rfl
      | false =>
        rw [hv] at hc
        simp at hc
    simp only [doReleaseSweepAsserts, Bool.and_eq_true]
    exact ⟨hknown t (Or.inl hsch), hsch⟩
  · intro t hp
    have hpos : 0 < (s.ctx.typeAt t).requestsInFlight := by
      rw [(h3 t).1]
      exact hp
    simp only [handleRequestLandedAsserts, Bool.and_eq_true, decide_eq_true_eq]
    exact ⟨hknown t (Or.inr hpos), hpos⟩

theorem C28_sweep_bookkeeping_witness :
    (unrefHandle 1 7 (refHandle 1 7 {})).sweepQueue = [1] ∧
    doReleaseSweepAsserts 1 { unrefHandle 1 7 (refHandle 1 7 {}) with sweepQueue := [] }
      = true :=
  ⟨by decide,
   (C28_sweep_bookkeeping (unrefHandle 1 7 (refHandle 1 7 {})) (fun _ => 0)
      (HPaired.unref 1 7 (HPaired.ref 1 7 HPaired.init (by decide)) (by decide))).2.2.1
      1 [] (by decide)⟩

/-- C28 as stated fails: `2 ^ 32` calls of `refHandle(1, 7)` leave handle 7
stored with the count 0, a value of the refcount map below 1; and with `2 ^ 32`
requests for a type in flight the in-flight counter reads 0, so the assertion
of `handleRequestLanded` is false when the first of them lands. -/
theorem C28_counterexample :
    wrappedState = refMany 1 7 (4294967295 + 1) ∧
    refcountOf 1 7 wrappedState = some 0 ∧
    handleRequestLandedAsserts 1 (requestMany 1 (4294967294 + 1) (requestHandles 1 {}))
      = false := by
  refine ⟨wrappedState_eq, by decide, ?_⟩
  have hb : requestHandles 1 {} =
      { ctx := { refcount := 0, types := [(1, { requestsInFlight := 1 })] } } := by
    decide
  rw [hb, requestMany_succ]
  decide

/-- C26: `accountRemoved` for an account that was never in the set.  The set
filters on the property `enabled`; the account manager announces a disabled
account, which gets a wrapper and is not inserted; then the account is removed.
`removeAccount` emits `accountRemoved` although `accounts()` was empty before
the event and no `accountAdded` was ever emitted for the account. -/
theorem C26_accountRemoved_for_non_member :
    ((AccountSet.setStep
        (AccountSet.SetEvent.newAccount { objectPath := "/account/a" })
        (AccountSet.create
          [{ isValid := true,
             isMatch := fun a => a.properties.contains ("enabled", "true") }] [])).map
      (fun p => (p.accountList, p.wrappers, p.emitted))
      = some ([], ["/account/a"], [])) ∧
    (((AccountSet.setStep
        (AccountSet.SetEvent.newAccount { objectPath := "/account/a" })
        (AccountSet.create
          [{ isValid := true,
             isMatch := fun a => a.properties.contains ("enabled", "true") }] [])).bind
        (AccountSet.setStep
          (AccountSet.SetEvent.accountRemoved { objectPath := "/account/a" }))).map
      (fun q => q.emitted)
      = some [AccountSet.AccountSignal.accountRemoved { objectPath := "/account/a" }]) := by
  refine ⟨?_, ?_⟩ <;> decide

/-! ## The key file reader -/

/-- C25: `status()` after an error.  For a missing file, for a file that cannot
be opened and for a file whose first line is a group header without `]`, `read`
returns false (and clears the groups), and `status()` afterwards is still the
`NoError` that `setFileName` stored before it called `read`: `setError` assigns
its parameter `status` to itself and never writes the member. -/
theorem C25_status_after_error :
    KeyFile.read KeyFile.FileState.missing { status := KeyFile.Status.NoError }
      = KeyFile.Access.done (false, { status := KeyFile.Status.NoError }) ∧
    KeyFile.setFileName "accounts.cfg" KeyFile.FileState.missing {}
      = KeyFile.Access.done
          { fileName := "accounts.cfg", status := KeyFile.Status.NoError,
            currentGroup := KeyFile.bytes "general" } ∧
    KeyFile.setFileName "accounts.cfg" KeyFile.FileState.unreadable {}
      = KeyFile.Access.done
          { fileName := "accounts.cfg", status := KeyFile.Status.NoError,
            currentGroup := KeyFile.bytes "general" } ∧
    KeyFile.setFileName "accounts.cfg"
        (KeyFile.FileState.content [KeyFile.bytes "[group\n"]) {}
      = KeyFile.Access.done
          { fileName := "accounts.cfg", status := KeyFile.Status.NoError,
            currentGroup := KeyFile.bytes "general" } := by
  refine ⟨?_, ?_, ?_, ?_⟩ <;> decide

/-- C29: a line without `=`.  For the one-line file `abc`, `indexOf('=')` is
-1, the test `idx == 0` (whose message reads "missing '='") does not catch it,
and the loop that strips trailing spaces starts by reading `data.at(idx - 1)`,
the index -2.  A line with an empty key (`=v`) is rejected as claimed. -/
theorem C29_line_without_equals :
    KeyFile.indexOf (KeyFile.trimmed (KeyFile.bytes "abc\n")) 61 = -1 ∧
    KeyFile.read (KeyFile.FileState.content [KeyFile.bytes "abc\n"])
        { status := KeyFile.Status.NoError }
      = KeyFile.Access.outOfBounds (-2) ∧
    KeyFile.read (KeyFile.FileState.content [KeyFile.bytes "=v\n"])
        { status := KeyFile.Status.NoError }
      = KeyFile.Access.done (false, { status := KeyFile.Status.NoError }) := by
  refine ⟨?_, ?_, ?_⟩ <;> decide

/-- C30: a backslash at the end of the range.  On the two bytes `a\` with the
range [0, 2), as `read` calls it for the line `k=a\`, `escapedString` reads the
index 2, outside the array.  On the two bytes `\n` with the range [0, 1) it
reads the index 1, outside the range, appends a newline and returns true,
although the backslash is followed by nothing inside the range. -/
theorem C30_trailing_backslash :
    KeyFile.escapedString (KeyFile.bytes "a\\") 0 2 [] = KeyFile.Access.outOfBounds 2 ∧
    KeyFile.read (KeyFile.FileState.content [KeyFile.bytes "k=a\\\n"])
        { status := KeyFile.Status.NoError }
      = KeyFile.Access.outOfBounds 2 ∧
    KeyFile.escapedString (KeyFile.bytes "\\n") 0 1 []
      = KeyFile.Access.done { ok := true, result := [10], reads := [0, 1] } := by
  refine ⟨?_, ?_, ?_⟩ <;> decide

/-! ## The proxy factory -/

namespace ProxyFactory

theorem proxy_hit {k : Key} {f : Factory} {p : Nat} (h : lookup k f = some p) :
    (proxy k f).proxy = p ∧ (proxy k f).operation = f.operations.length ∧
    (proxy k f).state = { f with operations := f.operations ++ [{ proxy := p }] } := by
  simp only [proxy, h, and_self]

theorem proxy_miss {k : Key} {f : Factory} (h : lookup k f = none) :
    (proxy k f).proxy = f.created ∧ (proxy k f).operation = f.operations.length ∧
    (proxy k f).state =
      { proxies := setAt f.proxies f.created (some { key := k }),
        created := f.created + 1,
        cache := setAt f.cache k (some f.created),
        operations := f.operations ++ [{ proxy := f.created }] } := by
  simp only [proxy, h, and_self]

theorem lookup_of_serving {k : Key} {p n : Nat} {f : Factory} (h : Serving k p n f) :
    lookup k f = some p := by
  simp only [lookup, h.1, h.2.1, if_true]

theorem live_setAt_ne {f : Factory} {i p : Nat} (v : Option ProxyState) (h : p ≠ i) :
    live { f with proxies := setAt f.proxies i v } p = live f p := by
  simp only [live, setAt, if_neg h]

theorem serving_append {k : Key} {p n : Nat} {f : Factory} (q : Nat)
    (h : Serving k p n f) :
    Serving k p n { f with operations := f.operations ++ [{ proxy := q }] } := by
  obtain ⟨h1, h2, h3, h4⟩ := h
  refine ⟨h1, h2, ?_, ?_⟩
  · simp only [List.length_append, List.length_singleton]
    omega
  · intro o ho hp
    simp only [List.drop_append_of_le_length h3, List.mem_append, List.mem_singleton] at ho
    rcases ho with ho | ho
    · exact h4 o ho hp
    · rw [ho]
      simp

theorem Serving_request (k k' : Key) (p n : Nat) (f : Factory) (h : Serving k p n f) :
    Serving k p n (proxy k' f).state := by
  cases hl : lookup k' f with
  | some i =>
    rw [(proxy_hit hl).2.2]
    exact serving_append i h
  | none =>
    rw [(proxy_miss hl).2.2]
    have hkk : k ≠ k' := by
      intro e
      rw [← e, lookup_of_serving h] at hl
      cases hl
    have h' := serving_append f.created h
    obtain ⟨h1, h2, h3, h4⟩ := h'
    refine ⟨?_, ?_, h3, h4⟩
    · show setAt f.cache k' (some f.created) k = some p
      simp only [setAt, if_neg hkk]
      exact h1
    · by_cases hp : p = f.created
      · simp [live, setAt, hp]
      · have := live_setAt_ne (f := f) (some { key := k' }) hp
        simp only [live] at this h2 ⊢
        rw [this]
        exact h2

theorem Serving_becameReady (k : Key) (p n i : Nat) (f : Factory) (h : Serving k p n f) :
    Serving k p n (becameReady i f) := by
  obtain ⟨h1, h2, h3, h4⟩ := h
  simp only [becameReady]
  cases hi : f.proxies i with
  | none => exact ⟨h1, h2, h3, h4⟩
  | some ps =>
    simp only
    split_ifs with hc
    · refine ⟨h1, ?_, h3, h4⟩
      by_cases hp : p = i
      · subst hp
        simp only [live, setAt, if_true]
        exact hc
      · rw [live_setAt_ne _ hp]
        exact h2
    · exact ⟨h1, h2, h3, h4⟩

theorem Serving_loop (k : Key) (p n : Nat) (f : Factory) (h : Serving k p n f) :
    Serving k p n (loop f) := by
  obtain ⟨h1, h2, h3, h4⟩ := h
  refine ⟨h1, h2, ?_, ?_⟩
  · simp only [loop, List.length_map]
    exact h3
  · intro o ho hp
    simp only [loop, ← List.map_drop, List.mem_map] at ho
    obtain ⟨o', ho', he⟩ := ho
    have hp' : o'.proxy = p := by
      rw [← he] at hp
      revert hp
      split
      · split_ifs <;> exact id
      · exact id
    have hf := h4 o' ho' hp'
    rw [← he]
    split
    · split_ifs
      · simp
      · exact hf
    · exact hf

theorem Serving_invalidate (k : Key) (p n i : Nat) (f : Factory) (hne : i ≠ p)
    (h : Serving k p n f) : Serving k p n (invalidate i f) := by
  obtain ⟨h1, h2, h3, h4⟩ := h
  simp only [invalidate]
  cases hi : f.proxies i with
  | none => exact ⟨h1, h2, h3, h4⟩
  | some ps =>
    simp only
    refine ⟨?_, ?_, ?_, ?_⟩
    · have : f.cache k ≠ some i := by
        rw [h1]
        intro e
        exact hne (Option.some.inj e).symm
      simp only [if_neg this]
      exact h1
    · have := live_setAt_ne (f := f) (some { ps with valid := false }) (Ne.symm hne)
      simp only [live] at this h2 ⊢
      rw [this]
      exact h2
    · simp only [List.length_map]
      exact h3
    · intro o ho hp
      simp only [← List.map_drop, List.mem_map] at ho
      obtain ⟨o', ho', he⟩ := ho
      by_cases hb : o'.proxy = i ∧ o'.finished = none
      · rw [if_pos hb] at he
        rw [← he] at hp
        exact absurd (hb.1.symm.trans hp) hne
      · rw [if_neg hb] at he
        rw [← he] at hp ⊢
        exact h4 o' ho' hp

theorem Serving_dropRefs (k : Key) (p n i : Nat) (f : Factory) (hne : i ≠ p)
    (h : Serving k p n f) : Serving k p n (dropRefs i f) := by
  obtain ⟨h1, h2, h3, h4⟩ := h
  simp only [dropRefs]
  cases hi : f.proxies i with
  | none => exact ⟨h1, h2, h3, h4⟩
  | some ps =>
    simp only
    refine ⟨h1, ?_, h3, h4⟩
    rw [live_setAt_ne _ (Ne.symm hne)]
    exact h2

theorem Serving_step (k : Key) (p n : Nat) (e : FactoryEvent) (f : Factory)
    (hne : e ≠ FactoryEvent.invalidate p ∧ e ≠ FactoryEvent.dropRefs p)
    (h : Serving k p n f) : Serving k p n (factoryStep e f) := by
  cases e with
  | request k' => exact Serving_request k k' p n f h
  | becameReady i => exact Serving_becameReady k p n i f h
  | loop => exact Serving_loop k p n f h
  | invalidate i =>
    exact Serving_invalidate k p n i f (fun e => hne.1 (by rw [e])) h
  | dropRefs i =>
    exact Serving_dropRefs k p n i f (fun e => hne.2 (by rw [e])) h

theorem Serving_run (k : Key) (p n : Nat) (events : List FactoryEvent) :
    ∀ f : Factory,
      (∀ e ∈ events, e ≠ FactoryEvent.invalidate p ∧ e ≠ FactoryEvent.dropRefs p) →
      Serving k p n f → Serving k p n (runEvents events f) := by
  induction events with
  | nil =>
    intro f _ h
    exact h
  | cons e rest ih =>
    intro f hall h
    simp only [runEvents, List.foldl_cons]
    exact ih (factoryStep e f) (fun e' he' => hall e' (List.mem_cons_of_mem _ he'))
      (Serving_step k p n e f (hall e (List.mem_cons_self _ _)) h)

theorem Serving_first (k : Key) (f : Factory) :
    Serving k (proxy k f).proxy f.operations.length (proxy k f).state := by
  cases hl : lookup k f with
  | some i =>
    rw [(proxy_hit hl).1, (proxy_hit hl).2.2]
    have hc : ∃ j, f.cache k = some j ∧ live f j = true ∧ j = i := by
      simp only [lookup] at hl
      cases hk : f.cache k with
      | none => rw [hk] at hl; cases hl
      | some j =>
        rw [hk] at hl
        simp only at hl
        split_ifs at hl with hv
        exact ⟨j, rfl, hv, Option.some.inj hl⟩
    obtain ⟨j, hj1, hj2, hj3⟩ := hc
    subst hj3
    refine ⟨hj1, hj2, ?_, ?_⟩
    · simp
    · intro o ho _
      simp only [List.drop_left, List.mem_singleton] at ho
      rw [ho]
      simp
  | none =>
    rw [(proxy_miss hl).1, (proxy_miss hl).2.2]
    refine ⟨?_, ?_, ?_, ?_⟩
    · simp [setAt]
    · simp [live, setAt]
    · simp
    · intro o ho _
      simp only [List.drop_left, List.mem_singleton] at ho
      rw [ho]
      simp

/-- Once the proxy served for a key is ready, one turn of the event loop
completes its pending operations successfully. -/
theorem Serving_completes (k : Key) (p n : Nat) (f : Factory) (h : Serving k p n f) :
    ∀ o ∈ (loop (becameReady p f)).operations.drop n, o.proxy = p →
      o.finished = some true := by
  have hs := Serving_becameReady k p n p f h
  have hready : ∃ ps, (becameReady p f).proxies p = some ps ∧ ps.ready = true := by
    have h2 := h.2.1
    simp only [live] at h2
    simp only [becameReady]
    cases hp : f.proxies p with
    | none => rw [hp] at h2; cases h2
    | some ps =>
      rw [hp] at h2
      simp only at h2 ⊢
      rw [if_pos h2]
      exact ⟨{ ps with ready := true }, by simp [setAt], rfl⟩
  obtain ⟨ps, hps, hr⟩ := hready
  intro o ho hp
  simp only [loop, ← List.map_drop, List.mem_map] at ho
  obtain ⟨o', ho', he⟩ := ho
  have hp' : o'.proxy = p := by
    rw [← he] at hp
    revert hp
    split
    · split_ifs <;> exact id
    · exact id
  have hf := hs.2.2.2 o' ho' hp'
  rw [← he, hp']
  cases hfin : o'.finished with
  | none =>
    simp only [hps, hr, if_true]
  | some b =>
    cases b with
    | true => exact hfin
    | false => exact absurd hfin hf

theorem operations_length_step (e : FactoryEvent) (f : Factory) :
    f.operations.length ≤ (factoryStep e f).operations.length := by
  cases e with
  | request k =>
    simp only [factoryStep]
    cases hl : lookup k f with
    | some i =>
      rw [(proxy_hit hl).2.2]
      simp
    | none =>
      rw [(proxy_miss hl).2.2]
      simp
  | becameReady i =>
    simp only [factoryStep, becameReady]
    cases f.proxies i with
    | none => exact le_refl _
    | some ps =>
      simp only
      split_ifs <;> exact le_refl _
  | loop => simp [factoryStep, loop]
  | invalidate i =>
    simp only [factoryStep, invalidate]
    cases f.proxies i with
    | none => exact le_refl _
    | some ps => simp
  | dropRefs i =>
    simp only [factoryStep, dropRefs]
    cases f.proxies i with
    | none => exact le_refl _
    | some ps => exact le_refl _

theorem operations_length_run (events : List FactoryEvent) :
    ∀ f : Factory, f.operations.length ≤ (runEvents events f).operations.length := by
  induction events with
  | nil =>
    intro f
    exact le_refl _
  | cons e rest ih =>
    intro f
    simp only [runEvents, List.foldl_cons]
    exact le_trans (operations_length_step e f) (ih (factoryStep e f))

theorem proxy_operations (k : Key) (f : Factory) :
    (proxy k f).operation = f.operations.length ∧
    (proxy k f).state.operations.length = f.operations.length + 1 := by
  cases hq : lookup k f with
  | some i =>
    refine ⟨(proxy_hit hq).2.1, ?_⟩
    rw [(proxy_hit hq).2.2]
    simp
  | none =>
    refine ⟨(proxy_miss hq).2.1, ?_⟩
    rw [(proxy_miss hq).2.2]
    simp

end ProxyFactory

/-- C22, factory cache hit: let `factory.proxy` be called for a key and return
an operation bound to the proxy `p`.  After any events other than the
invalidation of `p` and the loss of its last reference (further requests for any
key, proxies becoming ready, turns of the event loop in which earlier
operations finish, other proxies going away), a call for the same key returns
an operation bound to the same `p`; and once `p` is ready, a turn of the event
loop leaves every operation handed out for `p` since the first call finished
successfully. -/
theorem C22_factory_cache_hit (f : ProxyFactory.Factory) (k : ProxyFactory.Key)
    (events : List ProxyFactory.FactoryEvent)
    (hkept : ∀ e ∈ events,
      e ≠ ProxyFactory.FactoryEvent.invalidate (ProxyFactory.proxy k f).proxy ∧
      e ≠ ProxyFactory.FactoryEvent.dropRefs (ProxyFactory.proxy k f).proxy) :
    (ProxyFactory.proxy k
        (ProxyFactory.runEvents events (ProxyFactory.proxy k f).state)).proxy
      = (ProxyFactory.proxy k f).proxy ∧
    (ProxyFactory.proxy k
        (ProxyFactory.runEvents events (ProxyFactory.proxy k f).state)).operation
      ≠ (ProxyFactory.proxy k f).operation ∧
    ∀ o ∈ (ProxyFactory.loop (ProxyFactory.becameReady (ProxyFactory.proxy k f).proxy
        (ProxyFactory.proxy k
          (ProxyFactory.runEvents events (ProxyFactory.proxy k f).state)).state)).operations.drop
        f.operations.length,
      o.proxy = (ProxyFactory.proxy k f).proxy → o.finished = some true := by
  have h1 := ProxyFactory.Serving_first k f
  have h2 := ProxyFactory.Serving_run k _ _ events _ hkept h1
  have hl := ProxyFactory.lookup_of_serving h2
  have hh := ProxyFactory.proxy_hit hl
  refine ⟨hh.1, ?_, ?_⟩
  · rw [hh.2.1]
    rw [(ProxyFactory.proxy_operations k f).1]
    have h3 := ProxyFactory.operations_length_run events (ProxyFactory.proxy k f).state
    rw [(ProxyFactory.proxy_operations k f).2] at h3
    omega
  · have h3 := ProxyFactory.Serving_request k k _ _ _ h2
    exact ProxyFactory.Serving_completes k _ _ _ h3

theorem C22_factory_cache_hit_witness :
    (ProxyFactory.proxy ("session", "im.svc", "/c/a")
        (ProxyFactory.runEvents
          [ProxyFactory.FactoryEvent.request ("session", "im.svc", "/c/a"),
           ProxyFactory.FactoryEvent.request ("session", "im.svc", "/c/b"),
           ProxyFactory.FactoryEvent.becameReady 0, ProxyFactory.FactoryEvent.loop]
          (ProxyFactory.proxy ("session", "im.svc", "/c/a") {}).state)).proxy
      = (ProxyFactory.proxy ("session", "im.svc", "/c/a") {}).proxy ∧
    (ProxyFactory.proxy ("session", "im.svc", "/c/a") {}).proxy = 0 ∧
    (ProxyFactory.runEvents
      [ProxyFactory.FactoryEvent.request ("session", "im.svc", "/c/a"),
       ProxyFactory.FactoryEvent.request ("session", "im.svc", "/c/b"),
       ProxyFactory.FactoryEvent.becameReady 0, ProxyFactory.FactoryEvent.loop]
      (ProxyFactory.proxy ("session", "im.svc", "/c/a") {}).state).operations
      = [{ proxy := 0, finished := some true }, { proxy := 0, finished := some true },
         { proxy := 1 }] :=
  ⟨(C22_factory_cache_hit {} ("session", "im.svc", "/c/a")
      [ProxyFactory.FactoryEvent.request ("session", "im.svc", "/c/a"),
       ProxyFactory.FactoryEvent.request ("session", "im.svc", "/c/b"),
       ProxyFactory.FactoryEvent.becameReady 0, ProxyFactory.FactoryEvent.loop]
      (by decide)).1,
   by decide, by decide⟩

namespace ProxyFactory

theorem Ordered_step (e : FactoryEvent) (f : Factory) (h : Ordered f) :
    Ordered (factoryStep e f) ∧ f.created ≤ (factoryStep e f).created := by
  obtain ⟨h1, h2⟩ := h
  cases e with
  | request k =>
    simp only [factoryStep]
    cases hl : lookup k f with
    | some i =>
      rw [(proxy_hit hl).2.2]
      exact ⟨⟨h1, h2⟩, le_refl _⟩
    | none =>
      rw [(proxy_miss hl).2.2]
      refine ⟨⟨?_, ?_⟩, Nat.le_succ _⟩
      · intro i hi
        have hi' : f.created + 1 ≤ i := hi
        show setAt f.proxies f.created _ i = none
        have hne : i ≠ f.created := by omega
        simp only [setAt, if_neg hne]
        exact h1 i (by omega)
      · intro k' i hk
        have hk' : setAt f.cache k (some f.created) k' = some i := hk
        show i < f.created + 1
        by_cases hkk : k' = k
        · simp only [setAt, if_pos hkk] at hk'
          have := Option.some.inj hk'
          omega
        · simp only [setAt, if_neg hkk] at hk'
          have := h2 k' i hk'
          omega
  | becameReady i =>
    simp only [factoryStep, becameReady]
    cases hi : f.proxies i with
    | none => exact ⟨⟨h1, h2⟩, le_refl _⟩
    | some ps =>
      simp only
      split_ifs
      · refine ⟨⟨?_, h2⟩, le_refl _⟩
        intro j hj
        have hne : j ≠ i := by
          intro e
          have hj' : f.created ≤ j := hj
          have hnone := h1 j hj'
          rw [e, hi] at hnone
          cases hnone
        show setAt f.proxies i _ j = none
        simp only [setAt, if_neg hne]
        exact h1 j hj
      · exact ⟨⟨h1, h2⟩, le_refl _⟩
  | loop => exact ⟨⟨h1, h2⟩, le_refl _⟩
  | invalidate i =>
    simp only [factoryStep, invalidate]
    cases hi : f.proxies i with
    | none => exact ⟨⟨h1, h2⟩, le_refl _⟩
    | some ps =>
      simp only
      refine ⟨⟨?_, ?_⟩, le_refl _⟩
      · intro j hj
        have hne : j ≠ i := by
          intro e
          have hj' : f.created ≤ j := hj
          have hnone := h1 j hj'
          rw [e, hi] at hnone
          cases hnone
        show setAt f.proxies i _ j = none
        simp only [setAt, if_neg hne]
        exact h1 j hj
      · intro k' j hk
        have hk' : (if f.cache k' = some i then none else f.cache k') = some j := hk
        split_ifs at hk'
        exact h2 k' j hk'
  | dropRefs i =>
    simp only [factoryStep, dropRefs]
    cases hi : f.proxies i with
    | none => exact ⟨⟨h1, h2⟩, le_refl _⟩
    | some ps =>
      simp only
      refine ⟨⟨?_, h2⟩, le_refl _⟩
      intro j hj
      have hne : j ≠ i := by
        intro e
        have hj' : f.created ≤ j := hj
        have hnone := h1 j hj'
        rw [e, hi] at hnone
        cases hnone
      show setAt f.proxies i _ j = none
      simp only [setAt, if_neg hne]
      exact h1 j hj

theorem Ordered_run (events : List FactoryEvent) :
    ∀ f : Factory, Ordered f →
      Ordered (runEvents events f) ∧ f.created ≤ (runEvents events f).created := by
  induction events with
  | nil =>
    intro f h
    exact ⟨h, le_refl _⟩
  | cons e rest ih =>
    intro f h
    simp only [runEvents, List.foldl_cons]
    have h1 := Ordered_step e f h
    have h2 := ih (factoryStep e f) h1.1
    exact ⟨h2.1, le_trans h1.2 h2.2⟩

theorem reachable_Ordered {f : Factory} (h : FReachable f) : Ordered f := by
  obtain ⟨events, he⟩ := h
  rw [← he]
  refine (Ordered_run events {} ⟨fun _ _ => rfl, ?_⟩).1
  intro k i hk
  cases hk

/-- Without a request for the key, an empty cache slot stays empty. -/
theorem cache_none_step (k : Key) (e : FactoryEvent) (f : Factory)
    (hne : e ≠ FactoryEvent.request k) (h : f.cache k = none) :
    (factoryStep e f).cache k = none := by
  cases e with
  | request k' =>
    have hkk : k ≠ k' := fun e => hne (by rw [e])
    simp only [factoryStep]
    cases hl : lookup k' f with
    | some i =>
      rw [(proxy_hit hl).2.2]
      exact h
    | none =>
      rw [(proxy_miss hl).2.2]
      show setAt f.cache k' _ k = none
      simp only [setAt, if_neg hkk]
      exact h
  | becameReady i =>
    simp only [factoryStep, becameReady]
    cases f.proxies i with
    | none => exact h
    | some ps =>
      simp only
      split_ifs <;> exact h
  | loop => exact h
  | invalidate i =>
    simp only [factoryStep, invalidate]
    cases f.proxies i with
    | none => exact h
    | some ps =>
      simp only
      split_ifs
      · rfl
      · exact h
  | dropRefs i =>
    simp only [factoryStep, dropRefs]
    cases f.proxies i with
    | none => exact h
    | some ps => exact h

theorem cache_none_run (k : Key) (events : List FactoryEvent) :
    ∀ f : Factory, FactoryEvent.request k ∉ events → f.cache k = none →
      (runEvents events f).cache k = none := by
  induction events with
  | nil =>
    intro f _ h
    exact h
  | cons e rest ih =>
    intro f hno h
    simp only [runEvents, List.foldl_cons]
    have h1 : e ≠ FactoryEvent.request k := by
      intro he
      exact hno (he ▸ List.mem_cons_self _ _)
    exact ih (factoryStep e f) (fun hm => hno (List.mem_cons_of_mem _ hm))
      (cache_none_step k e f h1 h)

theorem Bound_step (j q : Nat) (e : FactoryEvent) (f : Factory) (h : Bound j q f) :
    Bound j q (factoryStep e f) := by
  obtain ⟨hq, o, ho, hp, hfin⟩ := h
  have hj : j < f.operations.length := by
    by_contra hge
    rw [List.getElem?_eq_none (by omega)] at ho
    cases ho
  cases e with
  | request k =>
    simp only [factoryStep]
    cases hl : lookup k f with
    | some i =>
      rw [(proxy_hit hl).2.2]
      refine ⟨hq, o, ?_, hp, hfin⟩
      show (f.operations ++ _)[j]? = some o
      rw [List.getElem?_append_left hj]
      exact ho
    | none =>
      rw [(proxy_miss hl).2.2]
      refine ⟨Nat.lt_succ_of_lt hq, o, ?_, hp, ?_⟩
      · show (f.operations ++ _)[j]? = some o
        rw [List.getElem?_append_left hj]
        exact ho
      · intro ht
        obtain ⟨ps, hps, hr⟩ := hfin ht
        refine ⟨ps, ?_, hr⟩
        show setAt f.proxies f.created _ q = some ps
        have hne : q ≠ f.created := by omega
        simp only [setAt, if_neg hne]
        exact hps
  | becameReady i =>
    simp only [factoryStep, becameReady]
    cases hi : f.proxies i with
    | none => exact ⟨hq, o, ho, hp, hfin⟩
    | some ps =>
      simp only
      split_ifs
      · refine ⟨hq, o, ho, hp, ?_⟩
        intro ht
        obtain ⟨ps', hps, hr⟩ := hfin ht
        by_cases hne : q = i
        · refine ⟨{ ps with ready := true }, ?_, rfl⟩
          show setAt f.proxies i _ q = _
          simp only [setAt, if_pos hne]
        · refine ⟨ps', ?_, hr⟩
          show setAt f.proxies i _ q = _
          simp only [setAt, if_neg hne]
          exact hps
      · exact ⟨hq, o, ho, hp, hfin⟩
  | loop =>
    simp only [factoryStep, loop]
    cases hf : o.finished with
    | some b =>
      refine ⟨hq, o, ?_, hp, hfin⟩
      show (f.operations.map _)[j]? = some o
      rw [List.getElem?_map, ho]
      simp only [Option.map_some', hf]
    | none =>
      cases hps : f.proxies q with
      | none =>
        refine ⟨hq, o, ?_, hp, hfin⟩
        show (f.operations.map _)[j]? = some o
        rw [List.getElem?_map, ho]
        simp only [Option.map_some', hf, hp, hps]
      | some ps =>
        cases hr : ps.ready with
        | false =>
          refine ⟨hq, o, ?_, hp, hfin⟩
          show (f.operations.map _)[j]? = some o
          rw [List.getElem?_map, ho]
          simp [hf, hp, hps, hr]
        | true =>
          refine ⟨hq, { o with finished := some true }, ?_, hp, fun _ => ⟨ps, hps, hr⟩⟩
          show (f.operations.map _)[j]? = _
          rw [List.getElem?_map, ho]
          simp [hf, hp, hps, hr]
  | invalidate i =>
    simp only [factoryStep, invalidate]
    cases hi : f.proxies i with
    | none => exact ⟨hq, o, ho, hp, hfin⟩
    | some ps =>
      simp only
      have hkeep : ∀ ps', f.proxies q = some ps' → ps'.ready = true →
          ∃ ps'', setAt f.proxies i (some { ps with valid := false }) q = some ps'' ∧
            ps''.ready = true := by
        intro ps' hps hr
        by_cases hne : q = i
        · refine ⟨{ ps with valid := false }, by simp only [setAt, if_pos hne], ?_⟩
          rw [hne, hi] at hps
          rw [← Option.some.inj hps] at hr
          exact hr
        · exact ⟨ps', by simp only [setAt, if_neg hne]; exact hps, hr⟩
      by_cases hb : o.proxy = i ∧ o.finished = none
      · refine ⟨hq, { o with finished := some false }, ?_, hp, ?_⟩
        · show (f.operations.map _)[j]? = _
          rw [List.getElem?_map, ho]
          simp only [Option.map_some', if_pos hb]
        · intro ht
          cases ht
      · refine ⟨hq, o, ?_, hp, ?_⟩
        · show (f.operations.map _)[j]? = _
          rw [List.getElem?_map, ho]
          simp only [Option.map_some', if_neg hb]
        · intro ht
          obtain ⟨ps', hps, hr⟩ := hfin ht
          exact hkeep ps' hps hr
  | dropRefs i =>
    simp only [factoryStep, dropRefs]
    cases hi : f.proxies i with
    | none => exact ⟨hq, o, ho, hp, hfin⟩
    | some ps =>
      simp only
      refine ⟨hq, o, ho, hp, ?_⟩
      intro ht
      obtain ⟨ps', hps, hr⟩ := hfin ht
      by_cases hne : q = i
      · refine ⟨{ ps with referenced := false }, ?_, ?_⟩
        · show setAt f.proxies i _ q = _
          simp only [setAt, if_pos hne]
        · rw [hne, hi] at hps
          rw [← Option.some.inj hps] at hr
          exact hr
      · refine ⟨ps', ?_, hr⟩
        show setAt f.proxies i _ q = _
        simp only [setAt, if_neg hne]
        exact hps

theorem Bound_run (j q : Nat) (events : List FactoryEvent) :
    ∀ f : Factory, Bound j q f → Bound j q (runEvents events f) := by
  induction events with
  | nil =>
    intro f h
    exact h
  | cons e rest ih =>
    intro f h
    simp only [runEvents, List.foldl_cons]
    exact ih (factoryStep e f) (Bound_step j q e f h)

end ProxyFactory

/-- C23, factory eviction on invalidation: in a reachable factory state let `p`
be the cached, valid proxy for a key.  After `p` is invalidated, the next
`factory.proxy` call for the key (whatever else happens before it) returns an
operation bound to an instance other than `p`, newly constructed: valid and
not ready.  Whenever that operation has finished successfully the new proxy is
ready; and when the new proxy becomes ready, a turn of the event loop finishes
the operation successfully. -/
theorem C23_factory_eviction (f : ProxyFactory.Factory) (hr : ProxyFactory.FReachable f)
    (k : ProxyFactory.Key) (p : Nat) (hc : ProxyFactory.lookup k f = some p)
    (events : List ProxyFactory.FactoryEvent)
    (hnext : ProxyFactory.FactoryEvent.request k ∉ events) :
    (ProxyFactory.proxy k
        (ProxyFactory.runEvents events (ProxyFactory.invalidate p f))).proxy ≠ p ∧
    (ProxyFactory.proxy k
        (ProxyFactory.runEvents events (ProxyFactory.invalidate p f))).state.proxies
      (ProxyFactory.proxy k
        (ProxyFactory.runEvents events (ProxyFactory.invalidate p f))).proxy
      = some { key := k, referenced := true, valid := true, ready := false } ∧
    (∀ later : List ProxyFactory.FactoryEvent,
      ProxyFactory.Bound
        (ProxyFactory.proxy k
          (ProxyFactory.runEvents events (ProxyFactory.invalidate p f))).operation
        (ProxyFactory.proxy k
          (ProxyFactory.runEvents events (ProxyFactory.invalidate p f))).proxy
        (ProxyFactory.runEvents later
          (ProxyFactory.proxy k
            (ProxyFactory.runEvents events (ProxyFactory.invalidate p f))).state)) ∧
    (∀ o ∈ (ProxyFactory.loop (ProxyFactory.becameReady
        (ProxyFactory.proxy k
          (ProxyFactory.runEvents events (ProxyFactory.invalidate p f))).proxy
        (ProxyFactory.proxy k
          (ProxyFactory.runEvents events (ProxyFactory.invalidate p f))).state)).operations.drop
        (ProxyFactory.proxy k
          (ProxyFactory.runEvents events (ProxyFactory.invalidate p f))).operation,
      o.proxy = (ProxyFactory.proxy k
          (ProxyFactory.runEvents events (ProxyFactory.invalidate p f))).proxy →
      o.finished = some true) := by
  have hord := ProxyFactory.reachable_Ordered hr
  -- the cached proxy and its slot
  have hcache : f.cache k = some p ∧ ProxyFactory.live f p = true := by
    simp only [ProxyFactory.lookup] at hc
    cases hk : f.cache k with
    | none => rw [hk] at hc; cases hc
    | some j =>
      rw [hk] at hc
      simp only at hc
      split_ifs at hc with hv
      have := Option.some.inj hc
      subst this
      exact ⟨rfl, hv⟩
  have hplt : p < f.created := hord.2 k p hcache.1
  have hinv := ProxyFactory.Ordered_step (ProxyFactory.FactoryEvent.invalidate p) f hord
  have hrun := ProxyFactory.Ordered_run events _ hinv.1
  have hcreated : f.created ≤
      (ProxyFactory.runEvents events (ProxyFactory.invalidate p f)).created :=
    le_trans hinv.2 hrun.2
  -- the slot is empty after the invalidation and stays empty
  have hempty0 : (ProxyFactory.invalidate p f).cache k = none := by
    have hl := hcache.2
    simp only [ProxyFactory.live] at hl
    simp only [ProxyFactory.invalidate]
    cases hp : f.proxies p with
    | none => rw [hp] at hl; cases hl
    | some ps =>
      simp only
      rw [if_pos hcache.1]
  have hempty := ProxyFactory.cache_none_run k events _ hnext hempty0
  have hmiss : ProxyFactory.lookup k
      (ProxyFactory.runEvents events (ProxyFactory.invalidate p f)) = none := by
    simp only [ProxyFactory.lookup, hempty]
  have hm := ProxyFactory.proxy_miss hmiss
  refine ⟨?_, ?_, ?_, ?_⟩
  · rw [hm.1]
    omega
  · rw [hm.1, hm.2.2]
    simp [setAt]
  · intro later
    apply ProxyFactory.Bound_run
    rw [hm.1, hm.2.1, hm.2.2]
    refine ⟨Nat.lt_succ_self _, { proxy := _ }, ?_, rfl, ?_⟩
    · simp
    · intro ht
      cases ht
  · have h1 := ProxyFactory.Serving_first k
      (ProxyFactory.runEvents events (ProxyFactory.invalidate p f))
    rw [(ProxyFactory.proxy_operations k _).1]
    exact ProxyFactory.Serving_completes k _ _ _ h1

theorem C23_factory_eviction_witness :
    (ProxyFactory.proxy ("session", "im.svc", "/c/a")
        (ProxyFactory.runEvents [ProxyFactory.FactoryEvent.loop]
          (ProxyFactory.invalidate 0
            (ProxyFactory.runEvents
              [ProxyFactory.FactoryEvent.request ("session", "im.svc", "/c/a"),
               ProxyFactory.FactoryEvent.becameReady 0, ProxyFactory.FactoryEvent.loop]
              {})))).proxy ≠ 0 ∧
    (ProxyFactory.proxy ("session", "im.svc", "/c/a")
        (ProxyFactory.runEvents [ProxyFactory.FactoryEvent.loop]
          (ProxyFactory.invalidate 0
            (ProxyFactory.runEvents
              [ProxyFactory.FactoryEvent.request ("session", "im.svc", "/c/a"),
               ProxyFactory.FactoryEvent.becameReady 0, ProxyFactory.FactoryEvent.loop]
              {})))).proxy = 1 :=
  ⟨(C23_factory_eviction
      (ProxyFactory.runEvents
        [ProxyFactory.FactoryEvent.request ("session", "im.svc", "/c/a"),
         ProxyFactory.FactoryEvent.becameReady 0, ProxyFactory.FactoryEvent.loop] {})
      ⟨_, rfl⟩ ("session", "im.svc", "/c/a") 0 (by decide)
      [ProxyFactory.FactoryEvent.loop] (by decide)).1,
   by decide⟩

end TelepathyQt
